import Mathlib

/-!
Deferred callback dispatch table (`src/zjs_callbacks.c`).

A shallow embedding of the callback table of zephyr.js and proofs about it.

Modelling conventions:

* The three file-scope globals `cb_limit`, `cb_size`, `cb_map` form the record `State`.
  `cb_map` is `none` while the pointer is `NULL`, otherwise the heap block it points to,
  a list with one cell per allocated pointer slot; a cell is `none` when it holds `NULL`.
* `int32_t` values are `Int`; signed overflow, a read or write outside an allocated
  block, a dereference of `NULL` and an access to a `zjs_callback_t` field through an
  entry that stores a `zjs_c_callback_t` are undefined behaviour in C and are reported
  as a `Fault`, so every operation returns `Except Fault _`.
* `zjs_malloc` may fail: every call site takes the outcome of its allocation as a `Bool`.
* `struct zjs_callback_map` is a type tag plus a union of two pointers that is always
  written together with the tag; it is embedded as a signal byte plus a tagged payload.
* `jerry_acquire_value` returns its argument and `jerry_release_value` only touches the
  engine's reference counts, which are outside the table state.
* Hooks, script functions and native callbacks are code outside this file: `Env` gives
  their effect on the table, and a service pass records every call in a list of `Event`s.
* `service_loop` returns the table and the calls of a pass that completes and only the
  fault otherwise; `service_run` is the same loop observed up to the point where it
  stops, and `service_loop_eq_run` relates the two.
-/

namespace Zjs

/-- An opaque address (`void*`, or the address of a hook or native function). -/
abbrev Ptr := Nat

/-- An engine value (`jerry_value_t` is a 32-bit opaque handle). -/
abbrev jerry_value_t := Nat

def INITIAL_CALLBACK_SIZE : Int := 16

def CB_CHUNK_SIZE : Int := 16

def CALLBACK_TYPE_JS : Nat := 0

def CALLBACK_TYPE_C : Nat := 1

def INT32_MAX : Int := 2147483647

def INT32_MIN : Int := -2147483648

/-- Undefined behaviour of the C program, made observable. -/
inductive Fault where
  | nullDeref
  | outOfBounds
  | wrongMember
  | overflow
  | outOfFuel
deriving DecidableEq, Repr

/-- The record `struct zjs_callback_t`; an absent hook is a `NULL` function pointer. -/
structure zjs_callback_t where
  id : Int
  handle : Ptr
  pre : Option Ptr
  post : Option Ptr
  js_func : jerry_value_t
deriving DecidableEq, Repr

/-- The record `struct zjs_c_callback_t`. -/
structure zjs_c_callback_t where
  id : Int
  handle : Ptr
  function : Option Ptr
deriving DecidableEq, Repr

/-- The union member of `struct zjs_callback_map` together with its tag. -/
inductive Payload where
  | js (cb : zjs_callback_t)
  | c (cb : zjs_c_callback_t)
deriving DecidableEq, Repr

/-- The record `struct zjs_callback_map`. -/
structure zjs_callback_map where
  signal : Nat
  u : Payload
deriving DecidableEq, Repr

/-- The `type` byte of an entry. -/
def zjs_callback_map.type (e : zjs_callback_map) : Nat :=
  match e.u with
  | .js _ => CALLBACK_TYPE_JS
  | .c _ => CALLBACK_TYPE_C

/-- The `id` field of whichever record the entry points to. -/
def zjs_callback_map.id (e : zjs_callback_map) : Int :=
  match e.u with
  | .js cb => cb.id
  | .c cb => cb.id

/-- One heap block of entry pointers. -/
abbrev Block := List (Option zjs_callback_map)

/-- The file-scope variables `cb_limit`, `cb_size` and `cb_map`. -/
structure State where
  cb_limit : Int
  cb_size : Int
  cb_map : Option Block
deriving DecidableEq, Repr

/-- The values of the globals at program start. -/
def State.static : State :=
  { cb_limit := INITIAL_CALLBACK_SIZE, cb_size := 0, cb_map := none }

/-- The rvalue `cb_map[id]`. -/
def readSlot (s : State) (id : Int) : Except Fault (Option zjs_callback_map) :=
  match s.cb_map with
  | none => .error .nullDeref
  | some m =>
    if 0 ≤ id then
      match m[id.toNat]? with
      | some x => .ok x
      | none => .error .outOfBounds
    else .error .outOfBounds

/-- The assignment `cb_map[id] = v`. -/
def writeSlot (s : State) (id : Int) (v : Option zjs_callback_map) : Except Fault State :=
  match s.cb_map with
  | none => .error .nullDeref
  | some m =>
    if 0 ≤ id ∧ id.toNat < m.length then
      .ok { s with cb_map := some (m.set id.toNat v) }
    else .error .outOfBounds

/-- The loop `while (cb_map[id] != NULL) id++` run on a block from index `id`:
the index where it stops, or `none` when it runs off the end of the block. -/
def scanFree : Block → Nat → Option Nat
  | [], _ => none
  | none :: _, id => some id
  | some _ :: rest, id => scanFree rest (id + 1)

/-- Lines 62-65 of `new_id`: the scan for the first `NULL` slot, from index 0. -/
def new_id_scan (s : State) : Except Fault (State × Int) :=
  match s.cb_map with
  | none => .error .nullDeref
  | some m =>
    match scanFree m 0 with
    | none => .error .outOfBounds
    | some n => if (n : Int) ≤ INT32_MAX then .ok (s, (n : Int)) else .error .overflow

/-- The function `new_id`; `mallocOk` is the outcome of the allocation of the larger map.
The `memcpy` of `cb_size` pointers must fit the old and the new block. -/
def new_id (mallocOk : Bool) (s : State) : Except Fault (State × Int) :=
  if s.cb_size ≥ s.cb_limit then
    if s.cb_limit + CB_CHUNK_SIZE > INT32_MAX then .error .overflow
    else
      let s1 := { s with cb_limit := s.cb_limit + CB_CHUNK_SIZE }
      if !mallocOk then .ok (s1, -1)
      else
        match s1.cb_map with
        | none => .error .nullDeref
        | some m =>
          if 0 ≤ s1.cb_size ∧ s1.cb_size.toNat ≤ m.length ∧ s1.cb_size ≤ s1.cb_limit then
            new_id_scan { s1 with
              cb_map := some (m.take s1.cb_size.toNat ++
                List.replicate (s1.cb_limit.toNat - s1.cb_size.toNat) none) }
          else .error .outOfBounds
  else new_id_scan s

/-- The function `zjs_init_callbacks`. -/
def zjs_init_callbacks (mallocOk : Bool) (s : State) : State :=
  match s.cb_map with
  | some _ => s
  | none =>
    if mallocOk then { s with cb_map := some (List.replicate INITIAL_CALLBACK_SIZE.toNat none) }
    else s

/-- The function `zjs_edit_js_func`. Reached through a Native entry, `js->js_func` goes
through the union member that was not stored and lies past the end of the smaller
`struct zjs_c_callback_t` allocation. -/
def zjs_edit_js_func (id : Int) (func : jerry_value_t) (s : State) : Except Fault State :=
  if id ≠ -1 then
    match readSlot s id with
    | .error f => .error f
    | .ok none => .error .nullDeref
    | .ok (some e) =>
      match e.u with
      | .js cb => writeSlot s id (some { e with u := .js { cb with js_func := func } })
      | .c _ => .error .wrongMember
  else .ok s

/-- The increment `cb_size++`. -/
def incrSize (s : State) : Except Fault State :=
  if s.cb_size < INT32_MAX then .ok { s with cb_size := s.cb_size + 1 } else .error .overflow

/-- The decrement `cb_size--`. -/
def decrSize (s : State) : Except Fault State :=
  if INT32_MIN < s.cb_size then .ok { s with cb_size := s.cb_size - 1 } else .error .overflow

/-- The function `zjs_add_callback`; `okCb`, `okJs`, `okMap` are the outcomes of the
allocations of the entry, of its `zjs_callback_t` record and (inside `new_id`) of the
larger map. -/
def zjs_add_callback (okCb okJs okMap : Bool) (js_func : jerry_value_t) (handle : Ptr)
    (pre post : Option Ptr) (s : State) : Except Fault (State × Int) :=
  if !okCb then .ok (s, -1)
  else if !okJs then .ok (s, -1)
  else
    match new_id okMap s with
    | .error f => .error f
    | .ok (s1, id) =>
      let new_cb : zjs_callback_map :=
        { signal := 0
          u := .js { id := id, handle := handle, pre := pre, post := post, js_func := js_func } }
      match writeSlot s1 id (some new_cb) with
      | .error f => .error f
      | .ok s2 =>
        match incrSize s2 with
        | .error f => .error f
        | .ok s3 => .ok (s3, id)

/-- The function `zjs_remove_callback`. -/
def zjs_remove_callback (id : Int) (s : State) : Except Fault State :=
  if id ≠ -1 then
    match readSlot s id with
    | .error f => .error f
    | .ok none => .ok s
    | .ok (some _) =>
      match writeSlot s id none with
      | .error f => .error f
      | .ok s1 => decrSize s1
  else .ok s

/-- The function `zjs_signal_callback`. -/
def zjs_signal_callback (id : Int) (s : State) : Except Fault State :=
  if id ≠ -1 then
    match readSlot s id with
    | .error f => .error f
    | .ok none => .ok s
    | .ok (some e) => writeSlot s id (some { e with signal := 1 })
  else .ok s

/-- The function `zjs_add_c_callback`; `okCb`, `okC`, `okMap` are the outcomes of the
allocations of the entry, of its `zjs_c_callback_t` record and of the larger map. -/
def zjs_add_c_callback (okCb okC okMap : Bool) (handle : Ptr) (callback : Option Ptr)
    (s : State) : Except Fault (State × Int) :=
  if !okCb then .ok (s, -1)
  else if !okC then .ok (s, -1)
  else
    match new_id okMap s with
    | .error f => .error f
    | .ok (s1, id) =>
      let new_cb : zjs_callback_map :=
        { signal := 0, u := .c { id := id, function := callback, handle := handle } }
      match writeSlot s1 id (some new_cb) with
      | .error f => .error f
      | .ok s2 =>
        match incrSize s2 with
        | .error f => .error f
        | .ok s3 => .ok (s3, id)

/-- A call made by a service pass to code outside the table, with the slot index `i`
of the entry it was made for. -/
inductive Event where
  | pre (i : Nat) (hook : Ptr) (handle : Ptr)
  | js_call (i : Nat) (func : jerry_value_t) (this_val : jerry_value_t)
      (args : List jerry_value_t) (args_cnt : Nat)
  | post (i : Nat) (hook : Ptr) (handle : Ptr) (ret_val : jerry_value_t)
  | c_call (i : Nat) (function : Ptr) (handle : Ptr)
deriving DecidableEq, Repr

/-- The code outside the table that a service pass calls. Every callee may use the
table's API, so it maps the table state to a new one. `ret_val` is the content of the
local variable `ret_val` of `zjs_service_callbacks`, which is never assigned. -/
structure Env where
  ZJS_UNDEFINED : jerry_value_t
  ret_val : jerry_value_t
  jerry_value_is_function : jerry_value_t → Bool
  pre : Ptr → Ptr → State → Except Fault (List jerry_value_t × Nat × State)
  jerry_call_function : jerry_value_t → jerry_value_t → List jerry_value_t → Nat → State →
    Except Fault (jerry_value_t × State)
  post : Ptr → Ptr → jerry_value_t → State → Except Fault State
  c_function : Ptr → Ptr → State → Except Fault State

/-- The lvalue `*cb_map[i]`. -/
def getEntry (s : State) (i : Int) : Except Fault zjs_callback_map :=
  match readSlot s i with
  | .error f => .error f
  | .ok none => .error .nullDeref
  | .ok (some e) => .ok e

/-- The lvalue `*cb_map[i]->js`. -/
def getJs (s : State) (i : Int) : Except Fault zjs_callback_t :=
  match getEntry s i with
  | .error f => .error f
  | .ok e =>
    match e.u with
    | .js cb => .ok cb
    | .c _ => .error .wrongMember

/-- Lines 188-194 of `zjs_service_callbacks`: `args_cnt = 0`, `args = NULL`, and the call
of the pre hook when the entry has one. -/
def service_pre (env : Env) (i : Nat) (s : State) :
    Except Fault (List jerry_value_t × Nat × State × List Event) :=
  match getJs s i with
  | .error f => .error f
  | .ok cb =>
    match cb.pre with
    | none => .ok ([], 0, s, [])
    | some p =>
      match env.pre p cb.handle s with
      | .error f => .error f
      | .ok (args, args_cnt, s1) => .ok (args, args_cnt, s1, [Event.pre i p cb.handle])

/-- Line 198 of `zjs_service_callbacks`: the call of the script function; its result is
dropped. -/
def service_call (env : Env) (i : Nat) (args : List jerry_value_t) (args_cnt : Nat)
    (s : State) : Except Fault (State × List Event) :=
  match getJs s i with
  | .error f => .error f
  | .ok cb =>
    match env.jerry_call_function cb.js_func env.ZJS_UNDEFINED args args_cnt s with
    | .error f => .error f
    | .ok (_, s1) => .ok (s1, [Event.js_call i cb.js_func env.ZJS_UNDEFINED args args_cnt])

/-- Lines 199-201 of `zjs_service_callbacks`: the call of the post hook when the entry
has one, with the address of the unassigned local `ret_val`. -/
def service_post (env : Env) (i : Nat) (s : State) : Except Fault (State × List Event) :=
  match getJs s i with
  | .error f => .error f
  | .ok cb =>
    match cb.post with
    | none => .ok (s, [])
    | some p =>
      match env.post p cb.handle env.ret_val s with
      | .error f => .error f
      | .ok s1 => .ok (s1, [Event.post i p cb.handle env.ret_val])

/-- The then-branch of line 187: pre hook, script function, post hook. -/
def service_js (env : Env) (i : Nat) (s : State) : Except Fault (State × List Event) :=
  match service_pre env i s with
  | .error f => .error f
  | .ok (args, args_cnt, s1, ev1) =>
    match service_call env i args args_cnt s1 with
    | .error f => .error f
    | .ok (s2, ev2) =>
      match service_post env i s2 with
      | .error f => .error f
      | .ok (s3, ev3) => .ok (s3, ev1 ++ ev2 ++ ev3)

/-- The body of the loop of `zjs_service_callbacks` for the index `i`. The match on the
payload is the test of the `type` byte, which is written together with the payload. -/
def service_entry (env : Env) (i : Nat) (s : State) : Except Fault (State × List Event) :=
  match getEntry s i with
  | .error f => .error f
  | .ok e =>
    if e.signal ≠ 0 then
      match writeSlot s i (some { e with signal := 0 }) with
      | .error f => .error f
      | .ok s1 =>
        match e.u with
        | .js cb =>
          if env.jerry_value_is_function cb.js_func then service_js env i s1
          else .ok (s1, [])
        | .c cb =>
          match cb.function with
          | none => .ok (s1, [])
          | some f =>
            match env.c_function f cb.handle s1 with
            | .error f => .error f
            | .ok s2 => .ok (s2, [Event.c_call i f cb.handle])
    else .ok (s, [])

/-- The loop `for (i = 0; i < cb_size; i++)` from index `i`; `cb_size` is read again at
every test. A callee may register entries, so the loop is bounded by `fuel`. -/
def service_loop (env : Env) : Nat → Nat → State → Except Fault (State × List Event)
  | 0, _, _ => .error .outOfFuel
  | fuel + 1, i, s =>
    if (i : Int) < s.cb_size then
      match service_entry env i s with
      | .error f => .error f
      | .ok (s1, ev1) =>
        match service_loop env fuel (i + 1) s1 with
        | .error f => .error f
        | .ok (s2, ev2) => .ok (s2, ev1 ++ ev2)
    else .ok (s, [])

/-- The function `zjs_service_callbacks`: the final table and the calls made, in order. -/
def zjs_service_callbacks (env : Env) (fuel : Nat) (s : State) :
    Except Fault (State × List Event) :=
  service_loop env fuel 0 s

/-- A registration call with its arguments and allocation outcomes. -/
inductive Registration where
  | js (okCb okJs okMap : Bool) (js_func : jerry_value_t) (handle : Ptr)
      (pre post : Option Ptr)
  | c (okCb okC okMap : Bool) (handle : Ptr) (callback : Option Ptr)
deriving DecidableEq, Repr

/-- Runs `zjs_add_callback` or `zjs_add_c_callback`. -/
def register : Registration → State → Except Fault (State × Int)
  | .js okCb okJs okMap js_func handle pre post, s =>
    zjs_add_callback okCb okJs okMap js_func handle pre post s
  | .c okCb okC okMap handle callback, s => zjs_add_c_callback okCb okC okMap handle callback s

/-- A call of the public API that is not a registration. -/
inductive Op where
  | remove (id : Int)
  | signal (id : Int)
  | edit (id : Int) (func : jerry_value_t)
deriving DecidableEq, Repr

/-- Runs `zjs_remove_callback`, `zjs_signal_callback` or `zjs_edit_js_func`. -/
def Op.run : Op → State → Except Fault State
  | .remove id, s => zjs_remove_callback id s
  | .signal id, s => zjs_signal_callback id s
  | .edit id func, s => zjs_edit_js_func id func s

/-- Runs a sequence of non-registration calls, stopping at the first fault. -/
def runOps : List Op → State → Except Fault State
  | [], s => .ok s
  | op :: ops, s =>
    match op.run s with
    | .error f => .error f
    | .ok s1 => runOps ops s1

/-- The table right after a successful `zjs_init_callbacks` at program start. -/
def State.init : State := zjs_init_callbacks true State.static

/-- The states reached from `zjs_init_callbacks` by calls of the public API that
return (no fault). -/
inductive Reachable : State → Prop where
  | init : Reachable State.init
  | register (r : Registration) (s s1 : State) (id : Int) :
      Reachable s → register r s = .ok (s1, id) → Reachable s1
  | op (o : Op) (s s1 : State) : Reachable s → o.run s = .ok s1 → Reachable s1

/-- The content of slot `i`: `none` when the slot holds `NULL` or lies outside the map. -/
def slotAt (s : State) (i : Nat) : Option zjs_callback_map :=
  match s.cb_map with
  | none => none
  | some m => (m[i]?).join

/-- Slot `i` holds an entry. -/
def occupied (s : State) (i : Nat) : Bool := (slotAt s i).isSome

/-- The entry that a registration stores when `new_id` returned `id`. -/
def Registration.entry : Registration → Int → zjs_callback_map
  | .js _ _ _ js_func handle pre post, id =>
    { signal := 0
      u := .js { id := id, handle := handle, pre := pre, post := post, js_func := js_func } }
  | .c _ _ _ handle callback, id =>
    { signal := 0, u := .c { id := id, function := callback, handle := handle } }

/-- Both allocations made before `new_id` succeed. -/
def Registration.allocOk : Registration → Bool
  | .js okCb okJs _ _ _ _ _ => okCb && okJs
  | .c okCb okC _ _ _ => okCb && okC

/-- The outcome of the allocation inside `new_id`. -/
def Registration.mapOk : Registration → Bool
  | .js _ _ okMap _ _ _ _ => okMap
  | .c _ _ okMap _ _ => okMap

/-- The number of cells of a block that hold an entry. -/
def liveCount : Block → Nat
  | [] => 0
  | none :: rest => liveCount rest
  | some _ :: rest => liveCount rest + 1

/-- The table invariant: the map is allocated with exactly `cb_limit` cells, `cb_size`
counts the cells that hold an entry, every entry stores the index of its own cell in its
`id` field, and `cb_limit` is an `int32_t` value. -/
def Inv (s : State) : Prop :=
  ∃ m : Block, s.cb_map = some m ∧ (m.length : Int) = s.cb_limit ∧
    s.cb_size = (liveCount m : Int) ∧
    (∀ (i : Nat) (e : zjs_callback_map), m[i]? = some (some e) → e.id = (i : Int)) ∧
    s.cb_limit ≤ INT32_MAX

/-- A scripted registration (function 7, context 100, pre hook 1, post hook 2) whose
allocations succeed. -/
def demoA : Registration := .js true true true 7 100 (some 1) (some 2)

/-- A native registration (context 200, function 9) whose allocations succeed. -/
def demoB : Registration := .c true true true 200 (some 9)

/-- The table after registering `demoA`. -/
def tableA : State :=
  { cb_limit := 16, cb_size := 1,
    cb_map := some (some (demoA.entry 0) :: List.replicate 15 none) }

/-- The table after registering `demoA`, then `demoB`. -/
def tableAB : State :=
  { cb_limit := 16, cb_size := 2,
    cb_map := some (some (demoA.entry 0) :: some (demoB.entry 1) :: List.replicate 14 none) }

/-- The table after registering `demoA`, `demoB`, `demoB`. -/
def tableABB : State :=
  { cb_limit := 16, cb_size := 3,
    cb_map := some (some (demoA.entry 0) :: some (demoB.entry 1) :: some (demoB.entry 2) ::
      List.replicate 13 none) }

/-- The table `tableABB` after removing handle 1: a free slot below a live entry. -/
def tableGap : State :=
  { cb_limit := 16, cb_size := 2,
    cb_map := some (some (demoA.entry 0) :: none :: some (demoB.entry 2) ::
      List.replicate 13 none) }

/-- An initialised table: the map is allocated with `cb_limit` cells and the count of
live entries is not negative. -/
def Initialised (s : State) : Prop :=
  ∃ m : Block, s.cb_map = some m ∧ (m.length : Int) = s.cb_limit ∧ 0 ≤ s.cb_size

/-- The table after `k` registrations of `demoB` on the initial table (`k ≤ 16`). -/
def tableN (k : Nat) : State :=
  { cb_limit := 16, cb_size := (k : Int),
    cb_map := some ((List.range k).map (fun i => some (demoB.entry (i : Int))) ++
      List.replicate (16 - k) none) }

/-- The table with all 16 slots of the initial map occupied. -/
def tableFull : State := tableN 16

/-- The table `tableFull` after one more registration of `demoB`, which grows the map. -/
def tableGrown : State :=
  { cb_limit := 32, cb_size := 17,
    cb_map := some ((List.range 17).map (fun i => some (demoB.entry (i : Int))) ++
      List.replicate 15 none) }

/-- The occupied slots are exactly the slots `0 .. cb_size - 1`. -/
def Compact (s : State) : Prop :=
  ∀ i : Nat, occupied s i = true ↔ (i : Int) < s.cb_size

/-- Every hook, script function and native callback returns and leaves the table as it
found it. -/
def Env.Inert (env : Env) : Prop :=
  (∀ (p h : Ptr) (s : State), ∃ args args_cnt, env.pre p h s = .ok (args, args_cnt, s)) ∧
  (∀ (f t : jerry_value_t) (args : List jerry_value_t) (args_cnt : Nat) (s : State),
    ∃ v, env.jerry_call_function f t args args_cnt s = .ok (v, s)) ∧
  (∀ (p h : Ptr) (v : jerry_value_t) (s : State), env.post p h v s = .ok s) ∧
  (∀ (f h : Ptr) (s : State), env.c_function f h s = .ok s)

/-- The event is the call of the handler (script function or native function) of the
entry in slot `h`. -/
def Event.isCallOf (h : Nat) : Event → Bool
  | .js_call i _ _ _ _ => i == h
  | .c_call i _ _ => i == h
  | _ => false

/-- How many times a pass called the handler of the entry in slot `h`. -/
def calls (h : Nat) (tr : List Event) : Nat := (tr.filter (Event.isCallOf h)).length

/-- The guard of lines 187 and 202: a Scripted entry whose `js_func` is a function, or a
Native entry whose function pointer is not `NULL`. -/
def callable (env : Env) (e : zjs_callback_map) : Bool :=
  match e.u with
  | .js cb => env.jerry_value_is_function cb.js_func
  | .c cb => cb.function.isSome

/-- Hooks and handlers that only return: the pre hook yields the one argument 42, values
7 and 8 are functions. -/
def demoEnv : Env :=
  { ZJS_UNDEFINED := 0
    ret_val := 99
    jerry_value_is_function := fun v => v == 7 || v == 8
    pre := fun _ _ s => .ok ([42], 1, s)
    jerry_call_function := fun _ _ _ _ s => .ok (5, s)
    post := fun _ _ _ s => .ok s
    c_function := fun _ _ s => .ok s }

/-- The table `tableAB` after removing handle 0: only handle 1 is live. -/
def tableB : State :=
  { cb_limit := 16, cb_size := 1,
    cb_map := some (none :: some (demoB.entry 1) :: List.replicate 14 none) }

/-- The table `tableB` with the entry at handle 1 signalled. -/
def tableBsig : State :=
  { cb_limit := 16, cb_size := 1,
    cb_map := some (none :: some { demoB.entry 1 with signal := 1 } :: List.replicate 14 none) }

/-- A scripted registration whose function value 3 is not a function for `demoEnv`. -/
def demoNF : Registration := .js true true true 3 100 (some 1) (some 2)

/-- The table after registering `demoNF`. -/
def tableNF : State :=
  { cb_limit := 16, cb_size := 1,
    cb_map := some (some (demoNF.entry 0) :: List.replicate 15 none) }

/-- The table `tableNF` with the entry at handle 0 signalled. -/
def tableNFsig : State :=
  { cb_limit := 16, cb_size := 1,
    cb_map := some (some { demoNF.entry 0 with signal := 1 } :: List.replicate 15 none) }

/-- The table `tableAB` with the entry at handle 1 signalled. -/
def tableABsig : State :=
  { cb_limit := 16, cb_size := 2,
    cb_map := some (some (demoA.entry 0) :: some { demoB.entry 1 with signal := 1 } ::
      List.replicate 14 none) }

/-- The table `tableA` with the entry at handle 0 signalled. -/
def tableAsig : State :=
  { cb_limit := 16, cb_size := 1,
    cb_map := some (some { demoA.entry 0 with signal := 1 } :: List.replicate 15 none) }

/-- The slot index an event was recorded for. -/
def Event.index : Event → Nat
  | .pre i _ _ => i
  | .js_call i _ _ _ _ => i
  | .post i _ _ _ => i
  | .c_call i _ _ => i

/-- The event was recorded for slot `h`. -/
def Event.atSlot (h : Nat) (ev : Event) : Bool := ev.index == h

/-- The slot index of a handler call (script function or native function); `none` for
the call of a hook. -/
def Event.callIndex : Event → Option Nat
  | .js_call i _ _ _ _ => some i
  | .c_call i _ _ => some i
  | _ => none

/-- The slots whose handler a pass called, in the order of the calls. -/
def invoked (tr : List Event) : List Nat := tr.filterMap Event.callIndex

/-- The calls the loop body makes for a signalled entry `e` in slot `i` when every callee
returns and leaves the table alone; `s` is the table with the flag of `e` already
cleared, on which the pre hook computes the arguments. -/
def entryEvents (env : Env) (i : Nat) (e : zjs_callback_map) (s : State) : List Event :=
  match e.u with
  | .js cb =>
    if env.jerry_value_is_function cb.js_func then
      (match cb.pre with
        | none => [Event.js_call i cb.js_func env.ZJS_UNDEFINED [] 0]
        | some p =>
          match env.pre p cb.handle s with
          | .ok (args, args_cnt, _) =>
            [Event.pre i p cb.handle,
              Event.js_call i cb.js_func env.ZJS_UNDEFINED args args_cnt]
          | .error _ => []) ++
      (match cb.post with
        | none => []
        | some q => [Event.post i q cb.handle env.ret_val])
    else []
  | .c cb =>
    match cb.function with
    | none => []
    | some f => [Event.c_call i f cb.handle]

/-- The block with the signal flag cleared in the slots `lo .. hi - 1`, the first cell of
the block being slot `j`. -/
def clearFlagsAux (lo hi : Nat) : Nat → Block → Block
  | _, [] => []
  | j, x :: rest =>
    (if lo ≤ j ∧ j < hi then x.map (fun e => { e with signal := 0 }) else x) ::
      clearFlagsAux lo hi (j + 1) rest

/-- The block with the signal flag of every entry in the slots `lo .. hi - 1` set to 0. -/
def clearFlags (lo hi : Nat) (m : Block) : Block := clearFlagsAux lo hi 0 m

/-- The pass reaches slot `j` with a signalled entry whose handler passes the guard of
line 187 or line 202. -/
def fires (env : Env) (m : Block) (j : Nat) : Bool :=
  match m[j]? with
  | some (some e) => e.signal != 0 && callable env e
  | _ => false

/-- The table with the signal flag of every entry in the slots below `n` set to 0. -/
def State.clearedBelow (s : State) (n : Nat) : State :=
  { s with cb_map := s.cb_map.map (clearFlags 0 n) }

/-- The table with the signal flag of every entry in the slots below `cb_size` set to 0. -/
def State.cleared (s : State) : State := s.clearedBelow s.cb_size.toNat

/-- Slot `j` holds a signalled entry whose handler passes the guard of line 187 or 202. -/
def flagged (env : Env) (s : State) (j : Nat) : Bool :=
  match slotAt s j with
  | some e => e.signal != 0 && callable env e
  | none => false

/-- The table after `zjs_add_c_callback 200 9` on the freshly initialised table. -/
def tableC : State :=
  { cb_limit := 16, cb_size := 1,
    cb_map := some (some (demoB.entry 0) :: List.replicate 15 none) }

/-- The table `tableC` with the entry at handle 0 signalled. -/
def tableCsig : State :=
  { cb_limit := 16, cb_size := 1,
    cb_map := some (some { demoB.entry 0 with signal := 1 } :: List.replicate 15 none) }

/-- A native registration with a `NULL` function pointer. -/
def demoNull : Registration := .c true true true 200 none

/-- The table after registering `demoNull` on the freshly initialised table. -/
def tableNull : State :=
  { cb_limit := 16, cb_size := 1,
    cb_map := some (some (demoNull.entry 0) :: List.replicate 15 none) }

/-- The table `tableNull` with the entry at handle 0 signalled. -/
def tableNullSig : State :=
  { cb_limit := 16, cb_size := 1,
    cb_map := some (some { demoNull.entry 0 with signal := 1 } :: List.replicate 15 none) }

/-- The loop of `zjs_service_callbacks` from index `i`, observed up to the point where it
stops: the table and the calls of the iterations that completed, and the fault of the
iteration that did not complete, if there is one. -/
def service_run (env : Env) : Nat → Nat → State → State × List Event × Option Fault
  | 0, _, s => (s, [], some .outOfFuel)
  | fuel + 1, i, s =>
    if (i : Int) < s.cb_size then
      match service_entry env i s with
      | .error f => (s, [], some f)
      | .ok (s1, ev1) =>
        match service_run env fuel (i + 1) s1 with
        | (s2, ev2, f) => (s2, ev1 ++ ev2, f)
    else (s, [], none)

/-- Every hook returns and leaves the table alone; every handler (script function or
native function) returns after it has either left the table alone or made the one call
`zjs_signal_callback h`. -/
def Env.SignalsOnly (env : Env) (h : Int) : Prop :=
  (∀ (p c : Ptr) (s : State), ∃ args args_cnt, env.pre p c s = .ok (args, args_cnt, s)) ∧
  (∀ (f t : jerry_value_t) (args : List jerry_value_t) (args_cnt : Nat) (s : State),
    ∃ v, env.jerry_call_function f t args args_cnt s = .ok (v, s) ∨
      env.jerry_call_function f t args args_cnt s =
        match zjs_signal_callback h s with
        | .ok s1 => .ok (v, s1)
        | .error x => .error x) ∧
  (∀ (p c : Ptr) (v : jerry_value_t) (s : State), env.post p c v s = .ok s) ∧
  (∀ (f c : Ptr) (s : State),
    env.c_function f c s = .ok s ∨ env.c_function f c s = zjs_signal_callback h s)

/-- The handler of the entry `e` (its script function, or its native function with its
context) makes the call `zjs_signal_callback h`. -/
def Env.HandlerSignals (env : Env) (e : zjs_callback_map) (h : Int) : Prop :=
  match e.u with
  | .js cb =>
    ∀ (t : jerry_value_t) (args : List jerry_value_t) (args_cnt : Nat) (s : State),
      ∃ v, env.jerry_call_function cb.js_func t args args_cnt s =
        match zjs_signal_callback h s with
        | .ok s1 => .ok (v, s1)
        | .error x => .error x
  | .c cb => ∀ f : Ptr, cb.function = some f →
      ∀ s : State, env.c_function f cb.handle s = zjs_signal_callback h s

/-- The payloads of the cells of a block, without the signal flags. -/
def payloads (m : Block) : List (Option Payload) := m.map (Option.map (fun e => e.u))

/-- Hooks that only return, and handlers of which the native function 9 signals handle 1
during its own invocation. -/
def resignalEnv : Env :=
  { ZJS_UNDEFINED := 0
    ret_val := 99
    jerry_value_is_function := fun v => v == 7 || v == 8
    pre := fun _ _ s => .ok ([42], 1, s)
    jerry_call_function := fun _ _ _ _ s => .ok (5, s)
    post := fun _ _ _ s => .ok s
    c_function := fun f _ s => if f = 9 then zjs_signal_callback 1 s else .ok s }

/-- Hooks that only return, and handlers of which the native function 9 looks at the flag
of slot 1 in the table it is given: it signals handle 1 when it finds that flag 0, and
handle 0 otherwise. -/
def probeEnv : Env :=
  { ZJS_UNDEFINED := 0
    ret_val := 99
    jerry_value_is_function := fun v => v == 7 || v == 8
    pre := fun _ _ s => .ok ([42], 1, s)
    jerry_call_function := fun _ _ _ _ s => .ok (5, s)
    post := fun _ _ _ s => .ok s
    c_function := fun f _ s =>
      if f = 9 then
        match slotAt s 1 with
        | some e => if e.signal = 0 then zjs_signal_callback 1 s else zjs_signal_callback 0 s
        | none => .ok s
      else .ok s }

theorem liveCount_le (m : Block) : liveCount m ≤ m.length := by
  induction m with
  | nil => simp [liveCount]
  | cons x rest ih => cases x <;> simp [liveCount] <;> omega

theorem scanFree_some (m : Block) (k n : Nat) (h : scanFree m k = some n) :
    k ≤ n ∧ n - k < m.length ∧ m[n - k]? = some none ∧
      ∀ j, j < n - k → ∃ e, m[j]? = some (some e) := by
  induction m generalizing k with
  | nil => simp [scanFree] at h
  | cons x rest ih =>
    cases x with
    | none =>
      simp [scanFree] at h
      subst h
      simp
    | some e =>
      simp only [scanFree] at h
      obtain ⟨h1, h2, h3, h4⟩ := ih (k + 1) h
      have hk : n - k = (n - (k + 1)) + 1 := by omega
      refine ⟨by omega, ?_, ?_, ?_⟩
      · simp only [List.length_cons]; omega
      · rw [hk, List.getElem?_cons_succ]; exact h3
      · intro j hj
        cases j with
        | zero => exact ⟨e, by simp⟩
        | succ j =>
          rw [List.getElem?_cons_succ]
          exact h4 j (by omega)

theorem scanFree_none (m : Block) (k : Nat) (h : scanFree m k = none) :
    liveCount m = m.length := by
  induction m generalizing k with
  | nil => simp [liveCount]
  | cons x rest ih =>
    cases x with
    | none => simp [scanFree] at h
    | some e =>
      simp only [scanFree] at h
      simp [liveCount, ih (k + 1) h]

theorem liveCount_full (m : Block) (h : liveCount m = m.length) (j : Nat) (hj : j < m.length) :
    ∃ e, m[j]? = some (some e) := by
  induction m generalizing j with
  | nil => simp at hj
  | cons x rest ih =>
    cases x with
    | none =>
      simp only [liveCount, List.length_cons] at h
      have := liveCount_le rest
      omega
    | some e =>
      simp only [liveCount, List.length_cons] at h
      cases j with
      | zero => exact ⟨e, by simp⟩
      | succ j =>
        rw [List.getElem?_cons_succ]
        exact ih (by omega) j (by simpa using hj)

theorem liveCount_set_some (m : Block) (i : Nat) (e : zjs_callback_map)
    (h : m[i]? = some none) : liveCount (m.set i (some e)) = liveCount m + 1 := by
  induction m generalizing i with
  | nil => simp at h
  | cons x rest ih =>
    cases i with
    | zero =>
      simp at h
      subst h
      simp [liveCount]
    | succ i =>
      rw [List.getElem?_cons_succ] at h
      cases x <;> simp [liveCount, ih i h]

theorem liveCount_set_none (m : Block) (i : Nat) (e : zjs_callback_map)
    (h : m[i]? = some (some e)) : liveCount (m.set i none) + 1 = liveCount m := by
  induction m generalizing i with
  | nil => simp at h
  | cons x rest ih =>
    cases i with
    | zero =>
      simp at h
      subst h
      simp [liveCount]
    | succ i =>
      rw [List.getElem?_cons_succ] at h
      cases x <;> simp [liveCount, ← ih i h]

theorem liveCount_set_same (m : Block) (i : Nat) (e e1 : zjs_callback_map)
    (h : m[i]? = some (some e)) : liveCount (m.set i (some e1)) = liveCount m := by
  induction m generalizing i with
  | nil => simp at h
  | cons x rest ih =>
    cases i with
    | zero =>
      simp at h
      subst h
      simp [liveCount]
    | succ i =>
      rw [List.getElem?_cons_succ] at h
      cases x <;> simp [liveCount, ih i h]

theorem liveCount_append_replicate (m : Block) (k : Nat) :
    liveCount (m ++ List.replicate k none) = liveCount m := by
  induction m with
  | nil =>
    induction k with
    | zero => simp [liveCount]
    | succ k ih => simpa [List.replicate_succ, liveCount] using ih
  | cons x rest ih => cases x <;> simp [liveCount, ih]

theorem scanFree_full_append (m rest : Block) (k : Nat) (h : liveCount m = m.length) :
    scanFree (m ++ none :: rest) k = some (k + m.length) := by
  induction m generalizing k with
  | nil => simp [scanFree]
  | cons x r ih =>
    cases x with
    | none =>
      simp only [liveCount, List.length_cons] at h
      have := liveCount_le r
      omega
    | some e =>
      simp only [liveCount, List.length_cons] at h
      have := ih (k + 1) (by omega)
      show scanFree (r ++ none :: rest) (k + 1) = some (k + (r.length + 1))
      rw [this]
      congr 1
      omega

theorem new_id_scan_spec (s s1 : State) (id : Int) (m : Block) (hm : s.cb_map = some m)
    (h : new_id_scan s = .ok (s1, id)) :
    s1 = s ∧ ∃ n : Nat, id = (n : Int) ∧ n < m.length ∧ m[n]? = some none ∧
      (∀ j, j < n → ∃ e, m[j]? = some (some e)) := by
  unfold new_id_scan at h
  rw [hm] at h
  simp only at h
  cases hs : scanFree m 0 with
  | none => rw [hs] at h; simp at h
  | some n =>
    rw [hs] at h
    simp only at h
    split at h
    · simp only [Except.ok.injEq, Prod.mk.injEq] at h
      obtain ⟨h1, h2⟩ := h
      have := scanFree_some m 0 n hs
      simp only [Nat.sub_zero] at this
      exact ⟨h1.symm, n, h2.symm, this.2.1, this.2.2.1, this.2.2.2⟩
    · simp at h

theorem new_id_spec (ok : Bool) (s s1 : State) (id : Int) (m : Block)
    (hm : s.cb_map = some m) (hlen : (m.length : Int) = s.cb_limit)
    (hsz : s.cb_size = (liveCount m : Int)) (h : new_id ok s = .ok (s1, id)) :
    (id = -1 ∧ ok = false ∧ liveCount m = m.length ∧
        s1 = { s with cb_limit := s.cb_limit + CB_CHUNK_SIZE }) ∨
    (∃ n : Nat, id = (n : Int) ∧
      ((s1 = s ∧ liveCount m < m.length ∧ n < m.length ∧ m[n]? = some none ∧
          ∀ j, j < n → ∃ e, m[j]? = some (some e)) ∨
       (s1 = { s with cb_limit := s.cb_limit + CB_CHUNK_SIZE,
                      cb_map := some (m ++ List.replicate 16 none) } ∧
          liveCount m = m.length ∧ n = m.length ∧
          s.cb_limit + CB_CHUNK_SIZE ≤ INT32_MAX))) := by
  have hle := liveCount_le m
  unfold new_id at h
  by_cases hfull : s.cb_size ≥ s.cb_limit
  · have hfl : liveCount m = m.length := by omega
    rw [if_pos hfull] at h
    by_cases hov : s.cb_limit + CB_CHUNK_SIZE > INT32_MAX
    · rw [if_pos hov] at h; simp at h
    · rw [if_neg hov] at h
      cases ok with
      | false =>
        simp only [Bool.not_false, if_true, Except.ok.injEq, Prod.mk.injEq] at h
        exact Or.inl ⟨h.2.symm, rfl, hfl, h.1.symm⟩
      | true =>
        simp only [Bool.not_true, Bool.false_eq_true, if_false, hm] at h
        have hc : 0 ≤ s.cb_size ∧ s.cb_size.toNat ≤ m.length ∧
            s.cb_size ≤ s.cb_limit + CB_CHUNK_SIZE := by
          simp only [CB_CHUNK_SIZE]
          omega
        rw [if_pos hc] at h
        have htake : List.take s.cb_size.toNat m = m := by
          apply List.take_of_length_le
          omega
        have hrep : (s.cb_limit + CB_CHUNK_SIZE).toNat - s.cb_size.toNat = 16 := by
          simp only [CB_CHUNK_SIZE]
          omega
        rw [htake, hrep] at h
        have h2 := new_id_scan_spec _ s1 id (m ++ List.replicate 16 none) rfl h
        obtain ⟨hs1, n, hid, -, -, -⟩ := h2
        have hscan := scanFree_full_append m (List.replicate 15 none) 0 hfl
        unfold new_id_scan at h
        simp only [List.replicate_succ] at h hscan
        simp only [List.replicate_succ, hscan, Nat.zero_add] at h
        split at h
        · simp only [Except.ok.injEq, Prod.mk.injEq] at h
          refine Or.inr ⟨m.length, h.2.symm, Or.inr ⟨?_, hfl, rfl, by omega⟩⟩
          rw [← h.1]
          simp [List.replicate_succ]
        · simp at h
  · rw [if_neg hfull] at h
    obtain ⟨hs1, n, hid, hn, hnone, hbelow⟩ := new_id_scan_spec s s1 id m hm h
    exact Or.inr ⟨n, hid, Or.inl ⟨hs1, by omega, hn, hnone, hbelow⟩⟩

theorem register_eq (r : Registration) (s : State) :
    register r s =
      if !r.allocOk then .ok (s, -1)
      else
        match new_id r.mapOk s with
        | .error f => .error f
        | .ok (s1, id) =>
          match writeSlot s1 id (some (r.entry id)) with
          | .error f => .error f
          | .ok s2 =>
            match incrSize s2 with
            | .error f => .error f
            | .ok s3 => .ok (s3, id) := by
  cases r with
  | js okCb okJs okMap js_func handle pre post =>
    cases okCb <;> cases okJs <;>
      simp [register, zjs_add_callback, Registration.allocOk, Registration.mapOk,
        Registration.entry]
  | c okCb okC okMap handle callback =>
    cases okCb <;> cases okC <;>
      simp [register, zjs_add_c_callback, Registration.allocOk, Registration.mapOk,
        Registration.entry]

theorem readSlot_ok (s : State) (m : Block) (hm : s.cb_map = some m) (id : Int)
    (x : Option zjs_callback_map) :
    readSlot s id = .ok x ↔ 0 ≤ id ∧ m[id.toNat]? = some x := by
  unfold readSlot
  rw [hm]
  simp only
  by_cases h0 : 0 ≤ id
  · rw [if_pos h0]
    cases hx : m[id.toNat]? with
    | none => simp
    | some y => simp [h0]
  · rw [if_neg h0]
    constructor
    · intro h; cases h
    · intro h; exact absurd h.1 h0

theorem writeSlot_ok (s s1 : State) (m : Block) (hm : s.cb_map = some m) (id : Int)
    (v : Option zjs_callback_map) :
    writeSlot s id v = .ok s1 ↔
      0 ≤ id ∧ id.toNat < m.length ∧ s1 = { s with cb_map := some (m.set id.toNat v) } := by
  unfold writeSlot
  rw [hm]
  simp only
  by_cases h0 : 0 ≤ id ∧ id.toNat < m.length
  · rw [if_pos h0]
    simp only [Except.ok.injEq]
    constructor
    · intro h; exact ⟨h0.1, h0.2, h.symm⟩
    · intro h; exact h.2.2.symm
  · rw [if_neg h0]
    constructor
    · intro h; cases h
    · intro h; exact absurd ⟨h.1, h.2.1⟩ h0

theorem writeSlot_neg_one (s : State) (v : Option zjs_callback_map) :
    ∃ f, writeSlot s (-1) v = .error f := by
  unfold writeSlot
  cases s.cb_map with
  | none => exact ⟨_, rfl⟩
  | some m => exact ⟨.outOfBounds, by simp⟩

theorem incrSize_ok (s s1 : State) (h : incrSize s = .ok s1) :
    s1 = { s with cb_size := s.cb_size + 1 } := by
  unfold incrSize at h
  split at h
  · simp only [Except.ok.injEq] at h; exact h.symm
  · simp at h

theorem register_spec (r : Registration) (s s1 : State) (id : Int) (m : Block)
    (hm : s.cb_map = some m) (hlen : (m.length : Int) = s.cb_limit)
    (hsz : s.cb_size = (liveCount m : Int)) (h : register r s = .ok (s1, id)) :
    (id = -1 ∧ s1 = s) ∨
    ∃ n : Nat, id = (n : Int) ∧ (∀ j, j < n → ∃ e, m[j]? = some (some e)) ∧
      ((liveCount m < m.length ∧ n < m.length ∧ m[n]? = some none ∧
          s1 = { s with cb_size := s.cb_size + 1,
                        cb_map := some (m.set n (some (r.entry n))) }) ∨
       (liveCount m = m.length ∧ n = m.length ∧ s.cb_limit + CB_CHUNK_SIZE ≤ INT32_MAX ∧
          s1 = { cb_limit := s.cb_limit + CB_CHUNK_SIZE, cb_size := s.cb_size + 1,
                 cb_map := some ((m ++ List.replicate 16 none).set n (some (r.entry n))) })) := by
  rw [register_eq] at h
  cases hal : r.allocOk with
  | false =>
    simp only [hal, Bool.not_false, if_true, Except.ok.injEq, Prod.mk.injEq] at h
    exact Or.inl ⟨h.2.symm, h.1.symm⟩
  | true =>
    simp only [hal, Bool.not_true, Bool.false_eq_true, if_false] at h
    cases hn : new_id r.mapOk s with
    | error f => rw [hn] at h; simp at h
    | ok p =>
      obtain ⟨s0, id0⟩ := p
      rw [hn] at h
      simp only at h
      cases hw : writeSlot s0 id0 (some (r.entry id0)) with
      | error f => rw [hw] at h; simp at h
      | ok s2 =>
        rw [hw] at h
        simp only at h
        cases hi : incrSize s2 with
        | error f => rw [hi] at h; simp at h
        | ok s3 =>
          rw [hi] at h
          simp only [Except.ok.injEq, Prod.mk.injEq] at h
          obtain ⟨h3, hid⟩ := h
          subst h3 hid
          have hs3 := incrSize_ok s2 s3 hi
          rcases new_id_spec r.mapOk s s0 id0 m hm hlen hsz hn with
            ⟨hneg, -, -, -⟩ | ⟨n, hid, hcase⟩
          · subst hneg
            obtain ⟨f, hf⟩ := writeSlot_neg_one s0 (some (r.entry (-1)))
            rw [hf] at hw
            simp at hw
          · subst hid
            right
            rcases hcase with ⟨hs0, hlt, hn1, hn2, hn3⟩ | ⟨hs0, hfull, hn1, hov⟩
            · subst hs0
              obtain ⟨-, -, hs2⟩ := (writeSlot_ok s0 s2 m hm _ _).1 hw
              refine ⟨n, rfl, hn3, Or.inl ⟨hlt, hn1, hn2, ?_⟩⟩
              rw [hs3, hs2]
              simp
            · have hm0 : s0.cb_map = some (m ++ List.replicate 16 none) := by rw [hs0]
              obtain ⟨-, -, hs2⟩ := (writeSlot_ok s0 s2 _ hm0 _ _).1 hw
              refine ⟨n, rfl, ?_, Or.inr ⟨hfull, hn1, hov, ?_⟩⟩
              · intro j hj
                exact liveCount_full m hfull j (by omega)
              · rw [hs3, hs2, hs0]
                simp

theorem remove_spec (s s1 : State) (m : Block) (hm : s.cb_map = some m) (id : Int)
    (h : zjs_remove_callback id s = .ok s1) :
    (s1 = s ∧ (id = -1 ∨ (0 ≤ id ∧ m[id.toNat]? = some none))) ∨
    ∃ (n : Nat) (e : zjs_callback_map), id = (n : Int) ∧ m[n]? = some (some e) ∧
      s1 = { s with cb_size := s.cb_size - 1, cb_map := some (m.set n none) } := by
  unfold zjs_remove_callback at h
  by_cases hid : id ≠ -1
  · rw [if_pos hid] at h
    cases hr : readSlot s id with
    | error f => rw [hr] at h; simp at h
    | ok x =>
      rw [hr] at h
      obtain ⟨h0, hx⟩ := (readSlot_ok s m hm id x).1 hr
      cases x with
      | none =>
        simp only [Except.ok.injEq] at h
        exact Or.inl ⟨h.symm, Or.inr ⟨h0, hx⟩⟩
      | some e =>
        simp only at h
        cases hw : writeSlot s id none with
        | error f => rw [hw] at h; simp at h
        | ok s2 =>
          rw [hw] at h
          simp only at h
          obtain ⟨-, -, hs2⟩ := (writeSlot_ok s s2 m hm id none).1 hw
          unfold decrSize at h
          split at h
          · simp only [Except.ok.injEq] at h
            refine Or.inr ⟨id.toNat, e, (Int.toNat_of_nonneg h0).symm, hx, ?_⟩
            rw [← h, hs2]
          · simp at h
  · rw [if_neg hid] at h
    simp only [Except.ok.injEq] at h
    exact Or.inl ⟨h.symm, Or.inl (by omega)⟩

theorem signal_spec (s s1 : State) (m : Block) (hm : s.cb_map = some m) (id : Int)
    (h : zjs_signal_callback id s = .ok s1) :
    (s1 = s ∧ (id = -1 ∨ (0 ≤ id ∧ m[id.toNat]? = some none))) ∨
    ∃ (n : Nat) (e : zjs_callback_map), id = (n : Int) ∧ m[n]? = some (some e) ∧
      s1 = { s with cb_map := some (m.set n (some { e with signal := 1 })) } := by
  unfold zjs_signal_callback at h
  by_cases hid : id ≠ -1
  · rw [if_pos hid] at h
    cases hr : readSlot s id with
    | error f => rw [hr] at h; simp at h
    | ok x =>
      rw [hr] at h
      obtain ⟨h0, hx⟩ := (readSlot_ok s m hm id x).1 hr
      cases x with
      | none =>
        simp only [Except.ok.injEq] at h
        exact Or.inl ⟨h.symm, Or.inr ⟨h0, hx⟩⟩
      | some e =>
        simp only at h
        obtain ⟨-, -, hs2⟩ := (writeSlot_ok s s1 m hm id _).1 h
        exact Or.inr ⟨id.toNat, e, (Int.toNat_of_nonneg h0).symm, hx, hs2⟩
  · rw [if_neg hid] at h
    simp only [Except.ok.injEq] at h
    exact Or.inl ⟨h.symm, Or.inl (by omega)⟩

theorem edit_spec (s s1 : State) (m : Block) (hm : s.cb_map = some m) (id : Int)
    (func : jerry_value_t) (h : zjs_edit_js_func id func s = .ok s1) :
    (s1 = s ∧ id = -1) ∨
    ∃ (n : Nat) (e : zjs_callback_map) (cb : zjs_callback_t), id = (n : Int) ∧
      m[n]? = some (some e) ∧ e.u = .js cb ∧
      s1 = { s with
        cb_map := some (m.set n (some { e with u := .js { cb with js_func := func } })) } := by
  unfold zjs_edit_js_func at h
  by_cases hid : id ≠ -1
  · rw [if_pos hid] at h
    cases hr : readSlot s id with
    | error f => rw [hr] at h; simp at h
    | ok x =>
      rw [hr] at h
      obtain ⟨h0, hx⟩ := (readSlot_ok s m hm id x).1 hr
      cases x with
      | none => simp at h
      | some e =>
        simp only at h
        cases hu : e.u with
        | js cb =>
          rw [hu] at h
          simp only at h
          obtain ⟨-, -, hs2⟩ := (writeSlot_ok s s1 m hm id _).1 h
          exact Or.inr ⟨id.toNat, e, cb, (Int.toNat_of_nonneg h0).symm, hx, hu, hs2⟩
        | c cb => rw [hu] at h; simp at h
  · rw [if_neg hid] at h
    simp only [Except.ok.injEq] at h
    exact Or.inl ⟨h.symm, by omega⟩

theorem ids_set (m : Block) (n : Nat) (e : zjs_callback_map)
    (hids : ∀ (i : Nat) (x : zjs_callback_map), m[i]? = some (some x) → x.id = (i : Int))
    (he : e.id = (n : Int)) :
    ∀ (i : Nat) (x : zjs_callback_map), (m.set n (some e))[i]? = some (some x) →
      x.id = (i : Int) := by
  intro i x hx
  by_cases hin : n = i
  · subst hin
    rw [List.getElem?_set_self'] at hx
    cases hmn : m[n]? with
    | none => rw [hmn] at hx; simp at hx
    | some y =>
      rw [hmn] at hx
      simp at hx
      rw [← hx]; exact he
  · rw [List.getElem?_set_ne hin] at hx
    exact hids i x hx

theorem ids_set_none (m : Block) (n : Nat)
    (hids : ∀ (i : Nat) (x : zjs_callback_map), m[i]? = some (some x) → x.id = (i : Int)) :
    ∀ (i : Nat) (x : zjs_callback_map), (m.set n none)[i]? = some (some x) →
      x.id = (i : Int) := by
  intro i x hx
  by_cases hin : n = i
  · subst hin
    rw [List.getElem?_set_self'] at hx
    cases hmn : m[n]? with
    | none => rw [hmn] at hx; simp at hx
    | some y => rw [hmn] at hx; simp at hx
  · rw [List.getElem?_set_ne hin] at hx
    exact hids i x hx

theorem ids_append (m : Block) (k : Nat)
    (hids : ∀ (i : Nat) (x : zjs_callback_map), m[i]? = some (some x) → x.id = (i : Int)) :
    ∀ (i : Nat) (x : zjs_callback_map),
      (m ++ List.replicate k none)[i]? = some (some x) → x.id = (i : Int) := by
  intro i x hx
  by_cases hi : i < m.length
  · rw [List.getElem?_append_left hi] at hx
    exact hids i x hx
  · rw [List.getElem?_append_right (by omega), List.getElem?_replicate] at hx
    split at hx <;> simp at hx

theorem entry_id (r : Registration) (id : Int) : (r.entry id).id = id := by
  cases r <;> rfl

theorem register_inv (r : Registration) (s s1 : State) (id : Int) (hinv : Inv s)
    (h : register r s = .ok (s1, id)) : Inv s1 := by
  obtain ⟨m, hm, hlen, hsz, hids, hlim⟩ := hinv
  rcases register_spec r s s1 id m hm hlen hsz h with ⟨-, hs⟩ | ⟨n, -, -, hcase⟩
  · subst hs; exact ⟨m, hm, hlen, hsz, hids, hlim⟩
  · rcases hcase with ⟨-, -, hnone, hs⟩ | ⟨hfull, hn, hov, hs⟩
    · subst hs
      refine ⟨_, rfl, ?_, ?_, ids_set m n _ hids (entry_id r n), hlim⟩
      · simpa using hlen
      · simp only [liveCount_set_some m n _ hnone, hsz]
        push_cast
        rfl
    · subst hs
      refine ⟨_, rfl, ?_, ?_, ids_set _ n _ (ids_append m 16 hids) (entry_id r n), hov⟩
      · simp only [List.length_set, List.length_append, List.length_replicate, CB_CHUNK_SIZE]
        push_cast
        omega
      · have hnone : (m ++ List.replicate 16 none)[n]? = some none := by
          rw [List.getElem?_append_right (by omega), List.getElem?_replicate]
          simp [hn]
        simp only [liveCount_set_some _ n _ hnone, liveCount_append_replicate, hsz]
        push_cast
        rfl

theorem op_inv (o : Op) (s s1 : State) (hinv : Inv s) (h : o.run s = .ok s1) : Inv s1 := by
  obtain ⟨m, hm, hlen, hsz, hids, hlim⟩ := hinv
  cases o with
  | remove id =>
    rcases remove_spec s s1 m hm id h with ⟨hs, -⟩ | ⟨n, e, -, hn, hs⟩
    · subst hs; exact ⟨m, hm, hlen, hsz, hids, hlim⟩
    · subst hs
      refine ⟨_, rfl, by simpa using hlen, ?_, ids_set_none m n hids, hlim⟩
      have := liveCount_set_none m n e hn
      simp only [hsz]
      omega
  | signal id =>
    rcases signal_spec s s1 m hm id h with ⟨hs, -⟩ | ⟨n, e, -, hn, hs⟩
    · subst hs; exact ⟨m, hm, hlen, hsz, hids, hlim⟩
    · subst hs
      refine ⟨_, rfl, by simpa using hlen, ?_, ids_set m n _ hids ?_, hlim⟩
      · simp only [liveCount_set_same m n e _ hn, hsz]
      · exact hids n e hn
  | edit id func =>
    rcases edit_spec s s1 m hm id func h with ⟨hs, -⟩ | ⟨n, e, cb, -, hn, hu, hs⟩
    · subst hs; exact ⟨m, hm, hlen, hsz, hids, hlim⟩
    · subst hs
      refine ⟨_, rfl, by simpa using hlen, ?_, ids_set m n _ hids ?_, hlim⟩
      · simp only [liveCount_set_same m n e _ hn, hsz]
      · have := hids n e hn
        simp only [zjs_callback_map.id, hu] at this
        simpa [zjs_callback_map.id] using this

theorem init_inv : Inv State.init := by
  refine ⟨List.replicate 16 none, rfl, rfl, rfl, ?_, by decide⟩
  intro i x hx
  rw [List.getElem?_replicate] at hx
  split at hx <;> simp at hx

theorem reachable_inv (s : State) (h : Reachable s) : Inv s := by
  induction h with
  | init => exact init_inv
  | register r s s1 id _ hr ih => exact register_inv r s s1 id ih hr
  | op o s s1 _ ho ih => exact op_inv o s s1 ih ho

theorem slotAt_eq (s : State) (m : Block) (hm : s.cb_map = some m) (i : Nat) :
    slotAt s i = (m[i]?).join := by
  unfold slotAt
  rw [hm]

theorem slotAt_eq_some (s : State) (m : Block) (hm : s.cb_map = some m) (i : Nat)
    (e : zjs_callback_map) : slotAt s i = some e ↔ m[i]? = some (some e) := by
  rw [slotAt_eq s m hm]
  cases h : m[i]? with
  | none => simp
  | some x => cases x <;> simp

theorem slotAt_set (m : Block) (n i : Nat) (v : Option zjs_callback_map) (hn : n < m.length) :
    ((m.set n v)[i]?).join = if n = i then v else (m[i]?).join := by
  by_cases h : n = i
  · subst h
    rw [if_pos rfl, List.getElem?_set_self hn]
    rfl
  · rw [if_neg h, List.getElem?_set_ne h]

theorem slotAt_append (m : Block) (k i : Nat) :
    ((m ++ List.replicate k none)[i]?).join = (m[i]?).join := by
  by_cases hi : i < m.length
  · rw [List.getElem?_append_left hi]
  · rw [List.getElem?_append_right (by omega), List.getElem?_replicate,
      List.getElem?_eq_none (by omega)]
    split <;> rfl

theorem register_returns_lowest (r : Registration) (s s1 : State) (id : Int)
    (hs : Reachable s) (h : register r s = .ok (s1, id)) (hid : id ≠ -1) :
    ∃ n : Nat, id = (n : Int) ∧ occupied s n = false ∧
      (∀ j, j < n → occupied s j = true) ∧
      slotAt s1 n = some (r.entry id) ∧
      (∀ j, j ≠ n → slotAt s1 j = slotAt s j) := by
  obtain ⟨m, hm, hlen, hsz, -, -⟩ := reachable_inv s hs
  rcases register_spec r s s1 id m hm hlen hsz h with ⟨hneg, -⟩ | ⟨n, hn, hbelow, hcase⟩
  · exact absurd hneg hid
  · subst hn
    have hocc : ∀ j, j < n → occupied s j = true := by
      intro j hj
      obtain ⟨e, he⟩ := hbelow j hj
      simp [occupied, slotAt_eq s m hm, he]
    rcases hcase with ⟨-, hlt, hnone, hs1⟩ | ⟨-, hnl, -, hs1⟩
    · refine ⟨n, rfl, ?_, hocc, ?_, ?_⟩
      · simp [occupied, slotAt_eq s m hm, hnone]
      · rw [hs1, slotAt_eq _ _ rfl, slotAt_set m n n _ hlt, if_pos rfl]
      · intro j hj
        rw [hs1, slotAt_eq _ _ rfl, slotAt_set m n j _ hlt, if_neg (Ne.symm hj),
          slotAt_eq s m hm]
    · have hlt : n < (m ++ List.replicate 16 (none : Option zjs_callback_map)).length := by
        simp only [List.length_append, List.length_replicate]; omega
      refine ⟨n, rfl, ?_, hocc, ?_, ?_⟩
      · simp [occupied, slotAt_eq s m hm, List.getElem?_eq_none (Nat.le_of_eq hnl.symm)]
      · rw [hs1, slotAt_eq _ _ rfl, slotAt_set _ n n _ hlt, if_pos rfl]
      · intro j hj
        rw [hs1, slotAt_eq _ _ rfl, slotAt_set _ n j _ hlt, if_neg (Ne.symm hj),
          slotAt_append, slotAt_eq s m hm]

theorem reachable_runOps (ops : List Op) (s s1 : State) (hs : Reachable s)
    (h : runOps ops s = .ok s1) : Reachable s1 := by
  induction ops generalizing s with
  | nil =>
    simp only [runOps, Except.ok.injEq] at h
    subst h; exact hs
  | cons o rest ih =>
    simp only [runOps] at h
    cases ho : o.run s with
    | error f => rw [ho] at h; simp at h
    | ok s0 =>
      rw [ho] at h
      exact ih s0 (Reachable.op o s s0 hs ho) h

theorem tableA_reachable : Reachable tableA :=
  Reachable.register demoA State.init tableA 0 Reachable.init rfl

theorem tableAB_reachable : Reachable tableAB :=
  Reachable.register demoB tableA tableAB 1 tableA_reachable rfl

theorem tableABB_reachable : Reachable tableABB :=
  Reachable.register demoB tableAB tableABB 2 tableAB_reachable rfl

theorem tableGap_reachable : Reachable tableGap :=
  Reachable.op (Op.remove 1) tableABB tableGap tableABB_reachable rfl

/-- Claim C1: in every reachable table a successful registration (scripted or native)
returns the smallest index whose slot holds no entry, stores the new entry in that slot,
and leaves every other slot as it was. -/
theorem register_lowest_free (r : Registration) (s s1 : State) (id : Int)
    (hs : Reachable s) (h : register r s = .ok (s1, id)) (hid : id ≠ -1) :
    ∃ n : Nat, id = (n : Int) ∧ occupied s n = false ∧
      (∀ j, j < n → occupied s j = true) ∧
      slotAt s1 n = some (r.entry id) ∧
      (∀ j, j ≠ n → slotAt s1 j = slotAt s j) :=
  register_returns_lowest r s s1 id hs h hid

/-- Witness for C1: with handles 0 and 2 live and slot 1 free, a registration returns 1. -/
theorem register_lowest_free_witness :
    Reachable tableGap ∧ register demoB tableGap = .ok (tableABB, 1) ∧ (1 : Int) ≠ -1 ∧
    ∃ n : Nat, (1 : Int) = (n : Int) ∧ occupied tableGap n = false ∧
      (∀ j, j < n → occupied tableGap j = true) ∧
      slotAt tableABB n = some (demoB.entry 1) ∧
      (∀ j, j ≠ n → slotAt tableABB j = slotAt tableGap j) :=
  ⟨tableGap_reachable, rfl, by decide,
    register_lowest_free demoB tableGap tableABB 1 tableGap_reachable rfl (by decide)⟩

theorem reachable_ids (s : State) (hs : Reachable s) (i : Nat) (e : zjs_callback_map)
    (h : slotAt s i = some e) : e.id = (i : Int) := by
  obtain ⟨m, hm, -, -, hids, -⟩ := reachable_inv s hs
  exact hids i e ((slotAt_eq_some s m hm i e).1 h)

/-- Claim C2: in every reachable table each live entry stores the index of its own slot
as its id, so two live entries never carry the same handle, and the handle returned by a
successful registration differs from the handle of every entry live at that moment. -/
theorem live_handles_unique (s : State) (hs : Reachable s) :
    (∀ (i : Nat) (e : zjs_callback_map), slotAt s i = some e → e.id = (i : Int)) ∧
    (∀ (i j : Nat) (e1 e2 : zjs_callback_map), slotAt s i = some e1 → slotAt s j = some e2 →
      i ≠ j → e1.id ≠ e2.id) ∧
    (∀ (r : Registration) (s1 : State) (id : Int), register r s = .ok (s1, id) → id ≠ -1 →
      ∀ (i : Nat) (e : zjs_callback_map), slotAt s i = some e → e.id ≠ id) := by
  refine ⟨reachable_ids s hs, ?_, ?_⟩
  · intro i j e1 e2 h1 h2 hij
    rw [reachable_ids s hs i e1 h1, reachable_ids s hs j e2 h2]
    omega
  · intro r s1 id hr hid i e hi
    obtain ⟨n, hn, hfree, -, -, -⟩ := register_returns_lowest r s s1 id hs hr hid
    rw [reachable_ids s hs i e hi, hn]
    intro hin
    have : i = n := by omega
    subst this
    simp [occupied, hi] at hfree

/-- Witness for C2: the table with handles 0 and 2 live. -/
theorem live_handles_unique_witness :
    Reachable tableGap ∧
    (∀ (i : Nat) (e : zjs_callback_map), slotAt tableGap i = some e → e.id = (i : Int)) ∧
    (∀ (i j : Nat) (e1 e2 : zjs_callback_map), slotAt tableGap i = some e1 →
      slotAt tableGap j = some e2 → i ≠ j → e1.id ≠ e2.id) ∧
    (∀ (r : Registration) (s1 : State) (id : Int), register r tableGap = .ok (s1, id) →
      id ≠ -1 → ∀ (i : Nat) (e : zjs_callback_map), slotAt tableGap i = some e → e.id ≠ id) :=
  ⟨tableGap_reachable, live_handles_unique tableGap tableGap_reachable⟩

theorem slotAt_mk (a b : Int) (m : Block) (i : Nat) :
    slotAt { cb_limit := a, cb_size := b, cb_map := some m } i = (m[i]?).join := rfl

theorem op_occupied (o : Op) (s s1 : State) (hinv : Inv s) (h : o.run s = .ok s1) (j : Nat) :
    occupied s1 j = (occupied s j && decide (o ≠ Op.remove (j : Int))) := by
  obtain ⟨m, hm, hlen, -, -, -⟩ := hinv
  cases o with
  | remove id =>
    rcases remove_spec s s1 m hm id h with ⟨hs, hcase⟩ | ⟨n, e, hid, hn, hs⟩
    · subst hs
      by_cases hj : id = (j : Int)
      · subst hj
        rcases hcase with h1 | ⟨-, h1⟩
        · omega
        · simp only [Int.toNat_ofNat] at h1
          simp [occupied, slotAt_eq s1 m hm, h1]
      · have : Op.remove id ≠ Op.remove (j : Int) := by
          intro hc; injection hc with hc; exact hj hc
        simp [this]
    · subst hs hid
      have hlt : n < m.length := by
        rcases Nat.lt_or_ge n m.length with h1 | h1
        · exact h1
        · rw [List.getElem?_eq_none h1] at hn; simp at hn
      simp only [occupied, slotAt_mk, slotAt_set m n j none hlt, slotAt_eq s m hm]
      by_cases hj : n = j
      · subst hj; simp
      · have : Op.remove (n : Int) ≠ Op.remove (j : Int) := by
          intro hc; injection hc with hc; omega
        simp [hj, this]
  | signal id =>
    have hne : Op.signal id ≠ Op.remove (j : Int) := by intro hc; cases hc
    rcases signal_spec s s1 m hm id h with ⟨hs, -⟩ | ⟨n, e, hid, hn, hs⟩
    · subst hs; simp [hne]
    · subst hs
      have hlt : n < m.length := by
        rcases Nat.lt_or_ge n m.length with h1 | h1
        · exact h1
        · rw [List.getElem?_eq_none h1] at hn; simp at hn
      simp only [occupied, slotAt_mk, slotAt_set m n j _ hlt, slotAt_eq s m hm]
      by_cases hj : n = j
      · subst hj; simp [hn, hne]
      · simp [hj, hne]
  | edit id func =>
    have hne : Op.edit id func ≠ Op.remove (j : Int) := by intro hc; cases hc
    rcases edit_spec s s1 m hm id func h with ⟨hs, -⟩ | ⟨n, e, cb, hid, hn, -, hs⟩
    · subst hs; simp [hne]
    · subst hs
      have hlt : n < m.length := by
        rcases Nat.lt_or_ge n m.length with h1 | h1
        · exact h1
        · rw [List.getElem?_eq_none h1] at hn; simp at hn
      simp only [occupied, slotAt_mk, slotAt_set m n j _ hlt, slotAt_eq s m hm]
      by_cases hj : n = j
      · subst hj; simp [hn, hne]
      · simp [hj, hne]

theorem runOps_occupied (ops : List Op) (s s1 : State) (hinv : Inv s)
    (h : runOps ops s = .ok s1) (j : Nat) :
    occupied s1 j = (occupied s j && decide (Op.remove (j : Int) ∉ ops)) := by
  induction ops generalizing s with
  | nil =>
    simp only [runOps, Except.ok.injEq] at h
    subst h; simp
  | cons o rest ih =>
    simp only [runOps] at h
    cases ho : o.run s with
    | error f => rw [ho] at h; simp at h
    | ok s0 =>
      rw [ho] at h
      rw [ih s0 (op_inv o s s0 hinv ho) h, op_occupied o s s0 hinv ho j]
      by_cases h1 : o = Op.remove (j : Int)
      · simp [h1]
      · have h2 : Op.remove (j : Int) ≠ o := fun hc => h1 hc.symm
        simp [h1, h2]

/-- Claim C3, as amended: in a reachable table, when a registration returned `h`, then
`zjs_remove_callback h` was called, and between that registration and the next one there
was no registration and no removal of a handle below `h`, the next successful
registration returns `h`. -/
theorem reuse_after_remove (r r2 : Registration) (ops : List Op) (s s1 s2 s3 : State)
    (h h2 : Int) (hs : Reachable s) (hr : register r s = .ok (s1, h)) (hh : h ≠ -1)
    (hops : runOps ops s1 = .ok s2) (hrem : Op.remove h ∈ ops)
    (hlow : ∀ g : Int, Op.remove g ∈ ops → ¬ (0 ≤ g ∧ g < h))
    (hr2 : register r2 s2 = .ok (s3, h2)) (hh2 : h2 ≠ -1) : h2 = h := by
  obtain ⟨n, hn, -, hbelow, -, hother⟩ := register_returns_lowest r s s1 h hs hr hh
  subst hn
  have hs1 : Reachable s1 := Reachable.register r s s1 _ hs hr
  have hs2 : Reachable s2 := reachable_runOps ops s1 s2 hs1 hops
  have hocc := runOps_occupied ops s1 s2 (reachable_inv s1 hs1) hops
  obtain ⟨n2, hn2, hfree2, hbelow2, -, -⟩ := register_returns_lowest r2 s2 s3 h2 hs2 hr2 hh2
  subst hn2
  have hfree : occupied s2 n = false := by
    rw [hocc n]; simp [hrem]
  have hkeep : ∀ j, j < n → occupied s2 j = true := by
    intro j hj
    have h1 : occupied s1 j = true := by
      have := hbelow j hj
      simp only [occupied] at this ⊢
      rw [hother j (by omega)]; exact this
    have h2 : Op.remove (j : Int) ∉ ops := by
      intro hc
      exact hlow _ hc ⟨by omega, by omega⟩
    rw [hocc j]; simp [h1, h2]
  rcases Nat.lt_trichotomy n2 n with hlt | heq | hgt
  · rw [hkeep n2 hlt] at hfree2; cases hfree2
  · rw [heq]
  · rw [hbelow2 n hgt] at hfree; cases hfree

/-- Witness for C3: handle 1 is issued, removed (with a removal of the free handle 7
after it), and issued again. -/
theorem reuse_after_remove_witness :
    Reachable tableA ∧ register demoB tableA = .ok (tableAB, 1) ∧
    runOps [Op.remove 1, Op.remove 7] tableAB = .ok tableA ∧
    Op.remove 1 ∈ [Op.remove 1, Op.remove 7] ∧
    (∀ g : Int, Op.remove g ∈ [Op.remove 1, Op.remove 7] → ¬ (0 ≤ g ∧ g < 1)) ∧
    register demoB tableA = .ok (tableAB, 1) ∧ (1 : Int) = 1 :=
  have hlow : ∀ g : Int, Op.remove g ∈ [Op.remove 1, Op.remove 7] → ¬ (0 ≤ g ∧ g < 1) := by
    intro g hg
    simp only [List.mem_cons, Op.remove.injEq, List.mem_singleton, List.mem_nil_iff,
      or_false] at hg
    omega
  ⟨tableA_reachable, rfl, rfl, by simp, hlow, rfl,
    reuse_after_remove demoB demoB [Op.remove 1, Op.remove 7] tableA tableAB tableA tableAB
      1 1 tableA_reachable rfl (by decide) rfl (by simp) hlow rfl (by decide)⟩

/-- Counterexample to C3 as stated: handle 1 is issued by a registration and removed,
handle 0 is removed as well, no registration lies in between, and the next registration
returns 0, not 1. -/
theorem reuse_counterexample :
    Reachable tableA ∧ register demoB tableA = .ok (tableAB, 1) ∧
    runOps [Op.remove 1, Op.remove 0] tableAB = .ok State.init ∧
    register demoA State.init = .ok (tableA, 0) ∧ (0 : Int) ≠ 1 :=
  ⟨tableA_reachable, rfl, rfl, rfl, by decide⟩

theorem tableN_step (k : Nat) (hk : k < 16) :
    register demoB (tableN k) = .ok (tableN (k + 1), (k : Int)) := by
  interval_cases k <;> rfl

theorem tableN_reachable (k : Nat) (hk : k ≤ 16) : Reachable (tableN k) := by
  induction k with
  | zero => exact Reachable.init
  | succ k ih =>
    exact Reachable.register demoB (tableN k) (tableN (k + 1)) (k : Int) (ih (by omega))
      (tableN_step k (by omega))

theorem tableFull_reachable : Reachable tableFull := tableN_reachable 16 (by omega)

theorem remove_noop_of_empty (s : State) (m : Block) (hm : s.cb_map = some m) (id : Int)
    (h0 : 0 ≤ id) (hnone : m[id.toNat]? = some none) : zjs_remove_callback id s = .ok s := by
  unfold zjs_remove_callback
  have hr : readSlot s id = .ok none := (readSlot_ok s m hm id none).2 ⟨h0, hnone⟩
  by_cases hid : id ≠ -1
  · rw [if_pos hid, hr]
  · rw [if_neg hid]

/-- Claim C6, as amended: on an initialised table `zjs_remove_callback` returns and
changes nothing when the handle is the sentinel or an in-range handle whose slot is
empty, and for every handle that is the sentinel or in range a second removal of the
same handle returns the state the first one produced. -/
theorem remove_invalid_noop (s : State) (id : Int) (hs : Initialised s)
    (hid : id = -1 ∨ (0 ≤ id ∧ id < s.cb_limit)) :
    (id = -1 ∨ occupied s id.toNat = false → zjs_remove_callback id s = .ok s) ∧
    ∃ s1 : State, zjs_remove_callback id s = .ok s1 ∧ zjs_remove_callback id s1 = .ok s1 := by
  obtain ⟨m, hm, hlen, hsz⟩ := hs
  have hneg : id = -1 → zjs_remove_callback id s = .ok s := by
    intro h; subst h; rfl
  rcases hid with h1 | ⟨h0, hlt⟩
  · exact ⟨fun _ => hneg h1, s, hneg h1, hneg h1⟩
  · have hn : id.toNat < m.length := by omega
    have hget : m[id.toNat]? = some (m[id.toNat]) := List.getElem?_eq_getElem hn
    cases hx : m[id.toNat] with
    | none =>
      rw [hx] at hget
      have hno := remove_noop_of_empty s m hm id h0 hget
      exact ⟨fun _ => hno, s, hno, hno⟩
    | some e =>
      rw [hx] at hget
      have hr : readSlot s id = .ok (some e) := (readSlot_ok s m hm id _).2 ⟨h0, hget⟩
      have hne : id ≠ -1 := by omega
      have hw : writeSlot s id none = .ok { s with cb_map := some (m.set id.toNat none) } :=
        (writeSlot_ok s _ m hm id none).2 ⟨h0, hn, rfl⟩
      have hrun : zjs_remove_callback id s =
          .ok { s with cb_size := s.cb_size - 1, cb_map := some (m.set id.toNat none) } := by
        unfold zjs_remove_callback
        rw [if_pos hne, hr]
        simp only [hw, decrSize]
        rw [if_pos (by simp only [INT32_MIN]; omega)]
      refine ⟨?_, _, hrun, ?_⟩
      · intro hc
        rcases hc with hc | hc
        · exact absurd hc hne
        · simp [occupied, slotAt_eq s m hm, hget] at hc
      · apply remove_noop_of_empty _ (m.set id.toNat none) rfl id h0
        rw [List.getElem?_set_self hn]

/-- Witness for C6: removing the free handle 1 of the table with handles 0 and 2 live. -/
theorem remove_invalid_noop_witness :
    Initialised tableGap ∧ ((1 : Int) = -1 ∨ (0 ≤ (1 : Int) ∧ (1 : Int) < tableGap.cb_limit)) ∧
    (((1 : Int) = -1 ∨ occupied tableGap (1 : Int).toNat = false →
        zjs_remove_callback 1 tableGap = .ok tableGap) ∧
      ∃ s1 : State, zjs_remove_callback 1 tableGap = .ok s1 ∧
        zjs_remove_callback 1 s1 = .ok s1) :=
  have hi : Initialised tableGap := ⟨_, rfl, rfl, by decide⟩
  ⟨hi, Or.inr (by decide), remove_invalid_noop tableGap 1 hi (Or.inr (by decide))⟩

/-- Counterexample to C6 as stated: on the freshly initialised table (capacity 16) the
out-of-range handle 16 makes `zjs_remove_callback` read `cb_map[16]`, past the map. -/
theorem remove_out_of_range_counterexample :
    Initialised State.init ∧ State.init.cb_limit = 16 ∧
    zjs_remove_callback 16 State.init = .error Fault.outOfBounds :=
  ⟨⟨_, rfl, rfl, by decide⟩, rfl, rfl⟩

/-- Claim C7 (code defect): `zjs_edit_js_func` tests only `id != -1`. On an empty slot it
dereferences `NULL`, on a Native entry it writes `js_func` through the wrong union
member; only for the sentinel is it a no-op. -/
theorem edit_js_func_unguarded :
    zjs_edit_js_func 0 7 State.init = .error Fault.nullDeref ∧
    zjs_edit_js_func 1 7 tableAB = .error Fault.wrongMember ∧
    zjs_edit_js_func (-1) 7 tableAB = .ok tableAB :=
  ⟨rfl, rfl, rfl⟩

/-- Claim C8 (code defect): with all 16 slots occupied and the allocation of the larger
map failing, `new_id` has already raised `cb_limit` to 32 when it returns -1, and both
registration functions then store the entry at `cb_map[-1]`, outside the map. -/
theorem grow_failure_not_clean :
    Reachable tableFull ∧
    new_id false tableFull = .ok ({ tableFull with cb_limit := 32 }, -1) ∧
    zjs_add_callback true true false 7 100 none none tableFull = .error Fault.outOfBounds ∧
    zjs_add_c_callback true true false 200 (some 9) tableFull = .error Fault.outOfBounds :=
  ⟨tableFull_reachable, rfl, rfl, rfl⟩

/-- Claim C9: on a reachable table no successful call lowers `cb_limit`; removal, signal
and edit leave it unchanged; a registration either leaves it unchanged or raises it by
exactly `CB_CHUNK_SIZE`, and the latter only when every slot within capacity is occupied:
then the returned handle is the old capacity, every old slot keeps its entry, the new
entry sits at the old capacity and all slots above it are empty. -/
theorem capacity_growth (s : State) (hs : Reachable s) :
    (∀ (o : Op) (s1 : State), o.run s = .ok s1 → s1.cb_limit = s.cb_limit) ∧
    (∀ (r : Registration) (s1 : State) (id : Int), register r s = .ok (s1, id) →
      s1.cb_limit = s.cb_limit ∨
      (s1.cb_limit = s.cb_limit + CB_CHUNK_SIZE ∧ CB_CHUNK_SIZE = 16 ∧
        (∀ j : Nat, (j : Int) < s.cb_limit → occupied s j = true) ∧
        id = s.cb_limit ∧
        (∀ j : Nat, (j : Int) < s.cb_limit → slotAt s1 j = slotAt s j) ∧
        (∀ j : Nat, (j : Int) = s.cb_limit → slotAt s1 j = some (r.entry id)) ∧
        (∀ j : Nat, s.cb_limit < (j : Int) → slotAt s1 j = none))) := by
  obtain ⟨m, hm, hlen, hsz, -, -⟩ := reachable_inv s hs
  constructor
  · intro o s1 h
    cases o with
    | remove id =>
      rcases remove_spec s s1 m hm id h with ⟨h1, -⟩ | ⟨n, e, -, -, h1⟩ <;> rw [h1]
    | signal id =>
      rcases signal_spec s s1 m hm id h with ⟨h1, -⟩ | ⟨n, e, -, -, h1⟩ <;> rw [h1]
    | edit id func =>
      rcases edit_spec s s1 m hm id func h with ⟨h1, -⟩ | ⟨n, e, cb, -, -, -, h1⟩ <;> rw [h1]
  · intro r s1 id h
    rcases register_spec r s s1 id m hm hlen hsz h with ⟨-, h1⟩ | ⟨n, hn, hbelow, hcase⟩
    · left; rw [h1]
    · rcases hcase with ⟨-, -, -, h1⟩ | ⟨hfull, hnl, -, h1⟩
      · left; rw [h1]
      · right
        have hlt : n < (m ++ List.replicate 16 (none : Option zjs_callback_map)).length := by
          simp only [List.length_append, List.length_replicate]; omega
        refine ⟨by rw [h1], rfl, ?_, by omega, ?_, ?_, ?_⟩
        · intro j hj
          obtain ⟨e, he⟩ := hbelow j (by omega)
          simp [occupied, slotAt_eq s m hm, he]
        · intro j hj
          rw [h1, slotAt_mk, slotAt_set _ n j _ hlt, if_neg (by omega), slotAt_append,
            slotAt_eq s m hm]
        · intro j hj
          have hjn : n = j := by omega
          rw [h1, slotAt_mk, slotAt_set _ n j _ hlt, if_pos hjn, hn]
        · intro j hj
          rw [h1, slotAt_mk, slotAt_set _ n j _ hlt, if_neg (by omega), slotAt_append,
            List.getElem?_eq_none (by omega)]
          rfl

/-- Witness for C9: the 17th registration on the full initial table grows the map from
16 to 32 slots and returns handle 16. -/
theorem capacity_growth_witness :
    Reachable tableFull ∧ register demoB tableFull = .ok (tableGrown, 16) ∧
    tableGrown.cb_limit = tableFull.cb_limit + CB_CHUNK_SIZE ∧
    (∀ (o : Op) (s1 : State), o.run tableFull = .ok s1 → s1.cb_limit = tableFull.cb_limit) ∧
    (tableGrown.cb_limit = tableFull.cb_limit ∨
      (tableGrown.cb_limit = tableFull.cb_limit + CB_CHUNK_SIZE ∧ CB_CHUNK_SIZE = 16 ∧
        (∀ j : Nat, (j : Int) < tableFull.cb_limit → occupied tableFull j = true) ∧
        (16 : Int) = tableFull.cb_limit ∧
        (∀ j : Nat, (j : Int) < tableFull.cb_limit → slotAt tableGrown j = slotAt tableFull j) ∧
        (∀ j : Nat, (j : Int) = tableFull.cb_limit →
          slotAt tableGrown j = some (demoB.entry 16)) ∧
        (∀ j : Nat, tableFull.cb_limit < (j : Int) → slotAt tableGrown j = none))) :=
  ⟨tableFull_reachable, rfl, rfl, (capacity_growth tableFull tableFull_reachable).1,
    (capacity_growth tableFull tableFull_reachable).2 demoB tableGrown 16 rfl⟩

theorem getEntry_ok (s : State) (m : Block) (hm : s.cb_map = some m) (i : Nat)
    (e : zjs_callback_map) (h : m[i]? = some (some e)) : getEntry s (i : Int) = .ok e := by
  have hr : readSlot s (i : Int) = .ok (some e) :=
    (readSlot_ok s m hm _ _).2 ⟨by omega, by simpa using h⟩
  unfold getEntry
  rw [hr]

theorem getJs_ok (s : State) (m : Block) (hm : s.cb_map = some m) (i : Nat)
    (e : zjs_callback_map) (cb : zjs_callback_t) (h : m[i]? = some (some e))
    (hu : e.u = .js cb) : getJs s (i : Int) = .ok cb := by
  unfold getJs
  rw [getEntry_ok s m hm i e h]
  simp only [hu]

theorem calls_append (h : Nat) (a b : List Event) : calls h (a ++ b) = calls h a + calls h b := by
  simp [calls]

theorem service_js_inert (env : Env) (hin : env.Inert) (s : State) (m : Block)
    (hm : s.cb_map = some m) (i : Nat) (e : zjs_callback_map) (cb : zjs_callback_t)
    (h : m[i]? = some (some e)) (hu : e.u = .js cb) :
    ∃ tr, service_js env i s = .ok (s, tr) ∧ ∀ k, calls k tr = if k = i then 1 else 0 := by
  obtain ⟨hpre, hcall, hpost, -⟩ := hin
  have hjs := getJs_ok s m hm i e cb h hu
  have hP : ∃ args cnt ev, service_pre env i s = .ok (args, cnt, s, ev) ∧
      ∀ k, calls k ev = 0 := by
    unfold service_pre
    rw [hjs]
    dsimp only
    cases hp : cb.pre with
    | none => exact ⟨[], 0, [], rfl, fun k => rfl⟩
    | some p =>
      obtain ⟨args, cnt, ha⟩ := hpre p cb.handle s
      dsimp only
      rw [ha]
      exact ⟨args, cnt, _, rfl, fun k => rfl⟩
  have hQ : ∃ ev, service_post env i s = .ok (s, ev) ∧ ∀ k, calls k ev = 0 := by
    unfold service_post
    rw [hjs]
    dsimp only
    cases hp : cb.post with
    | none => exact ⟨[], rfl, fun k => rfl⟩
    | some p =>
      dsimp only
      rw [hpost p cb.handle env.ret_val s]
      exact ⟨_, rfl, fun k => rfl⟩
  obtain ⟨args, cnt, ev1, h1, hc1⟩ := hP
  obtain ⟨ev3, h3, hc3⟩ := hQ
  obtain ⟨v, hv⟩ := hcall cb.js_func env.ZJS_UNDEFINED args cnt s
  have h2 : service_call env i args cnt s =
      .ok (s, [Event.js_call i cb.js_func env.ZJS_UNDEFINED args cnt]) := by
    unfold service_call
    rw [hjs]
    simp only [hv]
  refine ⟨ev1 ++ [Event.js_call i cb.js_func env.ZJS_UNDEFINED args cnt] ++ ev3, ?_, ?_⟩
  · unfold service_js
    rw [h1]
    simp only [h2, h3]
  · intro k
    rw [calls_append, calls_append, hc1, hc3]
    by_cases hk : k = i
    · subst hk; simp [calls, Event.isCallOf]
    · have : (i == k) = false := by simpa using fun hc => hk hc.symm
      simp [calls, Event.isCallOf, hk, this]

theorem set_same (m : Block) (i : Nat) (x : Option zjs_callback_map) (h : m[i]? = some x) :
    m.set i x = m := by
  induction m generalizing i with
  | nil => rfl
  | cons y rest ih =>
    cases i with
    | zero => simp at h; subst h; rfl
    | succ i =>
      rw [List.getElem?_cons_succ] at h
      simp [List.set, ih i h]

theorem service_entry_inert (env : Env) (hin : env.Inert) (s : State) (m : Block)
    (hm : s.cb_map = some m) (i : Nat) (e : zjs_callback_map) (h : m[i]? = some (some e)) :
    ∃ tr, service_entry env i s =
        .ok ({ s with cb_map := some (m.set i (some { e with signal := 0 })) }, tr) ∧
      ∀ k, calls k tr = if k = i ∧ e.signal ≠ 0 ∧ callable env e = true then 1 else 0 := by
  have hlt : i < m.length := by
    rcases Nat.lt_or_ge i m.length with h1 | h1
    · exact h1
    · rw [List.getElem?_eq_none h1] at h; simp at h
  unfold service_entry
  rw [getEntry_ok s m hm i e h]
  simp only
  by_cases hsig : e.signal ≠ 0
  · rw [if_pos hsig]
    have hw : writeSlot s (i : Int) (some { e with signal := 0 }) =
        .ok { s with cb_map := some (m.set i (some { e with signal := 0 })) } :=
      (writeSlot_ok s _ m hm _ _).2 ⟨by omega, by simpa using hlt, by simp⟩
    rw [hw]
    simp only
    have hget : (m.set i (some { e with signal := 0 }))[i]? =
        some (some { e with signal := 0 }) := List.getElem?_set_self hlt
    cases hu : e.u with
    | js cb =>
      simp only
      by_cases hf : env.jerry_value_is_function cb.js_func = true
      · rw [if_pos hf]
        obtain ⟨tr, h1, h2⟩ := service_js_inert env hin
          { s with cb_map := some (m.set i (some { e with signal := 0 })) } _ rfl i _ cb hget hu
        rw [hu] at h1
        refine ⟨tr, h1, ?_⟩
        intro k
        rw [h2 k]
        simp [callable, hu, hf, hsig]
      · rw [if_neg hf]
        refine ⟨[], rfl, ?_⟩
        intro k
        simp [callable, hu, hf, calls]
    | c cb =>
      simp only
      cases hfn : cb.function with
      | none =>
        refine ⟨[], rfl, ?_⟩
        intro k
        simp [callable, hu, hfn, calls]
      | some f =>
        simp only [hin.2.2.2 f cb.handle _]
        refine ⟨_, rfl, ?_⟩
        intro k
        by_cases hk : k = i
        · subst hk; simp [calls, Event.isCallOf, callable, hu, hfn, hsig]
        · have : (i == k) = false := by simpa using fun hc => hk hc.symm
          simp [calls, Event.isCallOf, hk, this]
  · rw [if_neg hsig]
    have h0 : e.signal = 0 := by omega
    have he : ({ e with signal := 0 } : zjs_callback_map) = e := by
      cases e; simp only at h0; subst h0; rfl
    refine ⟨[], ?_, ?_⟩
    · rw [he, set_same m i _ h]
      cases s; simp only at hm; subst hm; rfl
    · intro k
      simp [calls, h0]

theorem service_loop_inert (env : Env) (hin : env.Inert) (k : Nat) :
    ∀ (i : Nat) (s : State) (m : Block) (fuel : Nat), s.cb_map = some m →
      (i : Int) + (k : Int) = s.cb_size →
      (∀ j : Nat, i ≤ j → (j : Int) < s.cb_size → ∃ e, m[j]? = some (some e)) →
      k < fuel →
      ∃ (s1 : State) (m1 : Block) (tr : List Event),
        service_loop env fuel i s = .ok (s1, tr) ∧ s1.cb_map = some m1 ∧
        s1.cb_size = s.cb_size ∧ s1.cb_limit = s.cb_limit ∧
        (∀ (j : Nat) (e : zjs_callback_map), m[j]? = some (some e) → i ≤ j →
          (j : Int) < s.cb_size → m1[j]? = some (some { e with signal := 0 })) ∧
        (∀ j : Nat, ¬ (i ≤ j ∧ (j : Int) < s.cb_size) → m1[j]? = m[j]?) ∧
        (∀ (h : Nat) (e : zjs_callback_map), m[h]? = some (some e) → i ≤ h →
          (h : Int) < s.cb_size →
          calls h tr = if e.signal ≠ 0 ∧ callable env e = true then 1 else 0) ∧
        (∀ h : Nat, ¬ (i ≤ h ∧ (h : Int) < s.cb_size) → calls h tr = 0) := by
  induction k with
  | zero =>
    intro i s m fuel hm hk hocc hfuel
    obtain ⟨f, rfl⟩ : ∃ f, fuel = f + 1 := ⟨fuel - 1, by omega⟩
    refine ⟨s, m, [], ?_, hm, rfl, rfl, ?_, fun _ _ => rfl, ?_, fun _ _ => rfl⟩
    · simp only [service_loop]
      rw [if_neg (by omega)]
    · intro j e _ h1 h2; omega
    · intro h e _ h1 h2; omega
  | succ k ih =>
    intro i s m fuel hm hk hocc hfuel
    obtain ⟨f, rfl⟩ : ∃ f, fuel = f + 1 := ⟨fuel - 1, by omega⟩
    have hi : (i : Int) < s.cb_size := by omega
    obtain ⟨e, he⟩ := hocc i (Nat.le_refl i) hi
    obtain ⟨tr1, hent, hc1⟩ := service_entry_inert env hin s m hm i e he
    have hocc2 : ∀ j : Nat, i + 1 ≤ j → (j : Int) < s.cb_size →
        ∃ x, (m.set i (some { e with signal := 0 }))[j]? = some (some x) := by
      intro j h1 h2
      rw [List.getElem?_set_ne (by omega)]
      exact hocc j (by omega) h2
    obtain ⟨s1, m1, tr2, hloop, hm1, hsz1, hlim1, hclr, hout, hc2, hc0⟩ :=
      ih (i + 1) { s with cb_map := some (m.set i (some { e with signal := 0 })) } _ f rfl
        (by push_cast; omega) hocc2 (by omega)
    dsimp only at hsz1 hlim1 hclr hout hc2 hc0
    have hlt : i < m.length := by
      rcases Nat.lt_or_ge i m.length with h1 | h1
      · exact h1
      · rw [List.getElem?_eq_none h1] at he; simp at he
    refine ⟨s1, m1, tr1 ++ tr2, ?_, hm1, hsz1, hlim1, ?_, ?_, ?_, ?_⟩
    · simp only [service_loop]
      rw [if_pos hi, hent]
      simp only [hloop]
    · intro j x hx h1 h2
      by_cases hj : j = i
      · subst hj
        rw [he] at hx
        simp only [Option.some.injEq] at hx
        subst hx
        rw [hout j (by omega)]
        exact List.getElem?_set_self hlt
      · apply hclr j x _ (by omega) h2
        rw [List.getElem?_set_ne (fun hc => hj hc.symm)]
        exact hx
    · intro j hj
      rw [hout j (by omega), List.getElem?_set_ne (by omega)]
    · intro h x hx h1 h2
      rw [calls_append, hc1 h]
      by_cases hj : h = i
      · subst hj
        rw [he] at hx
        simp only [Option.some.injEq] at hx
        subst hx
        rw [hc0 h (by omega)]
        simp
      · have hx2 : (m.set i (some { e with signal := 0 }))[h]? = some (some x) := by
          rw [List.getElem?_set_ne (fun hc => hj hc.symm)]
          exact hx
        rw [hc2 h x hx2 (by omega) h2]
        simp [hj]
    · intro h hh
      rw [calls_append, hc1 h, hc0 h (by omega)]
      have : h ≠ i := by omega
      simp [this]

/-- Claim C4 (code defect): register A (handle 0) and B (handle 1), remove A, signal B.
The pass scans the indices below `cb_size = 1`, so it starts at the empty slot 0 and
dereferences `NULL` there; B is never reached. -/
theorem service_gap_faults :
    Reachable tableAB ∧
    runOps [Op.remove 0, Op.signal 1] tableAB = .ok tableBsig ∧
    slotAt tableBsig 1 = some { demoB.entry 1 with signal := 1 } ∧
    ∀ (env : Env) (fuel : Nat),
      zjs_service_callbacks env (fuel + 1) tableBsig = .error Fault.nullDeref :=
  ⟨tableAB_reachable, rfl, rfl, fun _ _ => rfl⟩

/-- Claim C5 (code defect): with A (handle 0) and B (handle 1) live, signal A and remove
A. Slot 0 is empty afterwards, but the next pass still reads `cb_map[0]->signal`, because
`cb_size` is 1, and dereferences `NULL`. -/
theorem service_after_remove_faults :
    Reachable tableAB ∧
    runOps [Op.signal 0, Op.remove 0] tableAB = .ok tableB ∧
    occupied tableB 0 = false ∧
    ∀ (env : Env) (fuel : Nat),
      zjs_service_callbacks env (fuel + 1) tableB = .error Fault.nullDeref :=
  ⟨tableAB_reachable, rfl, rfl, fun _ _ => rfl⟩

theorem signal_live (s : State) (m : Block) (hm : s.cb_map = some m) (h : Nat)
    (e : zjs_callback_map) (he : m[h]? = some (some e)) :
    zjs_signal_callback (h : Int) s =
      .ok { s with cb_map := some (m.set h (some { e with signal := 1 })) } := by
  have hlt : h < m.length := by
    rcases Nat.lt_or_ge h m.length with h1 | h1
    · exact h1
    · rw [List.getElem?_eq_none h1] at he; simp at he
  have hr : readSlot s (h : Int) = .ok (some e) :=
    (readSlot_ok s m hm _ _).2 ⟨by omega, by simpa using he⟩
  unfold zjs_signal_callback
  rw [if_pos (by omega), hr]
  exact (writeSlot_ok s _ m hm _ _).2 ⟨by omega, by simpa using hlt, by simp⟩

/-- Claim C10, as amended: for every table and live handle `h`, `zjs_signal_callback h`
returns and a second `zjs_signal_callback h` returns the very same table. When the
occupied slots are exactly `0 .. cb_size - 1` and hooks and handlers leave the table
alone, the following pass (given fuel above `cb_size`) calls the handler of the entry at
`h` exactly once if the entry is callable (a Scripted entry whose value is a function, a
Native entry with a function pointer) and not at all otherwise, and leaves its flag 0. -/
theorem signal_twice_one_call (s : State) (h : Nat) (e : zjs_callback_map)
    (hlive : slotAt s h = some e) :
    ∃ s1 : State, zjs_signal_callback (h : Int) s = .ok s1 ∧
      zjs_signal_callback (h : Int) s1 = .ok s1 ∧
      ∀ env : Env, env.Inert → Compact s → ∀ fuel : Nat, s.cb_size.toNat < fuel →
        ∃ (s2 : State) (tr : List Event) (e2 : zjs_callback_map),
          zjs_service_callbacks env fuel s1 = .ok (s2, tr) ∧
          calls h tr = (if callable env e = true then 1 else 0) ∧
          slotAt s2 h = some e2 ∧ e2.signal = 0 := by
  cases hmap : s.cb_map with
  | none => simp [slotAt, hmap] at hlive
  | some m =>
    have he : m[h]? = some (some e) := (slotAt_eq_some s m hmap h e).1 hlive
    have hlt : h < m.length := by
      rcases Nat.lt_or_ge h m.length with h1 | h1
      · exact h1
      · rw [List.getElem?_eq_none h1] at he; simp at he
    have hget : (m.set h (some { e with signal := 1 }))[h]? =
        some (some { e with signal := 1 }) := List.getElem?_set_self hlt
    refine ⟨{ s with cb_map := some (m.set h (some { e with signal := 1 })) },
      signal_live s m hmap h e he, ?_, ?_⟩
    · have h2 := signal_live { s with cb_map := some (m.set h (some { e with signal := 1 })) }
        _ rfl h _ hget
      rw [h2]
      simp only [set_same _ h _ hget]
    · intro env hin hc fuel hfuel
      have hsz : (h : Int) < s.cb_size := by
        apply (hc h).1
        simp [occupied, hlive]
      have hocc : ∀ j : Nat, 0 ≤ j → (j : Int) < s.cb_size →
          ∃ x, (m.set h (some { e with signal := 1 }))[j]? = some (some x) := by
        intro j _ hj
        by_cases hjh : h = j
        · subst hjh; exact ⟨_, hget⟩
        · rw [List.getElem?_set_ne hjh]
          have := (hc j).2 hj
          simp only [occupied, slotAt_eq s m hmap] at this
          cases hx : m[j]? with
          | none => rw [hx] at this; simp at this
          | some x =>
            cases x with
            | none => rw [hx] at this; simp at this
            | some y => exact ⟨y, rfl⟩
      obtain ⟨s2, m2, tr, hrun, hm2, -, -, hclr, -, hcalls, -⟩ :=
        service_loop_inert env hin s.cb_size.toNat 0
          { s with cb_map := some (m.set h (some { e with signal := 1 })) } _ fuel rfl
          (by simp only [Int.toNat_of_nonneg (show (0 : Int) ≤ s.cb_size by omega)]
              omega)
          hocc hfuel
      refine ⟨s2, tr, { ({ e with signal := 1 } : zjs_callback_map) with signal := 0 },
        hrun, ?_, ?_, rfl⟩
      · rw [hcalls h _ hget (Nat.zero_le h) hsz]
        simp [callable]
      · rw [slotAt_eq s2 m2 hm2, hclr h _ hget (Nat.zero_le h) hsz]
        rfl

theorem demoEnv_inert : demoEnv.Inert :=
  ⟨fun _ _ _ => ⟨_, _, rfl⟩, fun _ _ _ _ _ => ⟨_, rfl⟩, fun _ _ _ _ => rfl, fun _ _ _ => rfl⟩

theorem tableAB_compact : Compact tableAB := by
  intro i
  rcases i with _ | _ | i
  · exact ⟨fun _ => by decide, fun _ => rfl⟩
  · exact ⟨fun _ => by decide, fun _ => rfl⟩
  · have hocc : occupied tableAB (i + 2) = false := by
      have hs : slotAt tableAB (i + 2) =
          ((List.replicate 14 (none : Option zjs_callback_map))[i]?).join := by
        simp only [slotAt, tableAB, List.getElem?_cons_succ]
      rw [occupied, hs, List.getElem?_replicate]
      split <;> rfl
    have hsz : tableAB.cb_size = 2 := rfl
    rw [hocc, hsz]
    constructor
    · intro hc; cases hc
    · intro hc; omega

/-- Witness for C10: the Native entry at handle 1 of the table with handles 0 and 1; with
`demoEnv` the pass after the signals makes the one call of function 9 with context 200. -/
theorem signal_twice_one_call_witness :
    slotAt tableAB 1 = some (demoB.entry 1) ∧ demoEnv.Inert ∧ Compact tableAB ∧
    runOps [Op.signal 1, Op.signal 1] tableAB = .ok tableABsig ∧
    zjs_service_callbacks demoEnv 3 tableABsig = .ok (tableAB, [Event.c_call 1 9 200]) ∧
    ∃ s1 : State, zjs_signal_callback ((1 : Nat) : Int) tableAB = .ok s1 ∧
      zjs_signal_callback ((1 : Nat) : Int) s1 = .ok s1 ∧
      ∀ env : Env, env.Inert → Compact tableAB → ∀ fuel : Nat, tableAB.cb_size.toNat < fuel →
        ∃ (s2 : State) (tr : List Event) (e2 : zjs_callback_map),
          zjs_service_callbacks env fuel s1 = .ok (s2, tr) ∧
          calls 1 tr = (if callable env (demoB.entry 1) = true then 1 else 0) ∧
          slotAt s2 1 = some e2 ∧ e2.signal = 0 :=
  ⟨rfl, demoEnv_inert, tableAB_compact, rfl, rfl,
    signal_twice_one_call tableAB 1 (demoB.entry 1) rfl⟩

/-- Counterexample to C10 as stated: handle 0 holds a live Scripted entry whose value 3 is
not a function. After two signals the pass clears its flag and calls nothing. -/
theorem signal_twice_counterexample :
    Reachable tableNF ∧ slotAt tableNF 0 = some (demoNF.entry 0) ∧
    runOps [Op.signal 0, Op.signal 0] tableNF = .ok tableNFsig ∧
    zjs_service_callbacks demoEnv 2 tableNFsig = .ok (tableNF, []) ∧
    calls 0 ([] : List Event) = 0 :=
  ⟨Reachable.register demoNF State.init tableNF 0 Reachable.init rfl, rfl, rfl, rfl, rfl⟩

theorem lt_length_of_getElem? (m : Block) (i : Nat) (x : Option zjs_callback_map)
    (h : m[i]? = some x) : i < m.length := by
  rcases Nat.lt_or_ge i m.length with h1 | h1
  · exact h1
  · rw [List.getElem?_eq_none h1] at h; cases h

/-- Claim C11: on an allocated table and for a handle that is the sentinel or within
capacity, `zjs_signal_callback` returns; it keeps `cb_size`, `cb_limit` and every other
slot, turns the entry at `id` (when there is one) into the same entry with `signal = 1`,
and returns the very same state when `id` is the sentinel or the slot is empty. The
function has no access to hooks or handlers, so none is invoked. -/
theorem signal_frame (s : State) (m : Block) (id : Int) (hm : s.cb_map = some m)
    (hlen : (m.length : Int) = s.cb_limit) (hid : id = -1 ∨ (0 ≤ id ∧ id < s.cb_limit)) :
    ∃ s1 : State, zjs_signal_callback id s = .ok s1 ∧
      s1.cb_size = s.cb_size ∧ s1.cb_limit = s.cb_limit ∧
      (∀ j : Nat, (j : Int) ≠ id → slotAt s1 j = slotAt s j) ∧
      (∀ e : zjs_callback_map, id ≠ -1 → slotAt s id.toNat = some e →
        slotAt s1 id.toNat = some { signal := 1, u := e.u }) ∧
      (id = -1 ∨ slotAt s id.toNat = none → s1 = s) := by
  rcases hid with h1 | ⟨h0, hlt⟩
  · subst h1
    exact ⟨s, rfl, rfl, rfl, fun _ _ => rfl, fun _ hc => absurd rfl hc, fun _ => rfl⟩
  · have hn : id.toNat < m.length := by omega
    have hidn : id = (id.toNat : Int) := (Int.toNat_of_nonneg h0).symm
    have hget : m[id.toNat]? = some (m[id.toNat]) := List.getElem?_eq_getElem hn
    cases hx : m[id.toNat] with
    | none =>
      rw [hx] at hget
      have hr : readSlot s id = .ok none := (readSlot_ok s m hm id none).2 ⟨h0, hget⟩
      have hrun : zjs_signal_callback id s = .ok s := by
        unfold zjs_signal_callback
        rw [if_pos (by omega), hr]
      refine ⟨s, hrun, rfl, rfl, fun _ _ => rfl, ?_, fun _ => rfl⟩
      intro e _ he
      rw [slotAt_eq s m hm, hget] at he
      cases he
    | some e =>
      rw [hx] at hget
      have hrun := signal_live s m hm id.toNat e hget
      rw [← hidn] at hrun
      refine ⟨_, hrun, rfl, rfl, ?_, ?_, ?_⟩
      · intro j hj
        rw [slotAt_mk, slotAt_set m _ j _ hn, if_neg (by omega), slotAt_eq s m hm]
      · intro e1 _ he1
        have he2 := (slotAt_eq_some s m hm _ e1).1 he1
        rw [hget] at he2
        simp only [Option.some.injEq] at he2
        subst he2
        rw [slotAt_mk, slotAt_set m _ _ _ hn, if_pos rfl]
      · intro hc
        rcases hc with hc | hc
        · omega
        · rw [slotAt_eq s m hm, hget] at hc
          cases hc

/-- Witness for C11: signalling handle 1 of the table with handles 0 and 1. -/
theorem signal_frame_witness :
    tableAB.cb_map = some (some (demoA.entry 0) :: some (demoB.entry 1) ::
      List.replicate 14 none) ∧
    zjs_signal_callback 1 tableAB = .ok tableABsig ∧
    ∃ s1 : State, zjs_signal_callback 1 tableAB = .ok s1 ∧
      s1.cb_size = tableAB.cb_size ∧ s1.cb_limit = tableAB.cb_limit ∧
      (∀ j : Nat, (j : Int) ≠ 1 → slotAt s1 j = slotAt tableAB j) ∧
      (∀ e : zjs_callback_map, (1 : Int) ≠ -1 → slotAt tableAB (1 : Int).toNat = some e →
        slotAt s1 (1 : Int).toNat = some { signal := 1, u := e.u }) ∧
      ((1 : Int) = -1 ∨ slotAt tableAB (1 : Int).toNat = none → s1 = tableAB) :=
  ⟨rfl, rfl, signal_frame tableAB _ 1 rfl rfl (Or.inr (by decide))⟩

theorem writeSlot_live (s : State) (m : Block) (hm : s.cb_map = some m) (i : Nat)
    (x : Option zjs_callback_map) (v : Option zjs_callback_map) (h : m[i]? = some x) :
    writeSlot s (i : Int) v = .ok { s with cb_map := some (m.set i v) } :=
  (writeSlot_ok s _ m hm _ _).2
    ⟨by omega, by simpa using lt_length_of_getElem? m i x h, by simp⟩

/-- Claim C14: when the loop of `zjs_service_callbacks` reaches a signalled Scripted
entry whose value is not a function, the iteration returns with only the entry's flag
cleared and makes no call (no pre hook, no script function, no post hook), and the pass
continues with the next index on that table. -/
theorem noncallable_skipped (env : Env) (s : State) (m : Block) (i : Nat)
    (e : zjs_callback_map) (cb : zjs_callback_t) (fuel : Nat) (hm : s.cb_map = some m)
    (he : m[i]? = some (some e)) (hu : e.u = .js cb) (hsig : e.signal ≠ 0)
    (hnf : env.jerry_value_is_function cb.js_func = false) (hi : (i : Int) < s.cb_size) :
    service_entry env i s =
      .ok ({ s with cb_map := some (m.set i (some { e with signal := 0 })) }, []) ∧
    service_loop env (fuel + 1) i s =
      service_loop env fuel (i + 1)
        { s with cb_map := some (m.set i (some { e with signal := 0 })) } := by
  have hent : service_entry env i s =
      .ok ({ s with cb_map := some (m.set i (some { e with signal := 0 })) }, []) := by
    unfold service_entry
    rw [getEntry_ok s m hm i e he]
    simp only
    rw [if_pos hsig, writeSlot_live s m hm i _ _ he]
    simp only [hu, hnf, Bool.false_eq_true, if_false]
  refine ⟨hent, ?_⟩
  simp only [service_loop]
  rw [if_pos hi, hent]
  simp only [List.nil_append]
  cases service_loop env fuel (i + 1)
      { s with cb_map := some (m.set i (some { e with signal := 0 })) } with
  | error f => rfl
  | ok p => rfl

/-- Witness for C14: the signalled Scripted entry with the non-function value 3. -/
theorem noncallable_skipped_witness :
    tableNFsig.cb_map = some (some { demoNF.entry 0 with signal := 1 } ::
      List.replicate 15 none) ∧
    demoEnv.jerry_value_is_function 3 = false ∧ ((0 : Nat) : Int) < tableNFsig.cb_size ∧
    zjs_service_callbacks demoEnv 2 tableNFsig = .ok (tableNF, []) ∧
    (service_entry demoEnv 0 tableNFsig =
      .ok ({ tableNFsig with
        cb_map := some ((some { demoNF.entry 0 with signal := 1 } ::
          List.replicate 15 none).set 0
            (some { ({ demoNF.entry 0 with signal := 1 } : zjs_callback_map) with
              signal := 0 })) }, []) ∧
    service_loop demoEnv (1 + 1) 0 tableNFsig =
      service_loop demoEnv 1 (0 + 1)
        { tableNFsig with
          cb_map := some ((some { demoNF.entry 0 with signal := 1 } ::
            List.replicate 15 none).set 0
              (some { ({ demoNF.entry 0 with signal := 1 } : zjs_callback_map) with
                signal := 0 })) }) :=
  ⟨rfl, rfl, by decide, rfl,
    noncallable_skipped demoEnv tableNFsig _ 0 { demoNF.entry 0 with signal := 1 }
      { id := 0, handle := 100, pre := some 1, post := some 2, js_func := 3 } 1 rfl rfl rfl
      (by decide) rfl (by decide)⟩

/-- Claim C15 (code defect): the local `ret_val` of `zjs_service_callbacks` is never
assigned; the result of `jerry_call_function` is dropped. With a script function that
returns 5 and 99 as the content of the unassigned local, the post hook of the signalled
entry is called with 99. -/
theorem post_hook_gets_unassigned :
    demoEnv.jerry_call_function 7 demoEnv.ZJS_UNDEFINED [42] 1 tableA = .ok (5, tableA) ∧
    demoEnv.ret_val = 99 ∧
    zjs_service_callbacks demoEnv 2 tableAsig =
      .ok (tableA, [Event.pre 0 1 100, Event.js_call 0 7 0 [42] 1, Event.post 0 2 100 99]) :=
  ⟨rfl, rfl, rfl⟩

theorem getElem?_clearFlagsAux (lo hi : Nat) (m : Block) (j0 j : Nat) :
    (clearFlagsAux lo hi j0 m)[j]? =
      (m[j]?).map (fun x =>
        if lo ≤ j0 + j ∧ j0 + j < hi then x.map (fun e => { e with signal := 0 }) else x) := by
  induction m generalizing j0 j with
  | nil => simp [clearFlagsAux]
  | cons x rest ih =>
    cases j with
    | zero => simp [clearFlagsAux]
    | succ j =>
      simp only [clearFlagsAux, List.getElem?_cons_succ]
      rw [ih (j0 + 1) j]
      have : j0 + 1 + j = j0 + (j + 1) := by omega
      rw [this]

theorem getElem?_clearFlags (lo hi : Nat) (m : Block) (j : Nat) :
    (clearFlags lo hi m)[j]? =
      (m[j]?).map (fun x =>
        if lo ≤ j ∧ j < hi then x.map (fun e => { e with signal := 0 }) else x) := by
  unfold clearFlags
  rw [getElem?_clearFlagsAux]
  simp

theorem clearFlags_empty (lo : Nat) (m : Block) : clearFlags lo lo m = m := by
  apply List.ext_getElem?
  intro j
  rw [getElem?_clearFlags]
  cases m[j]? with
  | none => rfl
  | some x =>
    have : ¬ (lo ≤ j ∧ j < lo) := by omega
    simp [this]

theorem clearFlags_step (i hi : Nat) (m : Block) (e : zjs_callback_map)
    (he : m[i]? = some (some e)) (hhi : i < hi) :
    clearFlags (i + 1) hi (m.set i (some { e with signal := 0 })) = clearFlags i hi m := by
  have hlt := lt_length_of_getElem? m i _ he
  apply List.ext_getElem?
  intro j
  rw [getElem?_clearFlags, getElem?_clearFlags]
  by_cases hj : i = j
  · subst hj
    rw [List.getElem?_set_self hlt, he]
    have h1 : ¬ (i + 1 ≤ i ∧ i < hi) := by omega
    have h2 : i ≤ i ∧ i < hi := ⟨Nat.le_refl i, hhi⟩
    simp [h1, h2]
  · rw [List.getElem?_set_ne hj]
    cases m[j]? with
    | none => rfl
    | some x =>
      by_cases h1 : i + 1 ≤ j ∧ j < hi
      · have h2 : i ≤ j ∧ j < hi := ⟨by omega, h1.2⟩
        simp [h1, h2]
      · have h2 : ¬ (i ≤ j ∧ j < hi) := by omega
        simp [h1, h2]

theorem clearFlags_first (i : Nat) (m : Block) (e : zjs_callback_map)
    (he : m[i]? = some (some e)) :
    clearFlags i (i + 1) m = m.set i (some { e with signal := 0 }) := by
  rw [← clearFlags_step i (i + 1) m e he (Nat.lt_succ_self i), clearFlags_empty]

theorem service_js_inert_exact (env : Env) (hin : env.Inert) (s : State) (m : Block)
    (hm : s.cb_map = some m) (i : Nat) (e : zjs_callback_map) (cb : zjs_callback_t)
    (h : m[i]? = some (some e)) (hu : e.u = .js cb)
    (hf : env.jerry_value_is_function cb.js_func = true) :
    service_js env i s = .ok (s, entryEvents env i e s) := by
  obtain ⟨hpre, hcall, hpost, -⟩ := hin
  have hjs := getJs_ok s m hm i e cb h hu
  have hQ : service_post env i s =
      .ok (s, match cb.post with
              | none => []
              | some q => [Event.post i q cb.handle env.ret_val]) := by
    unfold service_post
    rw [hjs]
    dsimp only
    cases hp : cb.post with
    | none => rfl
    | some p =>
      dsimp only
      rw [hpost p cb.handle env.ret_val s]
  have hC : ∀ args cnt, service_call env i args cnt s =
      .ok (s, [Event.js_call i cb.js_func env.ZJS_UNDEFINED args cnt]) := by
    intro args cnt
    obtain ⟨v, hv⟩ := hcall cb.js_func env.ZJS_UNDEFINED args cnt s
    unfold service_call
    rw [hjs]
    simp only [hv]
  unfold service_js service_pre entryEvents
  rw [hjs]
  simp only [hu, hf, if_true]
  cases hp : cb.pre with
  | none =>
    simp only [hC, hQ]
    rfl
  | some p =>
    obtain ⟨args, cnt, ha⟩ := hpre p cb.handle s
    simp only [ha, hC, hQ]
    rfl

theorem service_entry_inert_exact (env : Env) (hin : env.Inert) (s : State) (m : Block)
    (hm : s.cb_map = some m) (i : Nat) (e : zjs_callback_map) (h : m[i]? = some (some e)) :
    service_entry env i s =
      .ok ({ s with cb_map := some (m.set i (some { e with signal := 0 })) },
        if e.signal ≠ 0 then
          entryEvents env i e { s with cb_map := some (m.set i (some { e with signal := 0 })) }
        else []) := by
  have hlt := lt_length_of_getElem? m i _ h
  unfold service_entry
  rw [getEntry_ok s m hm i e h]
  simp only
  by_cases hsig : e.signal ≠ 0
  · rw [if_pos hsig, if_pos hsig, writeSlot_live s m hm i _ _ h]
    simp only
    have hget : (m.set i (some { e with signal := 0 }))[i]? =
        some (some { e with signal := 0 }) := List.getElem?_set_self hlt
    cases hu : e.u with
    | js cb =>
      simp only
      by_cases hf : env.jerry_value_is_function cb.js_func = true
      · rw [if_pos hf]
        have h1 := service_js_inert_exact env hin
          { s with cb_map := some (m.set i (some { e with signal := 0 })) } _ rfl i _ cb hget hu hf
        rw [hu] at h1
        rw [h1]
        simp only [entryEvents, hu]
      · rw [if_neg hf]
        simp only [entryEvents, hu, hf, Bool.false_eq_true, if_false]
    | c cb =>
      simp only
      cases hfn : cb.function with
      | none => simp only [entryEvents, hu, hfn]
      | some f =>
        simp only [hin.2.2.2 f cb.handle _, entryEvents, hu, hfn]
  · rw [if_neg hsig, if_neg hsig]
    have h0 : e.signal = 0 := by omega
    have he : ({ e with signal := 0 } : zjs_callback_map) = e := by
      cases e; simp only at h0; subst h0; rfl
    rw [he, set_same m i _ h]
    cases s; simp only at hm; subst hm; rfl

theorem entryEvents_atSlot (env : Env) (i h : Nat) (e : zjs_callback_map) (s : State) :
    (entryEvents env i e s).filter (Event.atSlot h) =
      if h = i then entryEvents env i e s else [] := by
  have hall : ∀ ev ∈ entryEvents env i e s, ev.index = i := by
    intro ev hev
    unfold entryEvents at hev
    cases hu : e.u with
    | js cb =>
      simp only [hu] at hev
      split at hev
      · rw [List.mem_append] at hev
        rcases hev with hev | hev
        · cases hp : cb.pre with
          | none =>
            simp only [hp, List.mem_singleton] at hev
            subst hev; rfl
          | some p =>
            simp only [hp] at hev
            split at hev
            · simp only [List.mem_cons, List.mem_singleton, List.mem_nil_iff, or_false] at hev
              rcases hev with hev | hev <;> subst hev <;> rfl
            · cases hev
        · cases hq : cb.post with
          | none => simp only [hq] at hev; cases hev
          | some q =>
            simp only [hq, List.mem_singleton] at hev
            subst hev; rfl
      · cases hev
    | c cb =>
      simp only [hu] at hev
      cases hfn : cb.function with
      | none => simp only [hfn] at hev; cases hev
      | some f =>
        simp only [hfn, List.mem_singleton] at hev
        subst hev; rfl
  by_cases hh : h = i
  · rw [if_pos hh]
    apply List.filter_eq_self.2
    intro ev hev
    simp [Event.atSlot, hall ev hev, hh]
  · rw [if_neg hh]
    apply List.filter_eq_nil_iff.2
    intro ev hev
    simp only [Event.atSlot, hall ev hev, beq_iff_eq]
    exact fun hc => hh hc.symm

theorem entryEvents_invoked (env : Env) (hin : env.Inert) (i : Nat) (e : zjs_callback_map)
    (s : State) :
    invoked (entryEvents env i e s) = if callable env e = true then [i] else [] := by
  unfold entryEvents callable invoked
  cases hu : e.u with
  | js cb =>
    simp only
    by_cases hf : env.jerry_value_is_function cb.js_func = true
    · rw [if_pos hf, if_pos hf]
      have hpost : List.filterMap Event.callIndex
          (match cb.post with
            | none => []
            | some q => [Event.post i q cb.handle env.ret_val]) = [] := by
        cases cb.post <;> rfl
      rw [List.filterMap_append, hpost]
      cases hp : cb.pre with
      | none => rfl
      | some p =>
        obtain ⟨args, cnt, ha⟩ := hin.1 p cb.handle s
        simp only [ha]
        rfl
    · rw [if_neg hf, if_neg hf]
      rfl
  | c cb =>
    obtain ⟨cid, chandle, cfn⟩ := cb
    cases cfn with
    | none => rfl
    | some f => rfl

theorem invoked_append (a b : List Event) : invoked (a ++ b) = invoked a ++ invoked b := by
  simp [invoked]

theorem fires_set_ne (env : Env) (m : Block) (i j : Nat) (v : Option zjs_callback_map)
    (hij : i ≠ j) : fires env (m.set i v) j = fires env m j := by
  unfold fires
  rw [List.getElem?_set_ne hij]

theorem service_loop_inert_exact (env : Env) (hin : env.Inert) (k : Nat) :
    ∀ (i : Nat) (s : State) (m : Block) (fuel : Nat), s.cb_map = some m →
      (i : Int) + (k : Int) = s.cb_size →
      (∀ j : Nat, i ≤ j → (j : Int) < s.cb_size → ∃ e, m[j]? = some (some e)) →
      k < fuel →
      ∃ tr : List Event,
        service_loop env fuel i s =
          .ok ({ s with cb_map := some (clearFlags i (i + k) m) }, tr) ∧
        invoked tr = (List.range' i k).filter (fires env m) ∧
        (∀ (h : Nat) (e : zjs_callback_map), m[h]? = some (some e) → i ≤ h → h < i + k →
          tr.filter (Event.atSlot h) =
            if e.signal ≠ 0 then
              entryEvents env h e { s with cb_map := some (clearFlags i (h + 1) m) }
            else []) ∧
        (∀ h : Nat, ¬ (i ≤ h ∧ h < i + k) → tr.filter (Event.atSlot h) = []) := by
  induction k with
  | zero =>
    intro i s m fuel hm hk hocc hfuel
    obtain ⟨f, rfl⟩ : ∃ f, fuel = f + 1 := ⟨fuel - 1, by omega⟩
    refine ⟨[], ?_, rfl, ?_, fun _ _ => rfl⟩
    · simp only [service_loop]
      rw [if_neg (by omega), Nat.add_zero, clearFlags_empty]
      cases s; simp only at hm; subst hm; rfl
    · intro h e _ h1 h2; omega
  | succ k ih =>
    intro i s m fuel hm hk hocc hfuel
    obtain ⟨f, rfl⟩ : ∃ f, fuel = f + 1 := ⟨fuel - 1, by omega⟩
    have hi : (i : Int) < s.cb_size := by omega
    obtain ⟨e, he⟩ := hocc i (Nat.le_refl i) hi
    have hent := service_entry_inert_exact env hin s m hm i e he
    have hocc2 : ∀ j : Nat, i + 1 ≤ j → (j : Int) < s.cb_size →
        ∃ x, (m.set i (some { e with signal := 0 }))[j]? = some (some x) := by
      intro j h1 h2
      rw [List.getElem?_set_ne (by omega)]
      exact hocc j (by omega) h2
    obtain ⟨tr2, hloop, hinv, hslot, hout⟩ :=
      ih (i + 1) { s with cb_map := some (m.set i (some { e with signal := 0 })) } _ f rfl
        (by push_cast; omega) hocc2 (by omega)
    dsimp only at hloop hslot
    have hstep : clearFlags (i + 1) (i + 1 + k) (m.set i (some { e with signal := 0 })) =
        clearFlags i (i + (k + 1)) m := by
      rw [clearFlags_step i (i + 1 + k) m e he (by omega)]
      congr 1
      omega
    rw [hstep] at hloop
    have hfire : fires env m i = (e.signal != 0 && callable env e) := by
      unfold fires; rw [he]
    refine ⟨(if e.signal ≠ 0 then
        entryEvents env i e { s with cb_map := some (m.set i (some { e with signal := 0 })) }
      else []) ++ tr2, ?_, ?_, ?_, ?_⟩
    · simp only [service_loop]
      rw [if_pos hi, hent]
      simp only [hloop]
    · rw [invoked_append, hinv, List.range'_succ, List.filter_cons, hfire]
      have hcongr : (List.range' (i + 1) k).filter
            (fires env (m.set i (some { e with signal := 0 }))) =
          (List.range' (i + 1) k).filter (fires env m) := by
        apply List.filter_congr
        intro j hj
        have := (List.mem_range'_1.1 hj).1
        exact fires_set_ne env m i j _ (by omega)
      rw [hcongr]
      by_cases hsig : e.signal ≠ 0
      · rw [if_pos hsig, entryEvents_invoked env hin]
        by_cases hc : callable env e = true
        · simp [hc, hsig]
        · simp [hc]
      · rw [if_neg hsig]
        have h0 : e.signal = 0 := by omega
        simp [invoked, h0]
    · intro h x hx h1 h2
      rw [List.filter_append]
      by_cases hj : h = i
      · subst hj
        rw [he] at hx
        simp only [Option.some.injEq] at hx
        subst hx
        rw [hout h (by omega), List.append_nil, clearFlags_first h m e he]
        by_cases hsig : e.signal ≠ 0
        · simp only [if_pos hsig]
          rw [entryEvents_atSlot, if_pos rfl]
        · simp only [if_neg hsig]
          rfl
      · have hx2 : (m.set i (some { e with signal := 0 }))[h]? = some (some x) := by
          rw [List.getElem?_set_ne (fun hc => hj hc.symm)]
          exact hx
        rw [hslot h x hx2 (by omega) (by omega),
          clearFlags_step i (h + 1) m e he (by omega)]
        have h1' : List.filter (Event.atSlot h)
            (if e.signal ≠ 0 then
              entryEvents env i e { s with cb_map := some (m.set i (some { e with signal := 0 })) }
            else []) = [] := by
          split
          · rw [entryEvents_atSlot, if_neg hj]
          · rfl
        rw [h1', List.nil_append]
    · intro h hh
      rw [List.filter_append, hout h (by omega), List.append_nil]
      split
      · rw [entryEvents_atSlot, if_neg (by omega)]
      · rfl

theorem filter_isCallOf_atSlot (h : Nat) (tr : List Event) :
    tr.filter (Event.isCallOf h) = (tr.filter (Event.atSlot h)).filter (Event.isCallOf h) := by
  rw [List.filter_filter]
  apply List.filter_congr
  intro ev _
  cases ev <;> simp [Event.isCallOf, Event.atSlot, Event.index]

theorem eq_nil_of_atSlot (tr : List Event) (h : ∀ k, tr.filter (Event.atSlot k) = []) :
    tr = [] := by
  cases tr with
  | nil => rfl
  | cons ev rest =>
    have := h ev.index
    simp [List.filter_cons, Event.atSlot] at this

theorem flagged_eq_fires (env : Env) (s : State) (m : Block) (hm : s.cb_map = some m)
    (j : Nat) : flagged env s j = fires env m j := by
  unfold flagged fires
  rw [slotAt_eq s m hm]
  cases m[j]? with
  | none => rfl
  | some x => cases x <;> rfl

theorem compact_occ (s : State) (m : Block) (hm : s.cb_map = some m) (hc : Compact s)
    (j : Nat) (hj : (j : Int) < s.cb_size) : ∃ e, m[j]? = some (some e) := by
  have := (hc j).2 hj
  simp only [occupied, slotAt_eq s m hm] at this
  cases hx : m[j]? with
  | none => rw [hx] at this; simp at this
  | some x =>
    cases x with
    | none => rw [hx] at this; simp at this
    | some y => exact ⟨y, rfl⟩

theorem compact_lt (s : State) (hc : Compact s) (h : Nat) (e : zjs_callback_map)
    (hlive : slotAt s h = some e) : (h : Int) < s.cb_size :=
  (hc h).1 (by simp [occupied, hlive])

theorem service_compact (env : Env) (hin : env.Inert) (s : State) (hc : Compact s)
    (fuel : Nat) (hfuel : s.cb_size.toNat < fuel) :
    ∃ tr : List Event, zjs_service_callbacks env fuel s = .ok (s.cleared, tr) ∧
      invoked tr = (List.range s.cb_size.toNat).filter (flagged env s) ∧
      (∀ (h : Nat) (e : zjs_callback_map), slotAt s h = some e →
        tr.filter (Event.atSlot h) =
          if e.signal ≠ 0 then entryEvents env h e (s.clearedBelow (h + 1)) else []) ∧
      (∀ h : Nat, slotAt s h = none → tr.filter (Event.atSlot h) = []) := by
  obtain ⟨f, rfl⟩ : ∃ f, fuel = f + 1 := ⟨fuel - 1, by omega⟩
  by_cases hneg : s.cb_size ≤ 0
  · have hnone : ∀ h, slotAt s h = none := by
      intro h
      cases hx : slotAt s h with
      | none => rfl
      | some e => have := compact_lt s hc h e hx; omega
    have hclr : s.cleared = s := by
      unfold State.cleared State.clearedBelow
      have h0 : s.cb_size.toNat = 0 := by omega
      rw [h0]
      cases s with
      | mk a b c =>
        cases c with
        | none => rfl
        | some m => simp only [Option.map_some', clearFlags_empty]
    refine ⟨[], ?_, ?_, ?_, fun _ _ => rfl⟩
    · unfold zjs_service_callbacks
      simp only [service_loop]
      rw [if_neg (by push_cast; omega), hclr]
    · have h0 : s.cb_size.toNat = 0 := by omega
      rw [h0]; rfl
    · intro h e he
      rw [hnone h] at he; cases he
  · have hpos : 0 < s.cb_size := by omega
    cases hmap : s.cb_map with
    | none =>
      have := (hc 0).2 (by simpa using hpos)
      simp [occupied, slotAt, hmap] at this
    | some m =>
      obtain ⟨tr, hrun, hinv, hslot, hout⟩ :=
        service_loop_inert_exact env hin s.cb_size.toNat 0 s m (f + 1) hmap
          (by simp only [Int.toNat_of_nonneg (Int.le_of_lt hpos)]; omega)
          (fun j _ hj => compact_occ s m hmap hc j hj) hfuel
      have hst : ∀ n, ({ s with cb_map := some (clearFlags 0 n m) } : State) =
          s.clearedBelow n := by
        intro n
        unfold State.clearedBelow
        rw [hmap]; rfl
      refine ⟨tr, ?_, ?_, ?_, ?_⟩
      · unfold zjs_service_callbacks
        rw [hrun, Nat.zero_add, hst]
        rfl
      · rw [hinv, ← List.range_eq_range']
        apply List.filter_congr
        intro j _
        exact (flagged_eq_fires env s m hmap j).symm
      · intro h e he
        have hlt := compact_lt s hc h e he
        rw [hslot h e ((slotAt_eq_some s m hmap h e).1 he) (Nat.zero_le h) (by omega), hst]
      · intro h hn
        apply hout h
        intro hc2
        have : occupied s h = true := (hc h).2 (by omega)
        simp [occupied, hn] at this

theorem compact_prefix16 (k : Nat) (es : List zjs_callback_map) (hk : es.length = k)
    (a : Int) :
    Compact { cb_limit := a, cb_size := (k : Int),
              cb_map := some (es.map some ++ List.replicate (16 - k) none) } := by
  intro i
  simp only [occupied, slotAt]
  by_cases hi : i < k
  · rw [List.getElem?_append_left (by simpa [hk] using hi), List.getElem?_map,
      List.getElem?_eq_getElem (by omega)]
    simp [hi]
  · rw [List.getElem?_append_right (by simp [hk]; omega), List.getElem?_replicate]
    have : ¬ ((i : Int) < (k : Int)) := by omega
    split <;> simp [this]

theorem tableAsig_compact : Compact tableAsig :=
  compact_prefix16 1 [{ demoA.entry 0 with signal := 1 }] rfl 16

theorem scripted_pass_trace (env : Env) (hin : env.Inert) (s : State) (h : Nat)
    (e : zjs_callback_map) (cb : zjs_callback_t) (fuel : Nat) (hc : Compact s)
    (hlive : slotAt s h = some e) (hu : e.u = .js cb) (hsig : e.signal ≠ 0)
    (hf : env.jerry_value_is_function cb.js_func = true) (hfuel : s.cb_size.toNat < fuel) :
    ∃ (s1 : State) (tr : List Event), zjs_service_callbacks env fuel s = .ok (s1, tr) ∧
      (cb.pre = none →
        tr.filter (Event.isCallOf h) =
          [Event.js_call h cb.js_func env.ZJS_UNDEFINED [] 0] ∧
        tr.filter (Event.atSlot h) =
          [Event.js_call h cb.js_func env.ZJS_UNDEFINED [] 0] ++
            (match cb.post with
              | none => []
              | some q => [Event.post h q cb.handle env.ret_val])) ∧
      (∀ (p : Ptr) (args : List jerry_value_t) (args_cnt : Nat), cb.pre = some p →
        env.pre p cb.handle (s.clearedBelow (h + 1)) =
          .ok (args, args_cnt, s.clearedBelow (h + 1)) →
        tr.filter (Event.isCallOf h) =
          [Event.js_call h cb.js_func env.ZJS_UNDEFINED args args_cnt] ∧
        tr.filter (Event.atSlot h) =
          [Event.pre h p cb.handle,
            Event.js_call h cb.js_func env.ZJS_UNDEFINED args args_cnt] ++
            (match cb.post with
              | none => []
              | some q => [Event.post h q cb.handle env.ret_val])) := by
  obtain ⟨tr, hrun, -, hslot, -⟩ := service_compact env hin s hc fuel hfuel
  have hs := hslot h e hlive
  rw [if_pos hsig] at hs
  have hpost : ∀ (q : Option Ptr),
      List.filter (Event.isCallOf h)
        (match q with
          | none => []
          | some q => [Event.post h q cb.handle env.ret_val]) = [] := by
    intro q; cases q <;> rfl
  refine ⟨_, tr, hrun, ?_, ?_⟩
  · intro hp
    constructor
    · rw [filter_isCallOf_atSlot, hs]
      simp only [entryEvents, hu, hf, if_true, hp, List.filter_append, hpost]
      simp [Event.isCallOf]
    · rw [hs]
      simp only [entryEvents, hu, hf, if_true, hp]
  · intro p args cnt hp ha
    constructor
    · rw [filter_isCallOf_atSlot, hs]
      simp only [entryEvents, hu, hf, if_true, hp, ha, List.filter_append, hpost]
      simp [Event.isCallOf]
    · rw [hs]
      simp only [entryEvents, hu, hf, if_true, hp, ha]

theorem slotAt_clearedBelow (s : State) (k j : Nat) :
    slotAt (s.clearedBelow k) j =
      (slotAt s j).map (fun e => if j < k then { e with signal := 0 } else e) := by
  unfold State.clearedBelow slotAt
  cases s.cb_map with
  | none => rfl
  | some m =>
    simp only [Option.map_some', getElem?_clearFlags]
    cases m[j]? with
    | none => rfl
    | some x =>
      cases x with
      | none => by_cases hj : j < k <;> simp [hj]
      | some e => by_cases hj : j < k <;> simp [hj]

theorem compact_clearedBelow (s : State) (k : Nat) (hc : Compact s) :
    Compact (s.clearedBelow k) := by
  intro i
  have h1 : occupied (s.clearedBelow k) i = occupied s i := by
    simp only [occupied, slotAt_clearedBelow]
    cases slotAt s i <;> rfl
  rw [h1]
  exact hc i

theorem clearedBelow_idem (s : State) (k : Nat) :
    (s.clearedBelow k).clearedBelow k = s.clearedBelow k := by
  unfold State.clearedBelow
  cases s with
  | mk a b c =>
    cases c with
    | none => rfl
    | some m =>
      simp only [Option.map_some']
      congr 2
      apply List.ext_getElem?
      intro j
      rw [getElem?_clearFlags, getElem?_clearFlags]
      cases m[j]? with
      | none => rfl
      | some x =>
        cases x with
        | none => by_cases hj : j < k <;> simp [hj]
        | some e => by_cases hj : j < k <;> simp [hj]

theorem service_cleared (env : Env) (hin : env.Inert) (s : State) (hc : Compact s)
    (fuel : Nat) (hfuel : s.cb_size.toNat < fuel) :
    zjs_service_callbacks env fuel s.cleared = .ok (s.cleared, []) := by
  have hc2 : Compact s.cleared := compact_clearedBelow s _ hc
  have hsz : s.cleared.cb_size = s.cb_size := rfl
  obtain ⟨tr, hrun, -, hslot, hout⟩ :=
    service_compact env hin s.cleared hc2 fuel (by rw [hsz]; exact hfuel)
  have hcc : s.cleared.cleared = s.cleared := by
    show (s.clearedBelow s.cb_size.toNat).clearedBelow s.cb_size.toNat = _
    exact clearedBelow_idem s _
  have hnil : tr = [] := by
    apply eq_nil_of_atSlot
    intro k
    cases hx : slotAt s.cleared k with
    | none => exact hout k hx
    | some e =>
      rw [hslot k e hx]
      have hlt : (k : Int) < s.cb_size := compact_lt s.cleared hc2 k e hx
      have h0 : e.signal = 0 := by
        have hx2 : slotAt (s.clearedBelow s.cb_size.toNat) k = some e := hx
        rw [slotAt_clearedBelow] at hx2
        cases hy : slotAt s k with
        | none => rw [hy] at hx2; cases hx2
        | some y =>
          rw [hy] at hx2
          have hk : k < s.cb_size.toNat := by omega
          simp only [Option.map_some', hk, if_true, Option.some.injEq] at hx2
          rw [← hx2]
      rw [if_neg (by omega)]
  rw [hrun, hcc, hnil]

theorem eq_filter_of_atSlot (tr : List Event) (n : Nat)
    (h : ∀ k, k ≠ n → tr.filter (Event.atSlot k) = []) : tr.filter (Event.atSlot n) = tr := by
  apply List.filter_eq_self.2
  intro ev hev
  by_cases hi : ev.index = n
  · simp [Event.atSlot, hi]
  · have hmem : ev ∈ tr.filter (Event.atSlot ev.index) :=
      List.mem_filter.2 ⟨hev, by simp [Event.atSlot]⟩
    rw [h ev.index hi] at hmem
    cases hmem

theorem register_compact (r : Registration) (s s1 : State) (id : Int) (hinv : Inv s)
    (hc : Compact s) (h : register r s = .ok (s1, id)) (hid : id ≠ -1) :
    ∃ n : Nat, id = (n : Int) ∧ (n : Int) = s.cb_size ∧ s1.cb_size = s.cb_size + 1 ∧
      Compact s1 ∧ slotAt s1 n = some (r.entry id) ∧
      (∀ j, j ≠ n → slotAt s1 j = slotAt s j) := by
  obtain ⟨m, hm, hlen, hsz, -, -⟩ := hinv
  rcases register_spec r s s1 id m hm hlen hsz h with ⟨hneg, -⟩ | ⟨n, hn, hbelow, hcase⟩
  · exact absurd hneg hid
  · subst hn
    have hfree : occupied s n = false → (n : Int) = s.cb_size := by
      intro hf
      have h1 : ¬ ((n : Int) < s.cb_size) := by
        intro hlt
        rw [(hc n).2 hlt] at hf; cases hf
      have h2 : ∀ j, j < n → (j : Int) < s.cb_size := by
        intro j hj
        obtain ⟨e, he⟩ := hbelow j hj
        exact compact_lt s hc j e ((slotAt_eq_some s m hm j e).2 he)
      rcases Nat.eq_zero_or_pos n with h0 | hpos
      · subst h0
        have := liveCount_le m
        omega
      · have := h2 (n - 1) (by omega)
        omega
    have hslots : ∀ (m1 : Block), n < m1.length → (∀ j : Nat, (m1[j]?).join = (m[j]?).join) →
        (s1 = { s with cb_size := s.cb_size + 1,
                       cb_map := some (m1.set n (some (r.entry n))) } ∨
         s1 = { cb_limit := s.cb_limit + CB_CHUNK_SIZE, cb_size := s.cb_size + 1,
                cb_map := some (m1.set n (some (r.entry n))) }) →
        occupied s n = false →
        ∃ k : Nat, (n : Int) = (k : Int) ∧ (k : Int) = s.cb_size ∧
          s1.cb_size = s.cb_size + 1 ∧ Compact s1 ∧ slotAt s1 k = some (r.entry n) ∧
          (∀ j, j ≠ k → slotAt s1 j = slotAt s j) := by
      intro m1 hlt hsame hs1 hf
      have hn := hfree hf
      have hsl : ∀ j, slotAt s1 j = if n = j then some (r.entry n) else slotAt s j := by
        intro j
        rcases hs1 with hs1 | hs1 <;>
          rw [hs1, slotAt_mk, slotAt_set m1 n j _ hlt, hsame j, slotAt_eq s m hm]
      have hsz1 : s1.cb_size = s.cb_size + 1 := by
        rcases hs1 with hs1 | hs1 <;> rw [hs1]
      refine ⟨n, rfl, hn, hsz1, ?_, by rw [hsl n, if_pos rfl], ?_⟩
      · intro i
        simp only [occupied, hsl i, hsz1]
        by_cases hi : n = i
        · subst hi
          simp only [if_true, Option.isSome_some, true_iff]
          omega
        · rw [if_neg hi]
          have := hc i
          simp only [occupied] at this
          rw [this]
          omega
      · intro j hj
        rw [hsl j, if_neg (Ne.symm hj)]
    rcases hcase with ⟨-, hlt, hnone, hs1⟩ | ⟨hfull, hnl, -, hs1⟩
    · exact hslots m hlt (fun _ => rfl) (Or.inl hs1)
        (by simp [occupied, slotAt_eq s m hm, hnone])
    · exact hslots (m ++ List.replicate 16 none)
        (by simp only [List.length_append, List.length_replicate]; omega)
        (fun j => slotAt_append m 16 j) (Or.inr hs1)
        (by simp [occupied, slotAt_eq s m hm,
          List.getElem?_eq_none (Nat.le_of_eq hnl.symm)])

theorem init_compact : Compact State.init := compact_prefix16 0 [] rfl 16

/-- Claim C17: on a reachable table without gaps (in particular the freshly initialised
one) and with callees that leave the table alone, after `zjs_add_c_callback C f` returned
the handle `h`, `zjs_signal_callback h` and one pass make exactly one call for slot `h`,
the call of `f` with argument `C` (the only call of the pass when no other entry was
signalled); the pass leaves the flag of the entry 0, and a second pass without a new
signal makes no call at all. -/
theorem native_once (env : Env) (hin : env.Inert) (s s1 : State) (okCb okC okMap : Bool)
    (C f : Ptr) (h : Int) (fuel : Nat) (hs : Reachable s) (hc : Compact s)
    (hreg : zjs_add_c_callback okCb okC okMap C (some f) s = .ok (s1, h)) (hh : h ≠ -1)
    (hfuel : s1.cb_size.toNat < fuel) :
    ∃ (n : Nat) (s2 s3 : State) (tr : List Event), h = (n : Int) ∧
      zjs_signal_callback h s1 = .ok s2 ∧
      zjs_service_callbacks env fuel s2 = .ok (s3, tr) ∧
      tr.filter (Event.atSlot n) = [Event.c_call n f C] ∧
      ((∀ (j : Nat) (e : zjs_callback_map), slotAt s j = some e → e.signal = 0) →
        tr = [Event.c_call n f C]) ∧
      (∃ e3 : zjs_callback_map, slotAt s3 n = some e3 ∧ e3.signal = 0) ∧
      zjs_service_callbacks env fuel s3 = .ok (s3, []) := by
  have hreg2 : register (.c okCb okC okMap C (some f)) s = .ok (s1, h) := hreg
  obtain ⟨n, hn, hnsz, hsz1, hc1, hslot1, hother1⟩ :=
    register_compact _ s s1 h (reachable_inv s hs) hc hreg2 hh
  subst hn
  cases hmap : s1.cb_map with
  | none => simp [slotAt, hmap] at hslot1
  | some m1 =>
    have he : m1[n]? = some (some ((Registration.c okCb okC okMap C (some f)).entry n)) :=
      (slotAt_eq_some s1 m1 hmap n _).1 hslot1
    have hlt := lt_length_of_getElem? m1 n _ he
    have hsig := signal_live s1 m1 hmap n _ he
    have hsl2 : ∀ j, slotAt
        ({ s1 with cb_map := some (m1.set n (some
          { (Registration.c okCb okC okMap C (some f)).entry n with signal := 1 })) } : State) j =
        if n = j then some { (Registration.c okCb okC okMap C (some f)).entry n with signal := 1 }
        else slotAt s1 j := by
      intro j
      rw [slotAt_mk, slotAt_set m1 n j _ hlt, slotAt_eq s1 m1 hmap]
    have hc2 : Compact ({ s1 with cb_map := some (m1.set n (some
          { (Registration.c okCb okC okMap C (some f)).entry n with signal := 1 })) } : State) := by
      intro i
      have h1 := hc1 i
      simp only [occupied, hsl2 i] at h1 ⊢
      by_cases hi : n = i
      · subst hi
        rw [hslot1] at h1
        simpa using h1
      · rw [if_neg hi]; exact h1
    obtain ⟨tr, hrun, -, hslot, hout⟩ := service_compact env hin _ hc2 fuel hfuel
    have hfil : tr.filter (Event.atSlot n) = [Event.c_call n f C] := by
      rw [hslot n _ (by rw [hsl2 n, if_pos rfl])]
      rfl
    refine ⟨n, _, _, tr, rfl, hsig, hrun, hfil, ?_, ?_, ?_⟩
    · intro hquiet
      rw [← eq_filter_of_atSlot tr n ?_]
      · exact hfil
      · intro k hk
        cases hx : slotAt s k with
        | none =>
          apply hout k
          rw [hsl2 k, if_neg (Ne.symm hk), hother1 k hk, hx]
        | some e =>
          rw [hslot k e (by rw [hsl2 k, if_neg (Ne.symm hk), hother1 k hk, hx]),
            if_neg (by rw [hquiet k e hx]; simp)]
    · refine ⟨{ ({ (Registration.c okCb okC okMap C (some f)).entry n with signal := 1 } :
          zjs_callback_map) with signal := 0 }, ?_, rfl⟩
      show slotAt (State.clearedBelow _ _) n = _
      rw [slotAt_clearedBelow, hsl2 n, if_pos rfl]
      have : n < s1.cb_size.toNat := by
        have := compact_lt s1 hc1 n _ hslot1
        omega
      simp [this]
    · exact service_cleared env hin _ hc2 fuel hfuel

/-- Witness for C17: context 200 and function 9 registered on the freshly initialised
table; the pass after the signal makes the one call of 9 with 200, the next pass none. -/
theorem native_once_witness :
    demoEnv.Inert ∧ Reachable State.init ∧ Compact State.init ∧
    zjs_add_c_callback true true true 200 (some 9) State.init = .ok (tableC, 0) ∧
    zjs_signal_callback 0 tableC = .ok tableCsig ∧
    zjs_service_callbacks demoEnv 2 tableCsig = .ok (tableC, [Event.c_call 0 9 200]) ∧
    zjs_service_callbacks demoEnv 2 tableC = .ok (tableC, []) ∧
    ∃ (n : Nat) (s2 s3 : State) (tr : List Event), (0 : Int) = (n : Int) ∧
      zjs_signal_callback 0 tableC = .ok s2 ∧
      zjs_service_callbacks demoEnv 2 s2 = .ok (s3, tr) ∧
      tr.filter (Event.atSlot n) = [Event.c_call n 9 200] ∧
      ((∀ (j : Nat) (e : zjs_callback_map), slotAt State.init j = some e → e.signal = 0) →
        tr = [Event.c_call n 9 200]) ∧
      (∃ e3 : zjs_callback_map, slotAt s3 n = some e3 ∧ e3.signal = 0) ∧
      zjs_service_callbacks demoEnv 2 s3 = .ok (s3, []) :=
  ⟨demoEnv_inert, Reachable.init, init_compact, rfl, rfl, rfl, rfl,
    native_once demoEnv demoEnv_inert State.init tableC true true true 200 9 0 2
      Reachable.init init_compact rfl (by decide) (by decide)⟩

theorem new_id_total (ok : Bool) (s : State) (hinv : Inv s) :
    (∃ (s1 : State) (id : Int), new_id ok s = .ok (s1, id)) ∨
    (new_id ok s = .error Fault.overflow ∧ s.cb_size = s.cb_limit ∧
      s.cb_limit + CB_CHUNK_SIZE > INT32_MAX) := by
  obtain ⟨m, hm, hlen, hsz, -, hlim⟩ := hinv
  have hle := liveCount_le m
  unfold new_id
  by_cases hfull : s.cb_size ≥ s.cb_limit
  · have hfl : liveCount m = m.length := by omega
    rw [if_pos hfull]
    by_cases hov : s.cb_limit + CB_CHUNK_SIZE > INT32_MAX
    · rw [if_pos hov]
      exact Or.inr ⟨rfl, by omega, hov⟩
    · rw [if_neg hov]
      left
      cases ok with
      | false => exact ⟨_, _, rfl⟩
      | true =>
        simp only [Bool.not_true, Bool.false_eq_true, if_false, hm]
        have hc : 0 ≤ s.cb_size ∧ s.cb_size.toNat ≤ m.length ∧
            s.cb_size ≤ s.cb_limit + CB_CHUNK_SIZE := by
          simp only [CB_CHUNK_SIZE]
          omega
        rw [if_pos hc]
        have htake : List.take s.cb_size.toNat m = m := by
          apply List.take_of_length_le
          omega
        have hrep : (s.cb_limit + CB_CHUNK_SIZE).toNat - s.cb_size.toNat = 16 := by
          simp only [CB_CHUNK_SIZE]
          omega
        rw [htake, hrep]
        have hscan := scanFree_full_append m (List.replicate 15 none) 0 hfl
        unfold new_id_scan
        simp only [List.replicate_succ] at hscan
        simp only [List.replicate_succ, hscan, Nat.zero_add]
        rw [if_pos (by simp only [CB_CHUNK_SIZE] at hov; omega)]
        exact ⟨_, _, rfl⟩
  · rw [if_neg hfull]
    left
    unfold new_id_scan
    rw [hm]
    simp only
    cases hs : scanFree m 0 with
    | none =>
      have := scanFree_none m 0 hs
      omega
    | some n =>
      simp only
      have := (scanFree_some m 0 n hs).2.1
      rw [if_pos (by omega)]
      exact ⟨_, _, rfl⟩

/-- Claim C19: in every state reachable from `zjs_init_callbacks` by calls of the API
that return, the map has `cb_limit` cells, `cb_size` is the number of occupied cells,
`0 ≤ cb_size ≤ cb_limit`, and every occupied slot lies below `cb_limit`. `new_id` then
never reads past the map: it returns, unless the growth would overflow `cb_limit`, and
the index it returns is -1 (failed allocation of the larger map) or lies below the
`cb_limit` it leaves. -/
theorem size_invariant (s : State) (hs : Reachable s) :
    (∃ m : Block, s.cb_map = some m ∧ (m.length : Int) = s.cb_limit ∧
      s.cb_size = (liveCount m : Int)) ∧
    0 ≤ s.cb_size ∧ s.cb_size ≤ s.cb_limit ∧
    (∀ i : Nat, occupied s i = true → (i : Int) < s.cb_limit) ∧
    (∀ mallocOk : Bool,
      (∃ (s1 : State) (id : Int), new_id mallocOk s = .ok (s1, id) ∧
        ((id = -1 ∧ mallocOk = false) ∨ (0 ≤ id ∧ id < s1.cb_limit))) ∨
      (new_id mallocOk s = .error Fault.overflow ∧ s.cb_size = s.cb_limit ∧
        s.cb_limit + CB_CHUNK_SIZE > INT32_MAX)) := by
  have hinv := reachable_inv s hs
  obtain ⟨m, hm, hlen, hsz, -, hlim⟩ := hinv
  have hle := liveCount_le m
  refine ⟨⟨m, hm, hlen, hsz⟩, by omega, by omega, ?_, ?_⟩
  · intro i hi
    simp only [occupied, slotAt_eq s m hm] at hi
    rcases Nat.lt_or_ge i m.length with h1 | h1
    · omega
    · rw [List.getElem?_eq_none h1] at hi; simp at hi
  · intro ok
    rcases new_id_total ok s (reachable_inv s hs) with ⟨s1, id, h⟩ | h
    · left
      refine ⟨s1, id, h, ?_⟩
      rcases new_id_spec ok s s1 id m hm hlen hsz h with
        ⟨h1, h2, -, -⟩ | ⟨n, hn, hcase⟩
      · exact Or.inl ⟨h1, h2⟩
      · right
        rcases hcase with ⟨hs1, -, hlt, -, -⟩ | ⟨hs1, -, hnl, -⟩
        · rw [hs1]; omega
        · rw [hs1]
          simp only [CB_CHUNK_SIZE]
          omega
    · exact Or.inr h

/-- Witness for C19: the table with handles 0 and 2 live and slot 1 free. -/
theorem size_invariant_witness :
    Reachable tableGap ∧ new_id true tableGap = .ok (tableGap, 1) ∧
    (∃ m : Block, tableGap.cb_map = some m ∧ (m.length : Int) = tableGap.cb_limit ∧
      tableGap.cb_size = (liveCount m : Int)) ∧
    0 ≤ tableGap.cb_size ∧ tableGap.cb_size ≤ tableGap.cb_limit :=
  have h := size_invariant tableGap tableGap_reachable
  ⟨tableGap_reachable, rfl, h.1, h.2.1, h.2.2.1⟩

theorem tableNullSig_compact : Compact tableNullSig :=
  compact_prefix16 1 [{ demoNull.entry 0 with signal := 1 }] rfl 16

/-- Claim C20, as amended: on a table whose occupied slots are exactly `0 .. cb_size - 1`
and with hooks and handlers that leave the table alone, one pass (given fuel above
`cb_size`) returns, so it never reads an empty slot; the handlers it calls are, in
ascending order and each once, those of the slots below `cb_size` whose entry was
signalled and passes the guard of the loop (a Scripted entry whose value is a function, a
Native entry whose function pointer is not `NULL`); afterwards every entry has its flag 0
and is otherwise as before, `cb_size` and `cb_limit` are unchanged, and a second pass
returns the same table and makes no call. -/
theorem compact_pass (env : Env) (hin : env.Inert) (s : State) (hc : Compact s)
    (fuel : Nat) (hfuel : s.cb_size.toNat < fuel) :
    ∃ (s1 : State) (tr : List Event), zjs_service_callbacks env fuel s = .ok (s1, tr) ∧
      invoked tr = (List.range s.cb_size.toNat).filter (flagged env s) ∧
      s1.cb_size = s.cb_size ∧ s1.cb_limit = s.cb_limit ∧
      (∀ j : Nat, slotAt s1 j = (slotAt s j).map (fun e => { e with signal := 0 })) ∧
      zjs_service_callbacks env fuel s1 = .ok (s1, []) := by
  obtain ⟨tr, hrun, hinv, -, -⟩ := service_compact env hin s hc fuel hfuel
  refine ⟨s.cleared, tr, hrun, hinv, rfl, rfl, ?_, service_cleared env hin s hc fuel hfuel⟩
  intro j
  show slotAt (s.clearedBelow s.cb_size.toNat) j = _
  rw [slotAt_clearedBelow]
  cases hx : slotAt s j with
  | none => rfl
  | some e =>
    have hlt := compact_lt s hc j e hx
    have : j < s.cb_size.toNat := by omega
    simp [this]

/-- Witness for C20: the table with the Scripted entry at 0 and the signalled Native
entry at 1; the pass calls the handler of slot 1 only. -/
theorem compact_pass_witness :
    demoEnv.Inert ∧ Compact tableABsig ∧
    zjs_service_callbacks demoEnv 3 tableABsig = .ok (tableAB, [Event.c_call 1 9 200]) ∧
    (List.range tableABsig.cb_size.toNat).filter (flagged demoEnv tableABsig) = [1] ∧
    ∃ (s1 : State) (tr : List Event),
      zjs_service_callbacks demoEnv 3 tableABsig = .ok (s1, tr) ∧
      invoked tr = (List.range tableABsig.cb_size.toNat).filter (flagged demoEnv tableABsig) ∧
      s1.cb_size = tableABsig.cb_size ∧ s1.cb_limit = tableABsig.cb_limit ∧
      (∀ j : Nat, slotAt s1 j =
        (slotAt tableABsig j).map (fun e => { e with signal := 0 })) ∧
      zjs_service_callbacks demoEnv 3 s1 = .ok (s1, []) :=
  have hc : Compact tableABsig :=
    compact_prefix16 2 [demoA.entry 0, { demoB.entry 1 with signal := 1 }] rfl 16
  ⟨demoEnv_inert, hc, rfl, rfl, compact_pass demoEnv demoEnv_inert tableABsig hc 3 (by decide)⟩

/-- Counterexample to C20 as stated: the only entry is a signalled Native entry whose
function pointer is `NULL`. The table has no gap and the callees are inert, but the pass
clears the flag and invokes nothing, because line 202 tests `c->function`. -/
theorem compact_pass_counterexample :
    demoEnv.Inert ∧ Compact tableNullSig ∧
    zjs_add_c_callback true true true 200 none State.init = .ok (tableNull, 0) ∧
    zjs_signal_callback 0 tableNull = .ok tableNullSig ∧
    slotAt tableNullSig 0 = some { demoNull.entry 0 with signal := 1 } ∧
    zjs_service_callbacks demoEnv 2 tableNullSig = .ok (tableNull, []) :=
  ⟨demoEnv_inert, tableNullSig_compact, rfl, rfl, rfl, rfl⟩

theorem service_loop_eq_run (env : Env) (fuel i : Nat) (s : State) :
    service_loop env fuel i s =
      match service_run env fuel i s with
      | (s1, tr, none) => .ok (s1, tr)
      | (_, _, some f) => .error f := by
  induction fuel generalizing i s with
  | zero => rfl
  | succ fuel ih =>
    simp only [service_loop, service_run]
    by_cases hi : (i : Int) < s.cb_size
    · rw [if_pos hi, if_pos hi]
      cases hent : service_entry env i s with
      | error f => rfl
      | ok p =>
        obtain ⟨s1, ev1⟩ := p
        simp only
        rw [ih (i + 1) s1]
        rcases hr : service_run env fuel (i + 1) s1 with ⟨s2, ev2, f⟩
        cases f <;> rfl
    · rw [if_neg hi, if_neg hi]

theorem service_entry_inert_cases (env : Env) (hin : env.Inert) (s : State) (i : Nat) :
    (∃ f, service_entry env i s = .error f ∧
      (slotAt s i = none → f = Fault.nullDeref ∨ f = Fault.outOfBounds)) ∨
    ∃ (m : Block) (e : zjs_callback_map), s.cb_map = some m ∧ m[i]? = some (some e) ∧
      service_entry env i s =
        .ok ({ s with cb_map := some (m.set i (some { e with signal := 0 })) },
          if e.signal ≠ 0 then
            entryEvents env i e
              { s with cb_map := some (m.set i (some { e with signal := 0 })) }
          else []) := by
  cases hmap : s.cb_map with
  | none =>
    left
    refine ⟨.nullDeref, ?_, fun _ => Or.inl rfl⟩
    simp [service_entry, getEntry, readSlot, hmap]
  | some m =>
    cases hx : m[i]? with
    | none =>
      left
      refine ⟨.outOfBounds, ?_, fun _ => Or.inr rfl⟩
      simp [service_entry, getEntry, readSlot, hmap, hx]
    | some x =>
      cases x with
      | none =>
        left
        refine ⟨.nullDeref, ?_, fun _ => Or.inl rfl⟩
        simp [service_entry, getEntry, readSlot, hmap, hx]
      | some e =>
        right
        exact ⟨m, e, rfl, hx, service_entry_inert_exact env hin s m hmap i e hx⟩

theorem entryEvents_index (env : Env) (i : Nat) (e : zjs_callback_map) (s : State)
    (ev : Event) (hev : ev ∈ entryEvents env i e s) : ev.index = i := by
  have h := entryEvents_atSlot env i i e s
  rw [if_pos rfl] at h
  rw [← h] at hev
  have := (List.mem_filter.1 hev).2
  simpa [Event.atSlot] using this

theorem service_run_inert_frame (env : Env) (hin : env.Inert) (fuel : Nat) :
    ∀ (i : Nat) (s : State),
      (service_run env fuel i s).1.cb_size = s.cb_size ∧
      (service_run env fuel i s).1.cb_limit = s.cb_limit ∧
      (∀ ev ∈ (service_run env fuel i s).2.1, i ≤ ev.index ∧ (ev.index : Int) < s.cb_size) ∧
      (∀ h : Nat, s.cb_size ≤ (h : Int) →
        slotAt (service_run env fuel i s).1 h = slotAt s h) := by
  induction fuel with
  | zero =>
    intro i s
    exact ⟨rfl, rfl, fun ev hev => absurd hev (List.not_mem_nil ev), fun _ _ => rfl⟩
  | succ fuel ih =>
    intro i s
    simp only [service_run]
    by_cases hi : (i : Int) < s.cb_size
    · rw [if_pos hi]
      rcases service_entry_inert_cases env hin s i with ⟨f, hf, -⟩ | ⟨m, e, hm, he, hent⟩
      · rw [hf]
        exact ⟨rfl, rfl, fun ev hev => absurd hev (List.not_mem_nil ev), fun _ _ => rfl⟩
      · rw [hent]
        simp only
        obtain ⟨h1, h2, h3, h4⟩ :=
          ih (i + 1) { s with cb_map := some (m.set i (some { e with signal := 0 })) }
        have hlt := lt_length_of_getElem? m i _ he
        refine ⟨h1, h2, ?_, ?_⟩
        · intro ev hev
          rw [List.mem_append] at hev
          rcases hev with hev | hev
          · split at hev
            · rw [entryEvents_index env i e _ ev hev]
              exact ⟨Nat.le_refl i, hi⟩
            · cases hev
          · have := h3 ev hev
            exact ⟨by omega, this.2⟩
        · intro h hh
          rw [h4 h hh, slotAt_mk, slotAt_set m i h _ hlt, if_neg (by omega),
            slotAt_eq s m hm]
    · rw [if_neg hi]
      exact ⟨rfl, rfl, fun ev hev => absurd hev (List.not_mem_nil ev), fun _ _ => rfl⟩

theorem liveCount_pos (m : Block) (h : Nat) (e : zjs_callback_map)
    (he : m[h]? = some (some e)) : 1 ≤ liveCount m := by
  induction m generalizing h with
  | nil => simp at he
  | cons x rest ih =>
    cases h with
    | zero =>
      simp at he
      subst he
      simp [liveCount]
    | succ h =>
      rw [List.getElem?_cons_succ] at he
      have := ih h he
      cases x <;> simp only [liveCount] <;> omega

theorem liveCount_prefix (m : Block) (c h : Nat) (e : zjs_callback_map)
    (hpre : ∀ j, j < c → ∃ x, m[j]? = some (some x)) (hch : c ≤ h)
    (he : m[h]? = some (some e)) : c + 1 ≤ liveCount m := by
  induction m generalizing c h with
  | nil => simp at he
  | cons x rest ih =>
    cases c with
    | zero =>
      have := liveCount_pos (x :: rest) h e he
      omega
    | succ c =>
      obtain ⟨x0, hx0⟩ := hpre 0 (by omega)
      simp at hx0
      subst hx0
      cases h with
      | zero => omega
      | succ h =>
        rw [List.getElem?_cons_succ] at he
        have hpre2 : ∀ j, j < c → ∃ y, rest[j]? = some (some y) := by
          intro j hj
          have := hpre (j + 1) (by omega)
          rwa [List.getElem?_cons_succ] at this
        have := ih c h hpre2 (by omega) he
        simp only [liveCount]
        omega

theorem first_gap (m : Block) (h : Nat) (e : zjs_callback_map)
    (he : m[h]? = some (some e)) (hch : liveCount m ≤ h) :
    ∃ k, k < liveCount m ∧ m[k]? = some none ∧ ∀ j, j < k → ∃ x, m[j]? = some (some x) := by
  have hlt := lt_length_of_getElem? m h _ he
  cases hs : scanFree m 0 with
  | none =>
    have := scanFree_none m 0 hs
    omega
  | some k =>
    obtain ⟨-, -, hnone, hbelow⟩ := scanFree_some m 0 k hs
    simp only [Nat.sub_zero] at hnone hbelow
    refine ⟨k, ?_, hnone, hbelow⟩
    by_contra hk
    have := liveCount_prefix m (liveCount m) h e
      (fun j hj => hbelow j (by omega)) hch he
    omega

theorem service_loop_inert_fault (env : Env) (hin : env.Inert) (d : Nat) :
    ∀ (i k : Nat) (s : State) (m : Block) (fuel : Nat), s.cb_map = some m → i + d = k →
      (∀ j, i ≤ j → j < k → ∃ x, m[j]? = some (some x)) → m[k]? = some none →
      (k : Int) < s.cb_size → d < fuel →
      service_loop env fuel i s = .error Fault.nullDeref := by
  induction d with
  | zero =>
    intro i k s m fuel hm hik hocc hnone hk hfuel
    obtain ⟨f, rfl⟩ : ∃ f, fuel = f + 1 := ⟨fuel - 1, by omega⟩
    have : i = k := by omega
    subst this
    have hr : readSlot s (i : Int) = .ok none :=
      (readSlot_ok s m hm _ _).2 ⟨by omega, by simpa using hnone⟩
    simp only [service_loop]
    rw [if_pos hk]
    simp [service_entry, getEntry, hr]
  | succ d ih =>
    intro i k s m fuel hm hik hocc hnone hk hfuel
    obtain ⟨f, rfl⟩ : ∃ f, fuel = f + 1 := ⟨fuel - 1, by omega⟩
    obtain ⟨e, he⟩ := hocc i (Nat.le_refl i) (by omega)
    have hent := service_entry_inert_exact env hin s m hm i e he
    have hrest := ih (i + 1) k
      { s with cb_map := some (m.set i (some { e with signal := 0 })) } _ f rfl (by omega)
      (fun j h1 h2 => by
        rw [List.getElem?_set_ne (by omega)]
        exact hocc j (by omega) h2)
      (by rw [List.getElem?_set_ne (by omega)]; exact hnone) hk (by omega)
    simp only [service_loop]
    rw [if_pos (by omega), hent]
    simp only [hrest]

/-- Claim C18: with callees that leave the table alone, the loop of
`zjs_service_callbacks` only touches the slots below `cb_size`: whether it completes or
is stopped by a fault, every call it made was for a slot below `cb_size`, and a slot `h`
at or above `cb_size` is not invoked and holds what it held before (a signalled entry
keeps its flag). Where `cb_size` is the live count, a live entry at such a slot means
that a slot below `cb_size` is empty, and the pass is stopped there by the dereference
of `NULL`. -/
theorem scan_bounded_by_count (env : Env) (hin : env.Inert) (s : State) (h fuel : Nat)
    (hh : s.cb_size ≤ (h : Int)) :
    (zjs_service_callbacks env fuel s =
      match service_run env fuel 0 s with
      | (s1, tr, none) => .ok (s1, tr)
      | (_, _, some f) => .error f) ∧
    (∀ ev ∈ (service_run env fuel 0 s).2.1, (ev.index : Int) < s.cb_size) ∧
    calls h (service_run env fuel 0 s).2.1 = 0 ∧
    slotAt (service_run env fuel 0 s).1 h = slotAt s h ∧
    (Inv s → occupied s h = true → s.cb_size.toNat < fuel →
      (service_run env fuel 0 s).2.2 = some Fault.nullDeref ∧
      zjs_service_callbacks env fuel s = .error Fault.nullDeref) := by
  obtain ⟨-, -, hev, hslot⟩ := service_run_inert_frame env hin fuel 0 s
  have hlink := service_loop_eq_run env fuel 0 s
  refine ⟨hlink, fun ev h1 => (hev ev h1).2, ?_, hslot h hh, ?_⟩
  · unfold calls
    rw [List.length_eq_zero]
    apply List.filter_eq_nil_iff.2
    intro ev h1 h2
    have h3 := (hev ev h1).2
    have h4 : ev.index = h := by
      cases ev <;> simp [Event.isCallOf, Event.index] at h2 ⊢ <;> exact h2
    omega
  · intro hinv hocc hfuel
    obtain ⟨m, hm, hlen, hsz, -, -⟩ := hinv
    have hx : ∃ e, m[h]? = some (some e) := by
      simp only [occupied, slotAt_eq s m hm] at hocc
      cases hy : m[h]? with
      | none => rw [hy] at hocc; simp at hocc
      | some y =>
        cases y with
        | none => rw [hy] at hocc; simp at hocc
        | some e => exact ⟨e, rfl⟩
    obtain ⟨e, he⟩ := hx
    obtain ⟨k, hk, hnone, hbelow⟩ := first_gap m h e he (by omega)
    have hfault : service_loop env fuel 0 s = .error Fault.nullDeref :=
      service_loop_inert_fault env hin k 0 k s m fuel hm (Nat.zero_add k)
        (fun j _ hj => hbelow j hj) hnone (by omega) (by omega)
    refine ⟨?_, hfault⟩
    rw [hfault] at hlink
    rcases hr : service_run env fuel 0 s with ⟨s1, tr, f⟩
    rw [hr] at hlink
    cases f with
    | none => simp at hlink
    | some f =>
      simp only [Except.error.injEq] at hlink
      rw [← hlink]

/-- Witness for C18: only handle 1 is live and signalled, `cb_size` is 1. The loop stops
at the empty slot 0; the entry at index 1 is not invoked and keeps its flag. -/
theorem scan_bounded_by_count_witness :
    demoEnv.Inert ∧ tableBsig.cb_size ≤ ((1 : Nat) : Int) ∧ Reachable tableBsig ∧
    service_run demoEnv 2 0 tableBsig = (tableBsig, [], some Fault.nullDeref) ∧
    ((zjs_service_callbacks demoEnv 2 tableBsig =
      match service_run demoEnv 2 0 tableBsig with
      | (s1, tr, none) => .ok (s1, tr)
      | (_, _, some f) => .error f) ∧
    (∀ ev ∈ (service_run demoEnv 2 0 tableBsig).2.1, (ev.index : Int) < tableBsig.cb_size) ∧
    calls 1 (service_run demoEnv 2 0 tableBsig).2.1 = 0 ∧
    slotAt (service_run demoEnv 2 0 tableBsig).1 1 = slotAt tableBsig 1 ∧
    (Inv tableBsig → occupied tableBsig 1 = true → tableBsig.cb_size.toNat < 2 →
      (service_run demoEnv 2 0 tableBsig).2.2 = some Fault.nullDeref ∧
      zjs_service_callbacks demoEnv 2 tableBsig = .error Fault.nullDeref)) :=
  ⟨demoEnv_inert, by decide, reachable_runOps [Op.remove 0, Op.signal 1] tableAB tableBsig
      tableAB_reachable rfl, rfl,
    scan_bounded_by_count demoEnv demoEnv_inert tableBsig 1 2 (by decide)⟩

theorem payloads_set (m : Block) (i : Nat) (e : zjs_callback_map) (sig : Nat)
    (he : m[i]? = some (some e)) :
    payloads (m.set i (some { e with signal := sig })) = payloads m := by
  have hlt := lt_length_of_getElem? m i _ he
  apply List.ext_getElem?
  intro j
  simp only [payloads, List.getElem?_map]
  by_cases hij : i = j
  · subst hij
    rw [List.getElem?_set_self hlt, he]
    rfl
  · rw [List.getElem?_set_ne hij]

theorem payloads_get (m m1 : Block) (hp : payloads m1 = payloads m) (j : Nat)
    (e : zjs_callback_map) (he : m[j]? = some (some e)) :
    ∃ e1, m1[j]? = some (some e1) ∧ e1.u = e.u := by
  have h1 : (payloads m1)[j]? = (payloads m)[j]? := by rw [hp]
  simp only [payloads, List.getElem?_map, he, Option.map_some'] at h1
  cases hx : m1[j]? with
  | none => rw [hx] at h1; simp at h1
  | some x =>
    rw [hx] at h1
    cases x with
    | none => simp at h1
    | some e1 =>
      simp only [Option.map_some', Option.some.injEq] at h1
      exact ⟨e1, rfl, h1⟩

theorem callable_congr (env : Env) (e e1 : zjs_callback_map) (hu : e1.u = e.u) :
    callable env e1 = callable env e := by
  unfold callable
  rw [hu]

theorem handlerSignals_congr (env : Env) (e e1 : zjs_callback_map) (h : Int)
    (hu : e1.u = e.u) (hs : env.HandlerSignals e h) : env.HandlerSignals e1 h := by
  unfold Env.HandlerSignals at hs ⊢
  rw [hu]
  exact hs

theorem service_js_signals (env : Env) (h : Nat) (hin : env.SignalsOnly (h : Int))
    (s : State) (m : Block) (hm : s.cb_map = some m) (i : Nat) (e eh : zjs_callback_map)
    (cb : zjs_callback_t) (he : m[i]? = some (some e)) (hu : e.u = .js cb)
    (heh : m[h]? = some (some eh)) :
    ∃ (s1 : State) (tr : List Event), service_js env i s = .ok (s1, tr) ∧
      (s1 = s ∨ s1 = { s with cb_map := some (m.set h (some { eh with signal := 1 })) }) ∧
      (∀ k, calls k tr = if k = i then 1 else 0) ∧
      ((∀ (t : jerry_value_t) (args : List jerry_value_t) (args_cnt : Nat) (st : State),
          ∃ v, env.jerry_call_function cb.js_func t args args_cnt st =
            match zjs_signal_callback (h : Int) st with
            | .ok s1 => .ok (v, s1)
            | .error x => .error x) →
        s1 = { s with cb_map := some (m.set h (some { eh with signal := 1 })) }) := by
  obtain ⟨hpre, hcall, hpost, -⟩ := hin
  have hjs := getJs_ok s m hm i e cb he hu
  have hsig := signal_live s m hm h eh heh
  have hP : ∃ args cnt ev, service_pre env i s = .ok (args, cnt, s, ev) ∧
      ∀ k, calls k ev = 0 := by
    unfold service_pre
    rw [hjs]
    dsimp only
    cases hp : cb.pre with
    | none => exact ⟨[], 0, [], rfl, fun k => rfl⟩
    | some p =>
      obtain ⟨args, cnt, ha⟩ := hpre p cb.handle s
      dsimp only
      rw [ha]
      exact ⟨args, cnt, _, rfl, fun k => rfl⟩
  have hQ : ∀ (st : State), getJs st (i : Int) = .ok cb →
      ∃ ev, service_post env i st = .ok (st, ev) ∧ ∀ k, calls k ev = 0 := by
    intro st hst
    unfold service_post
    rw [hst]
    dsimp only
    cases hp : cb.post with
    | none => exact ⟨[], rfl, fun k => rfl⟩
    | some p =>
      dsimp only
      rw [hpost p cb.handle env.ret_val st]
      exact ⟨_, rfl, fun k => rfl⟩
  have hjs2 : getJs ({ s with cb_map := some (m.set h (some { eh with signal := 1 })) } : State)
      (i : Int) = .ok cb := by
    have hlt := lt_length_of_getElem? m h _ heh
    by_cases hih : h = i
    · subst hih
      rw [he] at heh
      simp only [Option.some.injEq] at heh
      subst heh
      exact getJs_ok _ _ rfl h { e with signal := 1 } cb (List.getElem?_set_self hlt) hu
    · exact getJs_ok _ _ rfl i e cb (by rw [List.getElem?_set_ne hih]; exact he) hu
  obtain ⟨args, cnt, ev1, h1, hc1⟩ := hP
  have hcount : ∀ (ev1 ev3 : List Event), (∀ k, calls k ev1 = 0) → (∀ k, calls k ev3 = 0) →
      ∀ k, calls k (ev1 ++ [Event.js_call i cb.js_func env.ZJS_UNDEFINED args cnt] ++ ev3) =
        if k = i then 1 else 0 := by
    intro a b ha hb k
    rw [calls_append, calls_append, ha, hb]
    by_cases hk : k = i
    · subst hk; simp [calls, Event.isCallOf]
    · have : (i == k) = false := by simpa using fun hc => hk hc.symm
      simp [calls, Event.isCallOf, hk, this]
  have hrun : ∀ (st : State) (v : jerry_value_t),
      env.jerry_call_function cb.js_func env.ZJS_UNDEFINED args cnt s = .ok (v, st) →
      getJs st (i : Int) = .ok cb →
      ∃ tr, service_js env i s = .ok (st, tr) ∧ ∀ k, calls k tr = if k = i then 1 else 0 := by
    intro st v hv hst
    obtain ⟨ev3, h3, hc3⟩ := hQ st hst
    have h2 : service_call env i args cnt s =
        .ok (st, [Event.js_call i cb.js_func env.ZJS_UNDEFINED args cnt]) := by
      unfold service_call
      rw [hjs]
      simp only [hv]
    refine ⟨ev1 ++ [Event.js_call i cb.js_func env.ZJS_UNDEFINED args cnt] ++ ev3, ?_,
      hcount ev1 ev3 hc1 hc3⟩
    unfold service_js
    rw [h1]
    simp only [h2, h3]
  have hsigrun : ∀ v, env.jerry_call_function cb.js_func env.ZJS_UNDEFINED args cnt s =
        (match zjs_signal_callback (h : Int) s with
          | .ok s1 => .ok (v, s1)
          | .error x => .error x) →
      ∃ tr, service_js env i s =
          .ok ({ s with cb_map := some (m.set h (some { eh with signal := 1 })) }, tr) ∧
        ∀ k, calls k tr = if k = i then 1 else 0 := by
    intro v hv
    rw [hsig] at hv
    exact hrun _ v hv hjs2
  obtain ⟨v, hv | hv⟩ := hcall cb.js_func env.ZJS_UNDEFINED args cnt s
  · obtain ⟨tr, ht, hc⟩ := hrun s v hv hjs
    refine ⟨s, tr, ht, Or.inl rfl, hc, ?_⟩
    intro hall
    obtain ⟨v2, hv2⟩ := hall env.ZJS_UNDEFINED args cnt s
    obtain ⟨tr2, ht2, -⟩ := hsigrun v2 hv2
    rw [ht] at ht2
    simp only [Except.ok.injEq, Prod.mk.injEq] at ht2
    exact ht2.1
  · obtain ⟨tr, ht, hc⟩ := hsigrun v hv
    exact ⟨_, tr, ht, Or.inr rfl, hc, fun _ => rfl⟩

theorem handler_phase (env : Env) (h : Nat) (hin : env.SignalsOnly (h : Int)) (s : State)
    (m : Block) (hm : s.cb_map = some m) (i : Nat) (e e0 eh : zjs_callback_map)
    (he : m[i]? = some (some e0)) (hu0 : e0.u = e.u) (heh : m[h]? = some (some eh)) :
    ∃ (s1 : State) (tr : List Event),
      (match e.u with
        | .js cb =>
          if env.jerry_value_is_function cb.js_func then service_js env i s
          else .ok (s, [])
        | .c cb =>
          match cb.function with
          | none => .ok (s, [])
          | some f =>
            match env.c_function f cb.handle s with
            | .error f => .error f
            | .ok s2 => .ok (s2, [Event.c_call i f cb.handle])) = .ok (s1, tr) ∧
      (s1 = s ∨ s1 = { s with cb_map := some (m.set h (some { eh with signal := 1 })) }) ∧
      (∀ k, calls k tr = if k = i ∧ callable env e = true then 1 else 0) ∧
      (callable env e = true → env.HandlerSignals e (h : Int) →
        s1 = { s with cb_map := some (m.set h (some { eh with signal := 1 })) }) := by
  have hsig := signal_live s m hm h eh heh
  cases hu : e.u with
  | js cb =>
    simp only
    by_cases hf : env.jerry_value_is_function cb.js_func = true
    · rw [if_pos hf]
      obtain ⟨s1, tr, h1, h2, h3, h4⟩ :=
        service_js_signals env h hin s m hm i e0 eh cb he (by rw [hu0, hu]) heh
      refine ⟨s1, tr, h1, h2, ?_, ?_⟩
      · intro k
        rw [h3 k]
        simp [callable, hu, hf]
      · intro _ hs
        apply h4
        simp only [Env.HandlerSignals, hu] at hs
        exact hs
    · rw [if_neg hf]
      refine ⟨s, [], rfl, Or.inl rfl, ?_, ?_⟩
      · intro k
        simp [callable, hu, hf, calls]
      · intro hc
        simp [callable, hu, hf] at hc
  | c cb =>
    simp only
    cases hfn : cb.function with
    | none =>
      refine ⟨s, [], rfl, Or.inl rfl, ?_, ?_⟩
      · intro k
        simp [callable, hu, hfn, calls]
      · intro hc
        simp [callable, hu, hfn] at hc
    | some f =>
      simp only
      have hcount : ∀ k, calls k [Event.c_call i f cb.handle] =
          if k = i ∧ callable env e = true then 1 else 0 := by
        intro k
        by_cases hk : k = i
        · subst hk; simp [calls, Event.isCallOf, callable, hu, hfn]
        · have : (i == k) = false := by simpa using fun hc => hk hc.symm
          simp [calls, Event.isCallOf, hk, this]
      rcases hin.2.2.2 f cb.handle s with hv | hv
      · refine ⟨s, _, by rw [hv], Or.inl rfl, hcount, ?_⟩
        intro _ hs
        simp only [Env.HandlerSignals, hu] at hs
        have := hs f hfn s
        rw [hv, hsig] at this
        simp only [Except.ok.injEq] at this
        exact this
      · rw [hsig] at hv
        exact ⟨_, _, by rw [hv], Or.inr rfl, hcount, fun _ _ => rfl⟩

theorem service_entry_signals (env : Env) (h : Nat) (hin : env.SignalsOnly (h : Int))
    (s : State) (m : Block) (hm : s.cb_map = some m) (i : Nat) (e eh : zjs_callback_map)
    (he : m[i]? = some (some e)) (heh : m[h]? = some (some eh)) :
    ∃ (s1 : State) (m1 : Block) (tr : List Event),
      service_entry env i s = .ok (s1, tr) ∧ s1.cb_map = some m1 ∧
      s1.cb_size = s.cb_size ∧ s1.cb_limit = s.cb_limit ∧ payloads m1 = payloads m ∧
      (∀ k, calls k tr = if k = i ∧ e.signal ≠ 0 ∧ callable env e = true then 1 else 0) ∧
      (i ≠ h → m1[h]? = some (some eh) ∨ m1[h]? = some (some { eh with signal := 1 })) ∧
      (i = h → e.signal ≠ 0 → callable env e = true → env.HandlerSignals e (h : Int) →
        m1[h]? = some (some { e with signal := 1 })) := by
  have hlti := lt_length_of_getElem? m i _ he
  have hlth := lt_length_of_getElem? m h _ heh
  unfold service_entry
  rw [getEntry_ok s m hm i e he]
  simp only
  by_cases hsig : e.signal ≠ 0
  · rw [if_pos hsig, writeSlot_live s m hm i _ _ he]
    simp only
    have hget : (m.set i (some { e with signal := 0 }))[i]? =
        some (some { e with signal := 0 }) := List.getElem?_set_self hlti
    have hp0 : payloads (m.set i (some { e with signal := 0 })) = payloads m :=
      payloads_set m i e 0 he
    by_cases hih : i = h
    · subst hih
      rw [he] at heh
      simp only [Option.some.injEq] at heh
      subst heh
      obtain ⟨s1, tr, h1, h2, h3, h4⟩ := handler_phase env i hin
        { s with cb_map := some (m.set i (some { e with signal := 0 })) } _ rfl i e
        { e with signal := 0 } { e with signal := 0 } hget rfl hget
      have hset : (m.set i (some { e with signal := 0 })).set i
          (some { ({ e with signal := 0 } : zjs_callback_map) with signal := 1 }) =
          m.set i (some { e with signal := 1 }) := by
        rw [List.set_set]
      rw [hset] at h2 h4
      rcases h2 with h2 | h2
      · refine ⟨s1, _, tr, h1, by rw [h2], by rw [h2], by rw [h2], hp0, ?_,
          fun hc => absurd rfl hc, ?_⟩
        · intro k; rw [h3 k]; simp [hsig]
        · intro _ _ hc hs
          have := h4 hc hs
          rw [h2] at this
          simp only [State.mk.injEq, true_and, Option.some.injEq] at this
          rw [this]
          exact List.getElem?_set_self hlti
      · refine ⟨s1, _, tr, h1, by rw [h2], by rw [h2], by rw [h2],
          payloads_set m i e 1 he, ?_, fun hc => absurd rfl hc, ?_⟩
        · intro k; rw [h3 k]; simp [hsig]
        · intro _ _ _ _
          exact List.getElem?_set_self hlti
    · have hgeth : (m.set i (some { e with signal := 0 }))[h]? = some (some eh) := by
        rw [List.getElem?_set_ne hih]; exact heh
      obtain ⟨s1, tr, h1, h2, h3, -⟩ := handler_phase env h hin
        { s with cb_map := some (m.set i (some { e with signal := 0 })) } _ rfl i e
        { e with signal := 0 } eh hget rfl hgeth
      have hlth0 : h < (m.set i (some { e with signal := 0 })).length := by
        simpa using hlth
      rcases h2 with h2 | h2
      · refine ⟨s1, _, tr, h1, by rw [h2], by rw [h2], by rw [h2], hp0, ?_,
          fun _ => Or.inl hgeth, fun hc => absurd hc hih⟩
        intro k; rw [h3 k]; simp [hsig]
      · refine ⟨s1, _, tr, h1, by rw [h2], by rw [h2], by rw [h2], ?_, ?_,
          fun _ => Or.inr (List.getElem?_set_self hlth0), fun hc => absurd hc hih⟩
        · rw [payloads_set _ h eh 1 hgeth, hp0]
        · intro k; rw [h3 k]; simp [hsig]
  · rw [if_neg hsig]
    refine ⟨s, m, [], rfl, hm, rfl, rfl, rfl, ?_, fun _ => Or.inl heh, ?_⟩
    · intro k
      simp [calls, hsig]
    · intro _ hc
      exact absurd hc hsig

theorem service_loop_signals (env : Env) (h : Nat) (hin : env.SignalsOnly (h : Int))
    (k : Nat) :
    ∀ (i : Nat) (s : State) (m : Block) (eh : zjs_callback_map) (fuel : Nat),
      s.cb_map = some m → (i : Int) + (k : Int) = s.cb_size →
      (∀ j : Nat, i ≤ j → (j : Int) < s.cb_size → ∃ e, m[j]? = some (some e)) →
      m[h]? = some (some eh) → (h : Int) < s.cb_size → k < fuel →
      ∃ (s1 : State) (m1 : Block) (tr : List Event),
        service_loop env fuel i s = .ok (s1, tr) ∧ s1.cb_map = some m1 ∧
        s1.cb_size = s.cb_size ∧ s1.cb_limit = s.cb_limit ∧ payloads m1 = payloads m ∧
        (i ≤ h → eh.signal ≠ 0 → callable env eh = true → env.HandlerSignals eh (h : Int) →
          calls h tr = 1 ∧ m1[h]? = some (some { eh with signal := 1 })) ∧
        (h < i → calls h tr = 0 ∧ (eh.signal = 1 → m1[h]? = some (some eh))) := by
  induction k with
  | zero =>
    intro i s m eh fuel hm hk hocc heh hh hfuel
    obtain ⟨f, rfl⟩ : ∃ f, fuel = f + 1 := ⟨fuel - 1, by omega⟩
    refine ⟨s, m, [], ?_, hm, rfl, rfl, rfl, fun hc => by omega, fun _ => ⟨rfl, fun _ => heh⟩⟩
    simp only [service_loop]
    rw [if_neg (by omega)]
  | succ k ih =>
    intro i s m eh fuel hm hk hocc heh hh hfuel
    obtain ⟨f, rfl⟩ : ∃ f, fuel = f + 1 := ⟨fuel - 1, by omega⟩
    have hi : (i : Int) < s.cb_size := by omega
    obtain ⟨e, he⟩ := hocc i (Nat.le_refl i) hi
    obtain ⟨s0, m0, tr1, hent, hm0, hsz0, hlim0, hp0, hc1, hne, heq⟩ :=
      service_entry_signals env h hin s m hm i e eh he heh
    have hocc0 : ∀ j : Nat, i + 1 ≤ j → (j : Int) < s0.cb_size →
        ∃ x, m0[j]? = some (some x) := by
      intro j h1 h2
      obtain ⟨x, hx⟩ := hocc j (by omega) (by omega)
      obtain ⟨x1, hx1, -⟩ := payloads_get m m0 hp0 j x hx
      exact ⟨x1, hx1⟩
    obtain ⟨eh0, heh0, hu0⟩ := payloads_get m m0 hp0 h eh heh
    obtain ⟨s1, m1, tr2, hloop, hm1, hsz1, hlim1, hp1, hA, hB⟩ :=
      ih (i + 1) s0 m0 eh0 f hm0 (by push_cast; omega) hocc0 heh0 (by omega) (by omega)
    refine ⟨s1, m1, tr1 ++ tr2, ?_, hm1, by omega, by omega, by rw [hp1, hp0], ?_, ?_⟩
    · simp only [service_loop]
      rw [if_pos hi, hent]
      simp only [hloop]
    · intro hih hsig hcall hs
      rw [calls_append, hc1 h]
      rcases Nat.lt_or_ge i h with hlt | hge
      · have hneq : i ≠ h := by omega
        have hcase := hne hneq
        have hsig0 : eh0.signal ≠ 0 := by
          rcases hcase with hc | hc <;> rw [heh0] at hc <;>
            simp only [Option.some.injEq] at hc <;> rw [hc]
          · exact hsig
          · simp
        obtain ⟨h1, h2⟩ := hA (by omega) hsig0 (by rw [callable_congr env eh eh0 hu0]; exact hcall)
          (handlerSignals_congr env eh eh0 _ hu0 hs)
        refine ⟨?_, ?_⟩
        · rw [h1]
          have : ¬ (h = i ∧ e.signal ≠ 0 ∧ callable env e = true) := fun hc => hneq hc.1.symm
          rw [if_neg this]
        · rw [h2, hu0]
      · have hieq : i = h := by omega
        subst hieq
        rw [he] at heh
        simp only [Option.some.injEq] at heh
        subst heh
        have h0 := heq rfl hsig hcall hs
        rw [heh0] at h0
        simp only [Option.some.injEq] at h0
        obtain ⟨h1, h2⟩ := hB (Nat.lt_succ_self i)
        refine ⟨?_, ?_⟩
        · rw [h1, if_pos ⟨rfl, hsig, hcall⟩]
        · have := h2 (by rw [h0])
          rw [this, h0]
    · intro hlt
      have hneq : i ≠ h := by omega
      obtain ⟨h1, h2⟩ := hB (by omega)
      refine ⟨?_, ?_⟩
      · rw [calls_append, hc1 h, h1]
        have : ¬ (h = i ∧ e.signal ≠ 0 ∧ callable env e = true) := fun hc => hneq hc.1.symm
        rw [if_neg this]
      · intro hone
        have hcase := hne hneq
        have heq0 : eh0 = eh := by
          rcases hcase with hc | hc <;> rw [heh0] at hc <;>
            simp only [Option.some.injEq] at hc <;> rw [hc]
          cases eh
          simp only at hone
          subst hone
          rfl
        rw [← heq0]
        apply h2
        rw [heq0]; exact hone

theorem resignalEnv_signalsOnly : resignalEnv.SignalsOnly ((1 : Nat) : Int) := by
  refine ⟨fun _ _ _ => ⟨_, _, rfl⟩, fun _ _ _ _ _ => ⟨5, Or.inl rfl⟩, fun _ _ _ _ => rfl, ?_⟩
  intro f c s
  by_cases hf : f = 9
  · right
    simp [resignalEnv, hf]
  · left
    simp [resignalEnv, hf]

theorem resignalEnv_handler :
    resignalEnv.HandlerSignals { demoB.entry 1 with signal := 1 } ((1 : Nat) : Int) := by
  intro f hf s
  have : f = 9 := by
    simp only [demoB, Registration.entry, Option.some.injEq] at hf
    exact hf.symm
  subst this
  rfl

/-- Claim C13: for every environment and table, the iteration of the loop for a
signalled entry whose handler passes the guard is the run of the handler (for a Scripted
entry: pre hook, script function, post hook) on the table in which the flag of that entry
is already 0, and what the handler leaves is what the iteration leaves: the flag is
cleared before the handler runs and not again afterwards. Hence, in a table without gaps,
when the entry at `h` is signalled and callable, its handler makes the call
`zjs_signal_callback h` during its invocation, and every other callee either leaves the
table alone or makes that same call, the pass calls the handler of `h` exactly once and
ends with the flag of `h` set, and the next pass calls it exactly once again. -/
theorem resignal_next_pass (env : Env) (s : State) (h : Nat) (e : zjs_callback_map)
    (fuel : Nat) (hc : Compact s) (hlive : slotAt s h = some e) (hsig : e.signal ≠ 0)
    (hcall : callable env e = true) (henv : env.SignalsOnly (h : Int))
    (hh : env.HandlerSignals e (h : Int)) (hfuel : s.cb_size.toNat < fuel) :
    (∀ (env2 : Env) (t : State) (m : Block) (i : Nat) (e2 : zjs_callback_map)
        (cb : zjs_c_callback_t) (f : Ptr),
      t.cb_map = some m → m[i]? = some (some e2) → e2.signal ≠ 0 → e2.u = .c cb →
      cb.function = some f →
      service_entry env2 i t =
        match env2.c_function f cb.handle
            { t with cb_map := some (m.set i (some { e2 with signal := 0 })) } with
        | .error x => .error x
        | .ok t2 => .ok (t2, [Event.c_call i f cb.handle])) ∧
    (∀ (env2 : Env) (t : State) (m : Block) (i : Nat) (e2 : zjs_callback_map)
        (cb : zjs_callback_t),
      t.cb_map = some m → m[i]? = some (some e2) → e2.signal ≠ 0 → e2.u = .js cb →
      env2.jerry_value_is_function cb.js_func = true →
      service_entry env2 i t =
        service_js env2 i { t with cb_map := some (m.set i (some { e2 with signal := 0 })) }) ∧
    ∃ (s1 s2 : State) (tr1 tr2 : List Event),
      zjs_service_callbacks env fuel s = .ok (s1, tr1) ∧ calls h tr1 = 1 ∧
      slotAt s1 h = some { e with signal := 1 } ∧
      zjs_service_callbacks env fuel s1 = .ok (s2, tr2) ∧ calls h tr2 = 1 ∧
      slotAt s2 h = some { e with signal := 1 } := by
  refine ⟨?_, ?_, ?_⟩
  · intro env2 t m i e2 cb f hm he2 hs2 hu hfn
    unfold service_entry
    rw [getEntry_ok t m hm i e2 he2]
    simp only
    rw [if_pos hs2, writeSlot_live t m hm i _ _ he2]
    simp only [hu, hfn]
  · intro env2 t m i e2 cb hm he2 hs2 hu hf
    unfold service_entry
    rw [getEntry_ok t m hm i e2 he2]
    simp only
    rw [if_pos hs2, writeSlot_live t m hm i _ _ he2]
    simp only [hu, hf, if_true]
  · have hlt := compact_lt s hc h e hlive
    cases hmap : s.cb_map with
    | none => simp [slotAt, hmap] at hlive
    | some m =>
      have he : m[h]? = some (some e) := (slotAt_eq_some s m hmap h e).1 hlive
      have hk : ((0 : Nat) : Int) + ((s.cb_size.toNat : Nat) : Int) = s.cb_size := by
        simp only [Int.toNat_of_nonneg (show (0 : Int) ≤ s.cb_size by omega)]
        omega
      obtain ⟨s1, m1, tr1, hrun1, hm1, hsz1, -, hp1, hA1, -⟩ :=
        service_loop_signals env h henv s.cb_size.toNat 0 s m e fuel hmap hk
          (fun j _ hj => compact_occ s m hmap hc j hj) he hlt hfuel
      obtain ⟨hc1, hs1⟩ := hA1 (Nat.zero_le h) hsig hcall hh
      have hocc1 : ∀ j : Nat, 0 ≤ j → (j : Int) < s1.cb_size →
          ∃ x, m1[j]? = some (some x) := by
        intro j _ hj
        obtain ⟨x, hx⟩ := compact_occ s m hmap hc j (by omega)
        obtain ⟨x1, hx1, -⟩ := payloads_get m m1 hp1 j x hx
        exact ⟨x1, hx1⟩
      obtain ⟨s2, m2, tr2, hrun2, hm2, -, -, -, hA2, -⟩ :=
        service_loop_signals env h henv s.cb_size.toNat 0 s1 m1 { e with signal := 1 } fuel
          hm1 (by rw [hsz1]; exact hk) hocc1 hs1 (by omega) hfuel
      obtain ⟨hc2, hs2⟩ := hA2 (Nat.zero_le h) (by simp) (by rw [← hcall]; rfl)
        (handlerSignals_congr env e _ _ rfl hh)
      exact ⟨s1, s2, tr1, tr2, hrun1, hc1, (slotAt_eq_some s1 m1 hm1 h _).2 hs1, hrun2, hc2,
        (slotAt_eq_some s2 m2 hm2 h _).2 hs2⟩

/-- Witness for C13: the native function 9 of the entry at handle 1 signals handle 1
during its invocation; each pass calls it once and ends with the flag set again. With
`probeEnv` the function finds its own flag 0 when it runs: it signals handle 1 and the
entry at handle 0 stays unsignalled. -/
theorem resignal_next_pass_witness :
    Compact tableABsig ∧ slotAt tableABsig 1 = some { demoB.entry 1 with signal := 1 } ∧
    resignalEnv.SignalsOnly ((1 : Nat) : Int) ∧
    resignalEnv.HandlerSignals { demoB.entry 1 with signal := 1 } ((1 : Nat) : Int) ∧
    zjs_service_callbacks resignalEnv 3 tableABsig =
      .ok (tableABsig, [Event.c_call 1 9 200]) ∧
    zjs_service_callbacks probeEnv 3 tableABsig =
      .ok (tableABsig, [Event.c_call 1 9 200]) ∧
    probeEnv.c_function 9 200 tableABsig = zjs_signal_callback 0 tableABsig ∧
    probeEnv.c_function 9 200 tableAB = zjs_signal_callback 1 tableAB ∧
    service_entry probeEnv 1 tableABsig =
      (match probeEnv.c_function 9 200 tableAB with
        | .error x => .error x
        | .ok t2 => .ok (t2, [Event.c_call 1 9 200])) ∧
    ∃ (s1 s2 : State) (tr1 tr2 : List Event),
      zjs_service_callbacks resignalEnv 3 tableABsig = .ok (s1, tr1) ∧ calls 1 tr1 = 1 ∧
      slotAt s1 1 = some { ({ demoB.entry 1 with signal := 1 } : zjs_callback_map) with
        signal := 1 } ∧
      zjs_service_callbacks resignalEnv 3 s1 = .ok (s2, tr2) ∧ calls 1 tr2 = 1 ∧
      slotAt s2 1 = some { ({ demoB.entry 1 with signal := 1 } : zjs_callback_map) with
        signal := 1 } :=
  have hc : Compact tableABsig :=
    compact_prefix16 2 [demoA.entry 0, { demoB.entry 1 with signal := 1 }] rfl 16
  have h := resignal_next_pass resignalEnv tableABsig 1 { demoB.entry 1 with signal := 1 } 3
    hc rfl (by decide) rfl resignalEnv_signalsOnly resignalEnv_handler (by decide)
  ⟨hc, rfl, resignalEnv_signalsOnly, resignalEnv_handler, rfl, rfl, rfl, rfl,
    h.1 probeEnv tableABsig _ 1 { demoB.entry 1 with signal := 1 }
      { id := 1, handle := 200, function := some 9 } 9 rfl rfl (by decide) rfl rfl,
    h.2.2⟩

theorem service_run_slot (env : Env) (hin : env.Inert) (s : State) (m : Block) (i : Nat)
    (e : zjs_callback_map) (fuel : Nat) (hm : s.cb_map = some m)
    (he : m[i]? = some (some e)) (hi : (i : Int) < s.cb_size) :
    ((service_run env (fuel + 1) i s).2.1).filter (Event.atSlot i) =
      if e.signal ≠ 0 then
        entryEvents env i e { s with cb_map := some (m.set i (some { e with signal := 0 })) }
      else [] := by
  simp only [service_run]
  rw [if_pos hi, service_entry_inert_exact env hin s m hm i e he]
  simp only
  obtain ⟨-, -, hev, -⟩ := service_run_inert_frame env hin fuel (i + 1)
    { s with cb_map := some (m.set i (some { e with signal := 0 })) }
  have hrest : List.filter (Event.atSlot i)
      (service_run env fuel (i + 1)
        { s with cb_map := some (m.set i (some { e with signal := 0 })) }).2.1 = [] := by
    apply List.filter_eq_nil_iff.2
    intro ev h1 h2
    have := (hev ev h1).1
    simp only [Event.atSlot, beq_iff_eq] at h2
    omega
  rw [List.filter_append, hrest, List.append_nil]
  split
  · rw [entryEvents_atSlot, if_pos rfl]
  · rfl

/-- Claim C16: with callees that leave the table alone, when the loop of
`zjs_service_callbacks` is at the index `i` of a signalled Scripted entry with a
callable function, the calls it makes for slot `i` (whatever happens at later indices)
are: the pre hook with the entry's context if there is one, then the script function
once, with the undefined receiver and with the argument list and count the pre hook
returned (the empty list and 0 without a pre hook), then the post hook if there is one.
On a table without gaps the pass reaches every entry, and this is the one call of the
handler of slot `i` in the pass. -/
theorem scripted_call_args (env : Env) (hin : env.Inert) (s : State) (m : Block) (i : Nat)
    (e : zjs_callback_map) (cb : zjs_callback_t) (fuel : Nat) (hm : s.cb_map = some m)
    (he : m[i]? = some (some e)) (hu : e.u = .js cb) (hsig : e.signal ≠ 0)
    (hf : env.jerry_value_is_function cb.js_func = true) (hi : (i : Int) < s.cb_size) :
    (cb.pre = none →
      ((service_run env (fuel + 1) i s).2.1).filter (Event.atSlot i) =
        [Event.js_call i cb.js_func env.ZJS_UNDEFINED [] 0] ++
          (match cb.post with
            | none => []
            | some q => [Event.post i q cb.handle env.ret_val])) ∧
    (∀ (p : Ptr) (args : List jerry_value_t) (args_cnt : Nat), cb.pre = some p →
      env.pre p cb.handle { s with cb_map := some (m.set i (some { e with signal := 0 })) } =
        .ok (args, args_cnt,
          { s with cb_map := some (m.set i (some { e with signal := 0 })) }) →
      ((service_run env (fuel + 1) i s).2.1).filter (Event.atSlot i) =
        [Event.pre i p cb.handle,
          Event.js_call i cb.js_func env.ZJS_UNDEFINED args args_cnt] ++
          (match cb.post with
            | none => []
            | some q => [Event.post i q cb.handle env.ret_val])) ∧
    (Compact s → s.cb_size.toNat < fuel →
      ∃ (s1 : State) (tr : List Event), zjs_service_callbacks env fuel s = .ok (s1, tr) ∧
        (cb.pre = none →
          tr.filter (Event.isCallOf i) =
            [Event.js_call i cb.js_func env.ZJS_UNDEFINED [] 0]) ∧
        (∀ (p : Ptr) (args : List jerry_value_t) (args_cnt : Nat), cb.pre = some p →
          env.pre p cb.handle (s.clearedBelow (i + 1)) =
            .ok (args, args_cnt, s.clearedBelow (i + 1)) →
          tr.filter (Event.isCallOf i) =
            [Event.js_call i cb.js_func env.ZJS_UNDEFINED args args_cnt])) := by
  have hslot := service_run_slot env hin s m i e fuel hm he hi
  rw [if_pos hsig] at hslot
  refine ⟨?_, ?_, ?_⟩
  · intro hp
    rw [hslot]
    simp only [entryEvents, hu, hf, if_true, hp]
  · intro p args cnt hp ha
    rw [hslot]
    simp only [hu] at ha
    simp only [entryEvents, hu, hf, if_true, hp, ha]
  · intro hc hfuel
    obtain ⟨s1, tr, hrun, h1, h2⟩ := scripted_pass_trace env hin s i e cb fuel hc
      ((slotAt_eq_some s m hm i e).2 he) hu hsig hf hfuel
    exact ⟨s1, tr, hrun, fun hp => (h1 hp).1, fun p args cnt hp ha => (h2 p args cnt hp ha).1⟩

/-- Witness for C16: the pre hook of `demoEnv` returns the list `[42]` with count 1, and
the pass calls the function 7 of the signalled entry once with the one argument 42. -/
theorem scripted_call_args_witness :
    demoEnv.Inert ∧ Compact tableAsig ∧
    tableAsig.cb_map = some (some { demoA.entry 0 with signal := 1 } ::
      List.replicate 15 none) ∧
    demoEnv.jerry_value_is_function 7 = true ∧ ((0 : Nat) : Int) < tableAsig.cb_size ∧
    demoEnv.pre 1 100 tableA = .ok ([42], 1, tableA) ∧
    zjs_service_callbacks demoEnv 2 tableAsig =
      .ok (tableA, [Event.pre 0 1 100, Event.js_call 0 7 0 [42] 1, Event.post 0 2 100 99]) ∧
    ((service_run demoEnv (2 + 1) 0 tableAsig).2.1).filter (Event.atSlot 0) =
      [Event.pre 0 1 100, Event.js_call 0 7 demoEnv.ZJS_UNDEFINED [42] 1] ++
        [Event.post 0 2 100 demoEnv.ret_val] ∧
    (Compact tableAsig → tableAsig.cb_size.toNat < 2 →
      ∃ (s1 : State) (tr : List Event),
        zjs_service_callbacks demoEnv 2 tableAsig = .ok (s1, tr) ∧
        ((some 1 : Option Ptr) = none →
          tr.filter (Event.isCallOf 0) =
            [Event.js_call 0 7 demoEnv.ZJS_UNDEFINED [] 0]) ∧
        (∀ (p : Ptr) (args : List jerry_value_t) (args_cnt : Nat),
          (some 1 : Option Ptr) = some p →
          demoEnv.pre p 100 (tableAsig.clearedBelow (0 + 1)) =
            .ok (args, args_cnt, tableAsig.clearedBelow (0 + 1)) →
          tr.filter (Event.isCallOf 0) =
            [Event.js_call 0 7 demoEnv.ZJS_UNDEFINED args args_cnt])) :=
  have h := scripted_call_args demoEnv demoEnv_inert tableAsig _ 0
    { demoA.entry 0 with signal := 1 }
    { id := 0, handle := 100, pre := some 1, post := some 2, js_func := 7 } 2 rfl rfl rfl
    (by decide) rfl (by decide)
  ⟨demoEnv_inert, tableAsig_compact, rfl, rfl, by decide, rfl, rfl,
    h.2.1 1 [42] 1 rfl rfl, h.2.2⟩

end Zjs
